import Mathlib

/-!
# Request parameter validation (package `dlshared`, file `http_request_utils.go`)

A shallow embedding of the parameter declaration / extraction / coercion /
validation pipeline of `HttpContext`, followed by theorems about it.

Modelling conventions

* Go strings are Lean strings; `len` is the byte length (`String.utf8ByteSize`).
* A Go `map[string]*HttpParam` is an association list; the order of the list is
  the order in which `range` visits the entries, so a statement quantified over
  all contexts is a statement about every iteration order.  Descriptors are
  owned by their map entry (no two keys share a pointer).
* The context is an initialised one (`Params` is a non-nil map and `Request` a
  non-nil request), as `NewHttpContext` builds it.
* A run-time panic (a failed type assertion) is the `Except.error` outcome.
* The request body is a reader whose successive `ReadAll` outcomes are listed;
  the context carries a ghost `log` of the runs of the body read of line 139 and
  of the JSON decode of line 148.
* The form lookups `r.FormValue` and `r.PostFormValue` of `net/http` parse the
  form on first use; on a urlencoded or multipart `POST`, `PUT` or `PATCH` this
  reads the body, the same stream line 139 reads (`Request.UnparsedForm`,
  `Request.ParseMultipartForm`).  Header and path lookups do not touch the body.
* Functions of the Go standard library that deal with floating point or with the
  JSON grammar (`json.Unmarshal`, `strconv.ParseFloat`, the `%g` verb) are
  parameters, collected in `Stdlib`.  `strings.TrimSpace`, `strconv.Atoi` and
  `strconv.ParseBool` are written out.
-/

set_option autoImplicit false

namespace Dlshared

/-! ## Values -/

/-- A `float64`, kept as its IEEE-754 bit pattern: the pipeline only stores and formats it. -/
structure Float64 where
  bits : Nat
deriving DecidableEq, Repr

/-- The dynamic values an `interface{}` holds in this file. -/
inductive GoValue where
  | nil
  | int (n : Int)
  | float64 (f : Float64)
  | string (s : String)
  | bool (b : Bool)
deriving DecidableEq, Repr

/-- What `json.Unmarshal` stores into an `interface{}`: `nil`, `bool`, `float64`,
`string`, `[]interface{}` or `map[string]interface{}`. -/
inductive Json where
  | null
  | bool (b : Bool)
  | number (f : Float64)
  | str (s : String)
  | arr (xs : List Json)
  | obj (fields : List (String × Json))

/-- Go `len` on a string: the number of bytes. -/
def len (s : String) : Nat := s.utf8ByteSize

/-- Modelled from the spec: the constant `nadaStr` is declared elsewhere in the package;
every use of it stands for "the empty string". -/
def nadaStr : String := ""

/-- An entry of `HttpContext.Errors`. -/
structure StackError where
  format : String
  cause : String
deriving DecidableEq, Repr

/-- Modelled from the spec: `NewStackError` is declared elsewhere in the package; it builds
the infrastructure error recorded in `Errors` from a format string and the cause. -/
def NewStackError (format cause : String) : StackError := { format := format, cause := cause }

/-! ## Types and constants (lines 30-46) -/

abbrev HttpParamDataType := Int
abbrev HttpParamType := Int

def HttpIntParam : HttpParamDataType := 0
def HttpStringParam : HttpParamDataType := 1
def HttpFloatParam : HttpParamDataType := 2
def HttpBoolParam : HttpParamDataType := 3

def HttpParamPost : HttpParamType := 0
def HttpParamJsonPost : HttpParamType := 1
def HttpParamQuery : HttpParamType := 2
def HttpParamHeader : HttpParamType := 3
def HttpParamPath : HttpParamType := 4

/-- The struct `HttpParam` (lines 60-73).  The field `Type` is called `ParamType` here.
Defaults are Go zero values, so that a struct literal lists the same fields as the source. -/
structure HttpParam where
  Name : String := ""
  InvalidErrorCode : String := ""
  DataType : HttpParamDataType := 0
  ParamType : HttpParamType := 0
  Required : Bool := false
  MinLength : Int := 0
  MaxLength : Int := 0
  Post : Bool := false
  Value : GoValue := GoValue.nil
  Raw : String := ""
  Valid : Bool := false
  Present : Bool := false
deriving DecidableEq, Repr

/-! ## The request and the standard library -/

/-- The state of `Request.Body`: the outcomes `(data, err)` of the successive `ReadAll` calls
still to come.  Once the list is used up the body is drained: `ReadAll` gives no data and no
error. -/
structure ReadCloser where
  pending : List (String × Option String)
deriving DecidableEq, Repr

/-- Go `ioutil.ReadAll` on the body: the data, the error (if any) and the reader afterwards. -/
def ReadAll (r : ReadCloser) : String × Option String × ReadCloser :=
  match r.pending with
  | [] => ("", none, r)
  | (data, err) :: rest => (data, err, { pending := rest })

/-- How `ParseMultipartForm` fills the form from what it reads off the body: from the data
and the error of the read, the lookups `PostFormValue` and `FormValue` of the parsed form. -/
abbrev FormDecoder := String → Option String → (String → String) × (String → String)

/-- The part of `*http.Request` the pipeline looks at.  Every lookup gives the first value
under the name, or the empty string when there is none; `Vars` is `mux.Vars(r)[name]`.
`PostFormValue` and `FormValue` are the lookups in the parsed form.  `UnparsedForm` is `none`
when a form lookup does not read the body: the form is parsed already, or the request is not
a `POST`, `PUT` or `PATCH` with a urlencoded or multipart body.  It is `some decode` when the
form is still to be parsed from the body: the first call of `r.FormValue` or
`r.PostFormValue` then reads the body to its end. -/
structure Request where
  PostFormValue : String → String
  FormValue : String → String
  HeaderGet : String → String
  Vars : String → String
  Body : ReadCloser
  UnparsedForm : Option FormDecoder := none

/-- Go `r.ParseMultipartForm`, which `r.FormValue` and `r.PostFormValue` call first: nothing
when the form is parsed; otherwise the body is read to its end and the form is filled from
what was read. -/
def Request.ParseMultipartForm (r : Request) : Request :=
  match r.UnparsedForm with
  | none => r
  | some decode =>
    match ReadAll r.Body with
    | (data, err, rest) =>
      { r with
        PostFormValue := (decode data err).1
        FormValue := (decode data err).2
        Body := rest
        UnparsedForm := none }

/-- Standard-library functions taken as parameters. -/
structure Stdlib where
  /-- Go `json.Unmarshal(body, &genJson)` with `genJson interface{}`. -/
  Unmarshal : String → Except String Json
  /-- Go `strconv.ParseFloat(s, 64)`; `none` when it returns an error. -/
  ParseFloat : String → Option Float64
  /-- Go `fmt.Sprintf("%g", f)`. -/
  FormatG : Float64 → String
  /-- Go `strconv.IntSize`: the width of `int` on the platform. -/
  IntSize : Nat

/-- Ghost events: the runs of the body read of line 139 and of the JSON decode of line 148. -/
inductive Effect where
  | bodyRead
  | jsonDecode
deriving DecidableEq, Repr

/-- The struct `HttpContext` (lines 48-58), without the response writer.  `log` is ghost. -/
structure HttpContext where
  Request : Request
  Params : List (String × HttpParam)
  ErrorCodes : List String
  Errors : List StackError
  postJson : Option (List (String × Json))
  body : String
  log : List Effect

/-! ## Standard library functions written out -/

/-- Go `unicode.IsSpace`. -/
def isSpace (c : Char) : Bool :=
  let n := c.toNat
  n = 0x09 || n = 0x0A || n = 0x0B || n = 0x0C || n = 0x0D || n = 0x20 || n = 0x85 || n = 0xA0
    || n = 0x1680 || (0x2000 ≤ n && n ≤ 0x200A) || n = 0x2028 || n = 0x2029 || n = 0x202F
    || n = 0x205F || n = 0x3000

/-- Go `strings.TrimSpace`: drop leading and trailing white space. -/
def TrimSpace (s : String) : String :=
  String.mk ((s.data.dropWhile isSpace).reverse.dropWhile isSpace).reverse

/-- The digit loop of `strconv.Atoi` / `ParseUint` in base 10: `none` on a byte that is not
a decimal digit. -/
def parseDigits : List Char → Nat → Option Nat
  | [], acc => some acc
  | c :: cs, acc =>
    if '0' ≤ c ∧ c ≤ '9' then parseDigits cs (acc * 10 + (c.toNat - '0'.toNat)) else none

/-- Go `strconv.Atoi` for an `int` of `intSize` bits; `none` when it returns an error (syntax
or range).  A leading `-` or `+` is dropped, the remaining bytes must be one or more decimal
digits, and the value must fit the `int`. -/
def Atoi (intSize : Nat) (s : String) : Option Int :=
  match s.data with
  | [] => none
  | c :: rest =>
    let ds : List Char := if c = '-' ∨ c = '+' then rest else c :: rest
    if ds = [] then none
    else
      match parseDigits ds 0 with
      | none => none
      | some un =>
        if c = '-' then
          if un > 2 ^ (intSize - 1) then none else some (-(un : Int))
        else
          if un ≥ 2 ^ (intSize - 1) then none else some (un : Int)

/-- Go `strconv.ParseBool`; `none` when it returns an error. -/
def ParseBool (str : String) : Option Bool :=
  if str ∈ ["1", "t", "T", "true", "TRUE", "True"] then some true
  else if str ∈ ["0", "f", "F", "false", "FALSE", "False"] then some false
  else none

/-! ## The pipeline -/

/-- The method `setPresentValue` (lines 85-88). -/
def HttpParam.setPresentValue (self : HttpParam) (value : GoValue) : HttpParam :=
  { self with Present := true, Value := value }

/-- The method `HasRawErrors` (line 115). -/
def HttpContext.HasRawErrors (self : HttpContext) : Bool := decide (self.Errors.length > 0)

/-- Line 139: `ctx.body, err = ioutil.ReadAll(ctx.Request.Body)`. -/
def readBody (ctx : HttpContext) : HttpContext × Option String :=
  match ReadAll ctx.Request.Body with
  | (data, err, rest) =>
    ({ ctx with
       body := data
       Request := { ctx.Request with Body := rest }
       log := ctx.log ++ [Effect.bodyRead] }, err)

/-- Lines 157-178: the string form of the field `name` of the decoded object. -/
def jsonFieldText (lib : Stdlib) (postJson : List (String × Json)) (name : String) : String :=
  match postJson.lookup name with
  | none => nadaStr
  | some Json.null => nadaStr
  | some (Json.bool b) => if b then "true" else "false"
  | some (Json.number f) => lib.FormatG f
  | some (Json.str s) => s
  | some (Json.arr _) => nadaStr
  | some (Json.obj _) => nadaStr

/-- The function `retrieveJsonParamValue` (lines 130-179).  The outcome `Except.error` is the
panic of the type assertion `genJson.(map[string]interface{})`. -/
def retrieveJsonParamValue (lib : Stdlib) (ctx : HttpContext) (param : HttpParam) :
    Except String (String × HttpContext) :=
  if ctx.Errors.length > 0 then Except.ok (nadaStr, ctx)
  else
    match (if len ctx.body = 0 then readBody ctx else (ctx, none)) with
    | (ctx1, some err) =>
      Except.ok (nadaStr, { ctx1 with Errors := ctx1.Errors ++
        [NewStackError "Error in raw data extraction - error: %v" err] })
    | (ctx1, none) =>
      match ctx1.postJson with
      | some m => Except.ok (jsonFieldText lib m param.Name, ctx1)
      | none =>
        match lib.Unmarshal ctx1.body with
        | Except.error err =>
          Except.ok (nadaStr,
            { ctx1 with
              log := ctx1.log ++ [Effect.jsonDecode]
              Errors := ctx1.Errors ++
                [NewStackError "Error in raw json data extraction - error: %v" err] })
        | Except.ok (Json.obj m) =>
          Except.ok (jsonFieldText lib m param.Name,
            { ctx1 with log := ctx1.log ++ [Effect.jsonDecode], postJson := some m })
        | Except.ok _ => Except.error "interface conversion: genJson is not a map[string]interface"

/-- The function `retrieveParamValue` (lines 119-128).  The calls `r.PostFormValue(name)` and
`r.FormValue(name)` parse the form first, which may read the body. -/
def retrieveParamValue (lib : Stdlib) (ctx : HttpContext) (param : HttpParam) :
    Except String (String × HttpContext) :=
  if param.ParamType = HttpParamPost then
    Except.ok (TrimSpace (ctx.Request.ParseMultipartForm.PostFormValue param.Name),
      { ctx with Request := ctx.Request.ParseMultipartForm })
  else if param.ParamType = HttpParamJsonPost then retrieveJsonParamValue lib ctx param
  else if param.ParamType = HttpParamQuery then
    Except.ok (TrimSpace (ctx.Request.ParseMultipartForm.FormValue param.Name),
      { ctx with Request := ctx.Request.ParseMultipartForm })
  else if param.ParamType = HttpParamHeader then
    Except.ok (TrimSpace (ctx.Request.HeaderGet param.Name), ctx)
  else if param.ParamType = HttpParamPath then
    Except.ok (TrimSpace (ctx.Request.Vars param.Name), ctx)
  else Except.ok (nadaStr, ctx)

/-- The function `appendInvalidErrorCode` (lines 181-184). -/
def appendInvalidErrorCode (ctx : HttpContext) (param : HttpParam) : HttpContext × HttpParam :=
  ({ ctx with ErrorCodes := ctx.ErrorCodes ++ [param.InvalidErrorCode] },
   { param with Valid := false })

/-- The function `validateIntParam` (lines 186-203). -/
def validateIntParam (lib : Stdlib) (ctx : HttpContext) (param : HttpParam) :
    Except String (HttpContext × HttpParam) :=
  match retrieveParamValue lib ctx param with
  | Except.error e => Except.error e
  | Except.ok (raw, ctx) =>
    let param := { param with Raw := raw }
    if len param.Raw = 0 ∧ param.Required = true then Except.ok (appendInvalidErrorCode ctx param)
    else if len param.Raw = 0 then Except.ok (ctx, param)
    else
      match Atoi lib.IntSize param.Raw with
      | none => Except.ok (appendInvalidErrorCode ctx param)
      | some val => Except.ok (ctx, param.setPresentValue (GoValue.int val))

/-- The function `validateStringParam` (lines 205-225). -/
def validateStringParam (lib : Stdlib) (ctx : HttpContext) (param : HttpParam) :
    Except String (HttpContext × HttpParam) :=
  match retrieveParamValue lib ctx param with
  | Except.error e => Except.error e
  | Except.ok (raw, ctx) =>
    let param := { param with Raw := raw }
    if len param.Raw = 0 ∧ param.Required = true then Except.ok (appendInvalidErrorCode ctx param)
    else if param.Required = true ∧ param.MinLength > 0 ∧ (len param.Raw : Int) < param.MinLength then
      Except.ok (appendInvalidErrorCode ctx param)
    else if param.Required = true ∧ param.MaxLength > 0 ∧ (len param.Raw : Int) > param.MaxLength then
      Except.ok (appendInvalidErrorCode ctx param)
    else Except.ok (ctx, param.setPresentValue (GoValue.string param.Raw))

/-- The function `validateFloatParam` (lines 227-244). -/
def validateFloatParam (lib : Stdlib) (ctx : HttpContext) (param : HttpParam) :
    Except String (HttpContext × HttpParam) :=
  match retrieveParamValue lib ctx param with
  | Except.error e => Except.error e
  | Except.ok (raw, ctx) =>
    let param := { param with Raw := raw }
    if len param.Raw = 0 ∧ param.Required = true then Except.ok (appendInvalidErrorCode ctx param)
    else if len param.Raw = 0 then Except.ok (ctx, param)
    else
      match lib.ParseFloat param.Raw with
      | none => Except.ok (appendInvalidErrorCode ctx param)
      | some val => Except.ok (ctx, param.setPresentValue (GoValue.float64 val))

/-- The function `validateBoolParam` (lines 247-265). -/
def validateBoolParam (lib : Stdlib) (ctx : HttpContext) (param : HttpParam) :
    Except String (HttpContext × HttpParam) :=
  match retrieveParamValue lib ctx param with
  | Except.error e => Except.error e
  | Except.ok (raw, ctx) =>
    let param := { param with Raw := raw }
    if len param.Raw = 0 ∧ param.Required = true then Except.ok (appendInvalidErrorCode ctx param)
    else if len param.Raw = 0 then Except.ok (ctx, param)
    else
      match ParseBool param.Raw with
      | none => Except.ok (appendInvalidErrorCode ctx param)
      | some val => Except.ok (ctx, param.setPresentValue (GoValue.bool val))

/-- The `switch param.DataType` of `ParamsAreValid` (lines 104-109); a data type outside the
four constants matches no case. -/
def validateParam (lib : Stdlib) (ctx : HttpContext) (param : HttpParam) :
    Except String (HttpContext × HttpParam) :=
  if param.DataType = HttpIntParam then validateIntParam lib ctx param
  else if param.DataType = HttpStringParam then validateStringParam lib ctx param
  else if param.DataType = HttpFloatParam then validateFloatParam lib ctx param
  else if param.DataType = HttpBoolParam then validateBoolParam lib ctx param
  else Except.ok (ctx, param)

/-- The loop `for _, param := range self.Params` (lines 103-110) over the entries still to
visit: the context after the loop and the entries as the loop leaves them. -/
def rangeParams (lib : Stdlib) :
    HttpContext → List (String × HttpParam) → Except String (HttpContext × List (String × HttpParam))
  | ctx, [] => Except.ok (ctx, [])
  | ctx, (name, param) :: rest =>
    match validateParam lib ctx param with
    | Except.error e => Except.error e
    | Except.ok (ctx1, param1) =>
      match rangeParams lib ctx1 rest with
      | Except.error e => Except.error e
      | Except.ok (ctx2, rest1) => Except.ok (ctx2, (name, param1) :: rest1)

/-- The method `ParamsAreValid` (lines 93-113): the returned boolean and the context after
the call. -/
def HttpContext.ParamsAreValid (lib : Stdlib) (self : HttpContext) :
    Except String (Bool × HttpContext) :=
  if self.Errors.length ≠ 0 then Except.ok (false, self)
  else if self.Params.length = 0 then Except.ok (true, self)
  else
    match rangeParams lib self self.Params with
    | Except.error e => Except.error e
    | Except.ok (ctx, params) =>
      Except.ok (decide (ctx.ErrorCodes.length = 0), { ctx with Params := params })

/-- The assignment `m[name] = param` on a map: replace the entry under `name`, or add one. -/
def mapAssign (m : List (String × HttpParam)) (name : String) (param : HttpParam) :
    List (String × HttpParam) :=
  match m with
  | [] => [(name, param)]
  | (k, v) :: rest => if k = name then (name, param) :: rest else (k, v) :: mapAssign rest name param

/-- The method `DefineIntParam` (lines 267-269). -/
def HttpContext.DefineIntParam (self : HttpContext) (name invalidErrorCode : String)
    (paramType : HttpParamType) (required : Bool) : HttpContext :=
  { self with
    Params := mapAssign self.Params name
      { Name := name, InvalidErrorCode := invalidErrorCode, DataType := HttpIntParam,
        Required := required, ParamType := paramType, Valid := true } }

/-- The method `DefineBoolParam` (lines 272-274). -/
def HttpContext.DefineBoolParam (self : HttpContext) (name invalidErrorCode : String)
    (paramType : HttpParamType) (required : Bool) : HttpContext :=
  { self with
    Params := mapAssign self.Params name
      { Name := name, InvalidErrorCode := invalidErrorCode, DataType := HttpBoolParam,
        Required := required, ParamType := paramType, Valid := true } }

/-- The method `DefineFloatParam` (lines 276-278). -/
def HttpContext.DefineFloatParam (self : HttpContext) (name invalidErrorCode : String)
    (paramType : HttpParamType) (required : Bool) : HttpContext :=
  { self with
    Params := mapAssign self.Params name
      { Name := name, InvalidErrorCode := invalidErrorCode, DataType := HttpFloatParam,
        Required := required, ParamType := paramType, Valid := true } }

/-- The method `DefineStringParam` (lines 280-282); `minLength` and `maxLength` are not used
by the body. -/
def HttpContext.DefineStringParam (self : HttpContext) (name invalidErrorCode : String)
    (paramType : HttpParamType) (required : Bool) (_minLength _maxLength : Int) : HttpContext :=
  { self with
    Params := mapAssign self.Params name
      { Name := name, InvalidErrorCode := invalidErrorCode, DataType := HttpStringParam,
        Required := required, ParamType := paramType, Valid := true } }

/-- The function `NewHttpContext` (lines 285-287). -/
def NewHttpContext (request : Request) : HttpContext :=
  { Request := request, Params := [], ErrorCodes := [], Errors := [], postJson := none,
    body := "", log := [] }

/-! ## Typed accessors (lines 75-82) -/

/-- The message of a run-time panic. -/
abbrev PanicMessage := String

/-- The method `Int` (line 76): the type assertion `self.Value.(int)` panics on any other
dynamic type. -/
def HttpParam.Int (self : HttpParam) : Except PanicMessage Int :=
  match self.Value with
  | GoValue.int n => Except.ok n
  | _ => Except.error "interface conversion: Value is not int"

/-- The method `Float` (line 78). -/
def HttpParam.Float (self : HttpParam) : Except PanicMessage Float64 :=
  match self.Value with
  | GoValue.float64 f => Except.ok f
  | _ => Except.error "interface conversion: Value is not float64"

/-- The method `Bool` (line 82). -/
def HttpParam.Bool (self : HttpParam) : Except PanicMessage Bool :=
  match self.Value with
  | GoValue.bool b => Except.ok b
  | _ => Except.error "interface conversion: Value is not bool"

/-- The method `String` (line 80). -/
def HttpParam.String (self : HttpParam) : Except PanicMessage String :=
  match self.Value with
  | GoValue.string s => Except.ok s
  | _ => Except.error "interface conversion: Value is not string"

/-! ## The verb `%g` on integer-valued numbers -/

/-- The decimal digits of `m`, least significant first; `fuel` bounds the number of digits. -/
def digitsLE : Nat → Nat → List Nat
  | 0, _ => []
  | fuel + 1, m => if m < 10 then [m] else (m % 10) :: digitsLE fuel (m / 10)

/-- The decimal text of a natural number. -/
def decimalText (m : Nat) : List Char :=
  (digitsLE (m + 1) m).reverse.map (fun d => Char.ofNat (48 + d))

/-- Drop the zeros at the end of a digit string. -/
def dropTrailingZeros (ds : List Char) : List Char :=
  (ds.reverse.dropWhile (fun c => c = '0')).reverse

/-- Go `fmt.Sprintf("%g", f)` for a `float64` `f` whose value is the integer `n`, for
`|n| < 2^53` (where the shortest digits that identify `f` are the digits of `n` without its
trailing zeros).  With the shortest precision the exponent form is used when the decimal
exponent is 6 or more: up to six digits the text is the plain decimal literal, from seven
digits on it is `d.ddde+XX`. -/
def formatGInt (n : Int) : String :=
  let ds := decimalText n.natAbs
  let sign : List Char := if n < 0 then ['-'] else []
  if ds.length ≤ 6 then String.mk (sign ++ ds)
  else
    let mantissa : List Char :=
      match dropTrailingZeros ds with
      | [] => []
      | [d] => [d]
      | d :: rest => d :: '.' :: rest
    let exp := ds.length - 1
    String.mk (sign ++ mantissa ++ ['e', '+'] ++
      (if exp < 10 then '0' :: decimalText exp else decimalText exp))

/-! ## Predicates used in the statements -/

/-- The descriptor `p` is what one of the four `Define*Param` methods stores under `name`. -/
def Registered (name : String) (p : HttpParam) : Prop :=
  ∃ (self : HttpContext) (code : String) (paramType : HttpParamType) (required : Bool),
    (self.DefineIntParam name code paramType required).Params.lookup name = some p ∨
    (self.DefineBoolParam name code paramType required).Params.lookup name = some p ∨
    (self.DefineFloatParam name code paramType required).Params.lookup name = some p ∨
    ∃ minLength maxLength : Int,
      (self.DefineStringParam name code paramType required minLength maxLength).Params.lookup name
        = some p

/-- The data type is one of the four constants of the `switch` in `ParamsAreValid`. -/
def IsDataType (t : HttpParamDataType) : Prop :=
  t = HttpIntParam ∨ t = HttpStringParam ∨ t = HttpFloatParam ∨ t = HttpBoolParam

/-- The body decodes to a JSON object, or fails to decode. -/
def DecodesToObjectOrFails (lib : Stdlib) (body : String) : Prop :=
  match lib.Unmarshal body with
  | Except.error _ => True
  | Except.ok (Json.obj _) => True
  | Except.ok _ => False

/-- With the cached body `body` and the reader `r`, the JSON extraction does not get a value
that is not an object: the read of the body (when none is cached) fails, or the body (cached,
or else as the next read delivers it) fails to decode or decodes to an object. -/
def NextReadOk (lib : Stdlib) (body : String) (r : ReadCloser) : Prop :=
  (len body = 0 ∧ (ReadAll r).2.1 ≠ none) ∨
  DecodesToObjectOrFails lib (if len body = 0 then (ReadAll r).1 else body)

/-- The JSON extraction of this context cannot hit the type assertion of line 154 on a value
that is not an object: an infrastructure error is already recorded, or the decoded object is
already cached, or the next read is harmless (`NextReadOk`) both with the reader as it is and
with the reader as the parse of the form leaves it (the same reader when a form lookup does
not read the body). -/
def JsonBodyOk (lib : Stdlib) (ctx : HttpContext) : Prop :=
  ctx.Errors ≠ [] ∨ ctx.postJson ≠ none ∨
    (NextReadOk lib ctx.body ctx.Request.Body ∧
      NextReadOk lib ctx.body ctx.Request.ParseMultipartForm.Body)

/-- The number a string of decimal digits denotes. -/
def decimalValue (digits : List Char) : Nat :=
  digits.foldl (fun acc c => 10 * acc + (c.toNat - 48)) 0

/-- The string `s` is a base-10 integer literal denoting `n`: an optional `+` or `-` sign
followed by one or more decimal digits. -/
def IsIntLiteral (s : String) (n : Int) : Prop :=
  ∃ sign digits : List Char,
    s.data = sign ++ digits ∧ (sign = [] ∨ sign = ['+'] ∨ sign = ['-']) ∧
    digits ≠ [] ∧ (∀ c ∈ digits, c.isDigit = true) ∧
    n = if sign = ['-'] then -(decimalValue digits : Int) else (decimalValue digits : Int)

/-- The integer `n` fits an `int` of `intSize` bits. -/
def InIntRange (intSize : Nat) (n : Int) : Prop :=
  -(2 ^ (intSize - 1) : Int) ≤ n ∧ n < 2 ^ (intSize - 1)

/-- The length condition of the string validator in the spec's words: the raw value `r` is
non-empty, not shorter than the bound `m` when `m` is positive, and not longer than the bound
`M` when `M` is positive; `len` counts bytes. -/
def WithinBounds (m M : Int) (r : String) : Prop :=
  r ≠ "" ∧ (m ≤ 0 ∨ (len r : Int) ≥ m) ∧ (M ≤ 0 ∨ (len r : Int) ≤ M)

/-! ## Repeated calls, invariants and derived functions used in the statements -/

/-- The context after `k` consecutive calls of `ParamsAreValid`. -/
def runPasses (lib : Stdlib) : Nat → HttpContext → Except String HttpContext
  | 0, ctx => Except.ok ctx
  | k + 1, ctx =>
    match ctx.ParamsAreValid lib with
    | Except.error e => Except.error e
    | Except.ok (_, ctx1) => runPasses lib k ctx1

/-- The decoder rejects the empty input, as `json.Unmarshal` does ("unexpected end of JSON
input"). -/
def Stdlib.RejectsEmpty (lib : Stdlib) : Prop := ∃ e, lib.Unmarshal "" = Except.error e

/-- The states of the body cache that `NewHttpContext`, `Define*Param` and `ParamsAreValid`
produce: at most one read and one decode are logged, and either an infrastructure error is
recorded, or nothing has been read or decoded yet, or a non-empty body and its decoded
object are cached. -/
def JsonStateInv (ctx : HttpContext) : Prop :=
  (ctx.log.count Effect.bodyRead ≤ 1 ∧ ctx.log.count Effect.jsonDecode ≤ 1) ∧
  (ctx.Errors ≠ [] ∨
   (ctx.body = "" ∧ ctx.postJson = none ∧ Effect.bodyRead ∉ ctx.log ∧
      Effect.jsonDecode ∉ ctx.log) ∨
   (len ctx.body ≠ 0 ∧ ctx.postJson ≠ none))

/-- The body of the context is, or will be read and decoded as, the JSON object `m`, and no
infrastructure error is recorded. -/
def JsonObjectBody (lib : Stdlib) (ctx : HttpContext) (m : List (String × Json)) : Prop :=
  ctx.Errors = [] ∧
  (len ctx.body ≠ 0 ∨ (ReadAll ctx.Request.Body).2.1 = none) ∧
  (ctx.postJson = some m ∨
    (ctx.postJson = none ∧
      lib.Unmarshal (if len ctx.body = 0 then (ReadAll ctx.Request.Body).1 else ctx.body)
        = Except.ok (Json.obj m)))

/-- The raw value the descriptor `q` gets when it is extracted in the context `c`. -/
def rawOf (lib : Stdlib) (c : HttpContext) (q : HttpParam) : Except String String :=
  match retrieveParamValue lib c q with
  | Except.ok (raw, _) => Except.ok raw
  | Except.error e => Except.error e

/-- The descriptor as its validator leaves it when run in the context `c`. -/
def outcomeAt (lib : Stdlib) (c : HttpContext) (p : HttpParam) : HttpParam :=
  match validateParam lib c p with
  | Except.ok (_, p1) => p1
  | Except.error _ => p

/-- The error codes the validator of `p` appends when run in the context `c`. -/
def codesAt (lib : Stdlib) (c : HttpContext) (p : HttpParam) : List String :=
  match validateParam lib c p with
  | Except.ok (c1, _) => c1.ErrorCodes.drop c.ErrorCodes.length
  | Except.error _ => []

/-- The two contexts differ at most in `ErrorCodes` and `Params`: same request, same
infrastructure errors, same body cache and same log. -/
def SameCache (c d : HttpContext) : Prop :=
  c.Request = d.Request ∧ c.Errors = d.Errors ∧ c.postJson = d.postJson ∧ c.body = d.body ∧
    c.log = d.log

/-- The validator of the descriptor runs the JSON extraction: the data type is one of the
four and the source is the JSON body. -/
def Touches (p : HttpParam) : Prop :=
  IsDataType p.DataType ∧ p.ParamType = HttpParamJsonPost

/-- The JSON extraction from `c0` is uniform and idempotent: every descriptor `q` gets the
text `f q.Name` and the context becomes `c1`; from `c1` every descriptor gets the same text
and `c1` stays as it is; the lookups and the form state of the request and the error codes
are those of `c0`. -/
def SettlesTo (lib : Stdlib) (c0 c1 : HttpContext) (f : String → String) : Prop :=
  (∀ q : HttpParam, retrieveJsonParamValue lib c0 q = Except.ok (f q.Name, c1)) ∧
  (∀ q : HttpParam, retrieveJsonParamValue lib c1 q = Except.ok (f q.Name, c1)) ∧
  c1.Request.PostFormValue = c0.Request.PostFormValue ∧
  c1.Request.FormValue = c0.Request.FormValue ∧
  c1.Request.HeaderGet = c0.Request.HeaderGet ∧
  c1.Request.Vars = c0.Request.Vars ∧
  c1.Request.UnparsedForm = c0.Request.UnparsedForm ∧
  c1.ErrorCodes = c0.ErrorCodes

/-- The contexts the loop of a pass started at `c0` goes through, up to `ErrorCodes` and
`Params`: the cache is the one of `c0`, or the JSON extraction has run and the cache is the
one of the context `c1` it settles to. -/
def PassInv (lib : Stdlib) (c0 c1 : HttpContext) (f : String → String) (c : HttpContext) :
    Prop :=
  SameCache c c0 ∨ (SettlesTo lib c0 c1 f ∧ SameCache c c1)

/-- What a registration `op` under `name` does to a context, `fresh` being the descriptor it
stores: afterwards `Params[name]` is `fresh`, the descriptors under other names are the same,
with unique keys `fresh` is the only entry under `name` and the keys stay unique, and no
other field of the context changes. -/
def RegistersFresh (op : HttpContext → HttpContext) (name : String) (fresh : HttpParam) : Prop :=
  ∀ self : HttpContext,
    (op self).Params.lookup name = some fresh ∧
    (∀ k, k ≠ name → (op self).Params.lookup k = self.Params.lookup k) ∧
    (op self).Params.filter (fun e => e.1 ≠ name) = self.Params.filter (fun e => e.1 ≠ name) ∧
    ((self.Params.map Prod.fst).Nodup →
      ((op self).Params.map Prod.fst).Nodup ∧
      (op self).Params.filter (fun e => e.1 = name) = [(name, fresh)]) ∧
    (op self).ErrorCodes = self.ErrorCodes ∧ (op self).Errors = self.Errors ∧
    (op self).postJson = self.postJson ∧ (op self).body = self.body ∧
    (op self).log = self.log ∧ (op self).Request.Body = self.Request.Body

/-! ## Sample inputs -/

/-- A 64-bit platform whose decoder rejects every body and whose float parser knows `1.5`. -/
def sampleLib : Stdlib :=
  { Unmarshal := fun _ => Except.error "invalid character",
    ParseFloat := fun s => if s = "1.5" then some { bits := 0x3FF8000000000000 } else none,
    FormatG := fun _ => "0",
    IntSize := 64 }

/-- A request with the given query string values and nothing else, the body drained. -/
def queryRequest (query : String → String) : Request :=
  { PostFormValue := fun _ => "", FormValue := query, HeaderGet := fun _ => "",
    Vars := fun _ => "", Body := { pending := [] } }

/-- The request `?page=7` without headers. -/
def pageRequest : Request := queryRequest (fun name => if name = "page" then "7" else "")

/-- The end-to-end scenario: a required integer query parameter `page` and an optional string
header parameter `trace`, on the request `?page=7`. -/
def pageTraceContext : HttpContext :=
  ((NewHttpContext pageRequest).DefineIntParam "page" "E_PAGE" HttpParamQuery true).DefineStringParam
    "trace" "E_TRACE" HttpParamHeader false 0 0

/-- A request without any parameter. -/
def emptyRequest : Request := queryRequest (fun _ => "")

/-- The descriptor `DefineIntParam("page", "E_PAGE", HttpParamQuery, true)` stores. -/
def requiredPage : HttpParam :=
  { Name := "page", InvalidErrorCode := "E_PAGE", DataType := HttpIntParam, Required := true,
    ParamType := HttpParamQuery, Valid := true }

/-- A required integer query parameter `page` on a request that does not give it. -/
def requiredPageContext : HttpContext :=
  (NewHttpContext emptyRequest).DefineIntParam "page" "E_PAGE" HttpParamQuery true

/-- A context without descriptors on a request whose query string gives `name` the value
`raw`. -/
def queryContext (name raw : String) : HttpContext :=
  NewHttpContext (queryRequest (fun k => if k = name then raw else ""))

/-- The descriptor `DefineBoolParam("flag", "E_FLAG", HttpParamQuery, true)` stores. -/
def flagParam : HttpParam :=
  { Name := "flag", InvalidErrorCode := "E_FLAG", DataType := HttpBoolParam, Required := true,
    ParamType := HttpParamQuery, Valid := true }

/-- A required string descriptor whose fields `MinLength` and `MaxLength` are set to 3 and 5. -/
def boundedParam : HttpParam :=
  { Name := "name", InvalidErrorCode := "E_NAME", DataType := HttpStringParam, Required := true,
    ParamType := HttpParamQuery, Valid := true, MinLength := 3, MaxLength := 5 }

/-- An optional string descriptor with the same bounds. -/
def optionalBoundedParam : HttpParam := { boundedParam with Required := false }

/-- A request whose body cannot be read. -/
def unreadableRequest : Request :=
  { PostFormValue := fun _ => "", FormValue := fun _ => "", HeaderGet := fun _ => "",
    Vars := fun _ => "", Body := { pending := [("", some "unexpected EOF")] } }

/-- A request whose body is the text `not json`. -/
def malformedRequest : Request :=
  { PostFormValue := fun _ => "", FormValue := fun _ => "", HeaderGet := fun _ => "",
    Vars := fun _ => "", Body := { pending := [("not json", none)] } }

/-- One optional integer parameter `age` sourced from the JSON body of `malformedRequest`. -/
def malformedAgeContext : HttpContext :=
  (NewHttpContext malformedRequest).DefineIntParam "age" "E_AGE" HttpParamJsonPost false

/-- One optional integer parameter `age` sourced from the JSON body of an unreadable request. -/
def optionalAgeContext : HttpContext :=
  (NewHttpContext unreadableRequest).DefineIntParam "age" "E_AGE" HttpParamJsonPost false

/-- A context that already holds an infrastructure error. -/
def failedContext : HttpContext :=
  { pageTraceContext with Errors := [NewStackError "Error in raw data extraction - error: %v" "EOF"] }

/-- A required string query parameter `name` registered with `minLength = 3`, `maxLength = 5`,
on a request whose query string gives `name` the value `raw`. -/
def boundedNameContext (raw : String) : HttpContext :=
  (NewHttpContext (queryRequest (fun name => if name = "name" then raw else ""))).DefineStringParam
    "name" "E_NAME" HttpParamQuery true 3 5

/-- The `float64` 30 (bit pattern). -/
def thirty : Float64 := { bits := 0x403E000000000000 }

/-- The `float64` 1000000 (bit pattern). -/
def million : Float64 := { bits := 0x412E848000000000 }

/-- The body `{"age": 30, "name": "Ann"}`. -/
def annBody : String := "\x7b\"age\": 30, \"name\": \"Ann\"\x7d"

/-- The body `{"age": 1000000}`. -/
def millionBody : String := "\x7b\"age\": 1000000\x7d"

/-- The body `{"age": " 42 "}`: the field is a string with surrounding blanks. -/
def paddedBody : String := "\x7b\"age\": \" 42 \"\x7d"

/-- The body `{"ok": true, "tags": [], "none": null, "name": "Ann"}`. -/
def mixedBody : String := "\x7b\"ok\": true, \"tags\": [], \"none\": null, \"name\": \"Ann\"\x7d"

/-- A 64-bit platform whose decoder knows the sample bodies, the array `[1]` and `null`, and
rejects everything else (the empty input included); `%g` is given on the numbers 30 and
1000000. -/
def tableLib : Stdlib :=
  { Unmarshal := fun body =>
      if body = annBody then
        Except.ok (Json.obj [("age", Json.number thirty), ("name", Json.str "Ann")])
      else if body = millionBody then Except.ok (Json.obj [("age", Json.number million)])
      else if body = paddedBody then Except.ok (Json.obj [("age", Json.str " 42 ")])
      else if body = mixedBody then
        Except.ok (Json.obj [("ok", Json.bool true), ("tags", Json.arr []), ("none", Json.null),
          ("name", Json.str "Ann")])
      else if body = "[1]" then Except.ok (Json.arr [Json.number { bits := 0x3FF0000000000000 }])
      else if body = "null" then Except.ok Json.null
      else Except.error "invalid character",
    ParseFloat := fun _ => none,
    FormatG := fun f =>
      if f = thirty then formatGInt 30 else if f = million then formatGInt 1000000 else "NaN",
    IntSize := 64 }

/-- A request without parameters whose body is `body`. -/
def jsonRequest (body : String) : Request :=
  { PostFormValue := fun _ => "", FormValue := fun _ => "", HeaderGet := fun _ => "",
    Vars := fun _ => "", Body := { pending := [(body, none)] } }

/-- The descriptor `DefineIntParam("age", "E_AGE", HttpParamJsonPost, true)` stores. -/
def agePost : HttpParam :=
  { Name := "age", InvalidErrorCode := "E_AGE", DataType := HttpIntParam, Required := true,
    ParamType := HttpParamJsonPost, Valid := true }

/-- A required integer parameter `age` and an optional string parameter `name`, both sourced
from the JSON body `body`. -/
def ageNameContext (body : String) : HttpContext :=
  ((NewHttpContext (jsonRequest body)).DefineIntParam "age" "E_AGE" HttpParamJsonPost
    true).DefineStringParam "name" "E_NAME" HttpParamJsonPost false 0 0

/-- The request `?page=7` whose body cannot be read. -/
def pageUnreadableRequest : Request :=
  { pageRequest with Body := { pending := [("", some "unexpected EOF")] } }

/-- A required integer query parameter `page` and an optional integer parameter `age` sourced
from the JSON body, on `pageUnreadableRequest`. -/
def pageAgeContext : HttpContext :=
  ((NewHttpContext pageUnreadableRequest).DefineIntParam "page" "E_PAGE" HttpParamQuery
    true).DefineIntParam "age" "E_AGE" HttpParamJsonPost false

/-- The form decoder of a request without query string: the body `page=7`, read without
error, gives `page` the value `7` in both lookups; a failed read or any other body gives no
value. -/
def pageFormDecoder : FormDecoder := fun data err =>
  if err = none ∧ data = "page=7" then
    (fun name => if name = "page" then "7" else "", fun name => if name = "page" then "7" else "")
  else (fun _ => "", fun _ => "")

/-- A urlencoded `POST` with the body `page=7` whose form is not parsed yet. -/
def formPostRequest : Request :=
  { PostFormValue := fun _ => "", FormValue := fun _ => "",
    HeaderGet := fun name =>
      if name = "Content-Type" then "application/x-www-form-urlencoded" else "",
    Vars := fun _ => "", Body := { pending := [("page=7", none)] },
    UnparsedForm := some pageFormDecoder }

/-- A required integer query parameter `page` and an optional integer parameter `age` sourced
from the JSON body, on `formPostRequest`. -/
def formPostContext : HttpContext :=
  ((NewHttpContext formPostRequest).DefineIntParam "page" "E_PAGE" HttpParamQuery
    true).DefineIntParam "age" "E_AGE" HttpParamJsonPost false

/-! ## Auxiliary lemmas -/

theorem utf8ByteSize_go_eq_zero (cs : List Char) : String.utf8ByteSize.go cs = 0 ↔ cs = [] := by
  cases cs with
  | nil => simp [String.utf8ByteSize.go]
  | cons c cs =>
    have := Char.utf8Size_pos c
    simp [String.utf8ByteSize.go]
    omega

theorem len_eq_zero_iff (s : String) : len s = 0 ↔ s = "" := by
  cases s with
  | mk cs =>
    simp only [len, String.utf8ByteSize, utf8ByteSize_go_eq_zero]
    constructor
    · intro h; subst h; rfl
    · intro h; exact congrArg String.data h

/-- What a raw-value retrieval may change in the context: only the JSON bookkeeping. -/
theorem retrieveJsonParamValue_frame (lib : Stdlib) (ctx ctx1 : HttpContext) (p : HttpParam)
    (raw : String) (h : retrieveJsonParamValue lib ctx p = Except.ok (raw, ctx1)) :
    ctx1.ErrorCodes = ctx.ErrorCodes ∧ ctx1.Params = ctx.Params ∧
      (∃ es, ctx1.Errors = ctx.Errors ++ es) ∧ (ctx.Errors ≠ [] → ctx1 = ctx) := by
  unfold retrieveJsonParamValue at h
  split at h
  · simp only [Except.ok.injEq, Prod.mk.injEq] at h
    obtain ⟨-, rfl⟩ := h
    exact ⟨rfl, rfl, ⟨[], by simp⟩, fun _ => rfl⟩
  · rename_i hE
    have hE' : ctx.Errors = [] := by
      cases hEs : ctx.Errors with
      | nil => rfl
      | cons a l => simp [hEs] at hE
    have key : ∀ c e, (if len ctx.body = 0 then readBody ctx else (ctx, none)) = (c, e) →
        c.ErrorCodes = ctx.ErrorCodes ∧ c.Params = ctx.Params ∧ c.Errors = ctx.Errors := by
      intro c e hc
      split at hc
      · simp only [readBody] at hc
        simp only [Prod.mk.injEq] at hc
        obtain ⟨rfl, -⟩ := hc
        exact ⟨rfl, rfl, rfl⟩
      · simp only [Prod.mk.injEq] at hc
        obtain ⟨rfl, -⟩ := hc
        exact ⟨rfl, rfl, rfl⟩
    split at h
    · rename_i c e hc
      obtain ⟨h1, h2, h3⟩ := key c _ hc
      simp only [Except.ok.injEq, Prod.mk.injEq] at h
      obtain ⟨-, rfl⟩ := h
      exact ⟨h1, h2, ⟨_, by rw [← h3]⟩, fun hne => absurd hE' hne⟩
    · rename_i c hc
      obtain ⟨h1, h2, h3⟩ := key c _ hc
      split at h
      · simp only [Except.ok.injEq, Prod.mk.injEq] at h
        obtain ⟨-, rfl⟩ := h
        exact ⟨h1, h2, ⟨[], by simp [h3]⟩, fun hne => absurd hE' hne⟩
      · split at h
        · simp only [Except.ok.injEq, Prod.mk.injEq] at h
          obtain ⟨-, rfl⟩ := h
          exact ⟨h1, h2, ⟨_, by rw [← h3]⟩, fun hne => absurd hE' hne⟩
        · simp only [Except.ok.injEq, Prod.mk.injEq] at h
          obtain ⟨-, rfl⟩ := h
          exact ⟨h1, h2, ⟨[], by simp [h3]⟩, fun hne => absurd hE' hne⟩
        · simp at h

theorem retrieveParamValue_frame (lib : Stdlib) (ctx ctx1 : HttpContext) (p : HttpParam)
    (raw : String) (h : retrieveParamValue lib ctx p = Except.ok (raw, ctx1)) :
    ctx1.ErrorCodes = ctx.ErrorCodes ∧ ctx1.Params = ctx.Params ∧
      (∃ es, ctx1.Errors = ctx.Errors ++ es) := by
  unfold retrieveParamValue at h
  split_ifs at h
  all_goals first
    | exact
        let ⟨h1, h2, h3, _⟩ := retrieveJsonParamValue_frame lib ctx ctx1 p raw h
        ⟨h1, h2, h3⟩
    | (simp only [Except.ok.injEq, Prod.mk.injEq] at h
       obtain ⟨-, rfl⟩ := h
       exact ⟨rfl, rfl, ⟨[], by simp⟩⟩)

/-- The part of a validator after the raw value has been fetched, for the three parsed types:
`parsed` is the outcome of the type's parse on the raw value. -/
theorem validateIntParam_eq (lib : Stdlib) (ctx ctx1 : HttpContext) (p : HttpParam) (raw : String)
    (h : retrieveParamValue lib ctx p = Except.ok (raw, ctx1)) :
    validateIntParam lib ctx p = Except.ok
      (if raw = "" then
        (if p.Required = true then appendInvalidErrorCode ctx1 { p with Raw := raw }
         else (ctx1, { p with Raw := raw }))
       else
        match Atoi lib.IntSize raw with
        | none => appendInvalidErrorCode ctx1 { p with Raw := raw }
        | some val => (ctx1, HttpParam.setPresentValue { p with Raw := raw } (GoValue.int val))) := by
  simp only [validateIntParam, h, len_eq_zero_iff]
  by_cases hr : raw = "" <;> by_cases hq : p.Required = true <;> simp [hr, hq] <;>
    cases Atoi lib.IntSize raw <;> rfl

theorem validateFloatParam_eq (lib : Stdlib) (ctx ctx1 : HttpContext) (p : HttpParam) (raw : String)
    (h : retrieveParamValue lib ctx p = Except.ok (raw, ctx1)) :
    validateFloatParam lib ctx p = Except.ok
      (if raw = "" then
        (if p.Required = true then appendInvalidErrorCode ctx1 { p with Raw := raw }
         else (ctx1, { p with Raw := raw }))
       else
        match lib.ParseFloat raw with
        | none => appendInvalidErrorCode ctx1 { p with Raw := raw }
        | some val => (ctx1, HttpParam.setPresentValue { p with Raw := raw } (GoValue.float64 val))) := by
  simp only [validateFloatParam, h, len_eq_zero_iff]
  by_cases hr : raw = "" <;> by_cases hq : p.Required = true <;> simp [hr, hq] <;>
    cases lib.ParseFloat raw <;> rfl

theorem validateBoolParam_eq (lib : Stdlib) (ctx ctx1 : HttpContext) (p : HttpParam) (raw : String)
    (h : retrieveParamValue lib ctx p = Except.ok (raw, ctx1)) :
    validateBoolParam lib ctx p = Except.ok
      (if raw = "" then
        (if p.Required = true then appendInvalidErrorCode ctx1 { p with Raw := raw }
         else (ctx1, { p with Raw := raw }))
       else
        match ParseBool raw with
        | none => appendInvalidErrorCode ctx1 { p with Raw := raw }
        | some val => (ctx1, HttpParam.setPresentValue { p with Raw := raw } (GoValue.bool val))) := by
  simp only [validateBoolParam, h, len_eq_zero_iff]
  by_cases hr : raw = "" <;> by_cases hq : p.Required = true <;> simp [hr, hq] <;>
    cases ParseBool raw <;> rfl

theorem validateStringParam_eq (lib : Stdlib) (ctx ctx1 : HttpContext) (p : HttpParam)
    (raw : String) (h : retrieveParamValue lib ctx p = Except.ok (raw, ctx1)) :
    validateStringParam lib ctx p = Except.ok
      (if p.Required = true ∧
          (raw = "" ∨ (p.MinLength > 0 ∧ (len raw : Int) < p.MinLength) ∨
            (p.MaxLength > 0 ∧ (len raw : Int) > p.MaxLength)) then
        appendInvalidErrorCode ctx1 { p with Raw := raw }
       else (ctx1, HttpParam.setPresentValue { p with Raw := raw } (GoValue.string raw))) := by
  simp only [validateStringParam, h, len_eq_zero_iff]
  by_cases hq : p.Required = true
  · by_cases hr : raw = ""
    · simp [hr, hq]
    · by_cases h1 : p.MinLength > 0 ∧ (len raw : Int) < p.MinLength
      · simp [hr, hq, h1]
      · by_cases h2 : p.MaxLength > 0 ∧ (len raw : Int) > p.MaxLength
        · simp only [hr, hq, h1, h2, false_and, and_self, if_false, if_true, true_and, false_or,
            or_true]
        · simp only [hr, hq, h1, h2, false_and, and_self, if_false, if_true, true_and, false_or,
            or_self]
  · simp [hq]

/-- A validator that returns has fetched the raw value. -/
theorem validateParam_retrieved (lib : Stdlib) (ctx ctx' : HttpContext) (p p' : HttpParam)
    (hdt : IsDataType p.DataType) (h : validateParam lib ctx p = Except.ok (ctx', p')) :
    ∃ raw ctx1, retrieveParamValue lib ctx p = Except.ok (raw, ctx1) := by
  cases hr : retrieveParamValue lib ctx p with
  | ok r => exact ⟨r.1, r.2, rfl⟩
  | error e =>
    exfalso
    rcases hdt with hd | hd | hd | hd <;>
      simp [validateParam, hd, HttpIntParam, HttpStringParam, HttpFloatParam, HttpBoolParam,
        validateIntParam, validateStringParam, validateFloatParam, validateBoolParam, hr] at h

/-- The three shapes of a validator's result on a descriptor of one of the four types: a
recorded failure, an optional descriptor left absent on an empty raw value, or a stored
present value (which, on a required descriptor, comes from a non-empty raw value). -/
theorem validateParam_shape (lib : Stdlib) (ctx ctx' : HttpContext) (p p' : HttpParam)
    (hdt : IsDataType p.DataType) (h : validateParam lib ctx p = Except.ok (ctx', p')) :
    ∃ raw ctx1, retrieveParamValue lib ctx p = Except.ok (raw, ctx1) ∧
      ((ctx', p') = appendInvalidErrorCode ctx1 { p with Raw := raw } ∨
       ((ctx', p') = (ctx1, { p with Raw := raw }) ∧ raw = "" ∧ p.Required = false) ∨
       ∃ v, (ctx', p') = (ctx1, HttpParam.setPresentValue { p with Raw := raw } v) ∧
         (p.Required = true → raw ≠ "")) := by
  obtain ⟨raw, ctx1, hr⟩ := validateParam_retrieved lib ctx ctx' p p' hdt h
  refine ⟨raw, ctx1, hr, ?_⟩
  have hI := validateIntParam_eq lib ctx ctx1 p raw hr
  have hS := validateStringParam_eq lib ctx ctx1 p raw hr
  have hF := validateFloatParam_eq lib ctx ctx1 p raw hr
  have hB := validateBoolParam_eq lib ctx ctx1 p raw hr
  have hv : validateParam lib ctx p = validateIntParam lib ctx p ∨
      validateParam lib ctx p = validateFloatParam lib ctx p ∨
      validateParam lib ctx p = validateBoolParam lib ctx p ∨
      validateParam lib ctx p = validateStringParam lib ctx p := by
    rcases hdt with hd | hd | hd | hd <;>
      simp [validateParam, hd, HttpIntParam, HttpStringParam, HttpFloatParam, HttpBoolParam]
  rcases hv with hv | hv | hv | hv
  · rw [hv, hI, Except.ok.injEq] at h
    split_ifs at h with h1 h2
    · exact Or.inl h.symm
    · exact Or.inr (Or.inl ⟨h.symm, h1, by simpa using h2⟩)
    · split at h
      · exact Or.inl h.symm
      · exact Or.inr (Or.inr ⟨_, h.symm, fun _ => h1⟩)
  · rw [hv, hF, Except.ok.injEq] at h
    split_ifs at h with h1 h2
    · exact Or.inl h.symm
    · exact Or.inr (Or.inl ⟨h.symm, h1, by simpa using h2⟩)
    · split at h
      · exact Or.inl h.symm
      · exact Or.inr (Or.inr ⟨_, h.symm, fun _ => h1⟩)
  · rw [hv, hB, Except.ok.injEq] at h
    split_ifs at h with h1 h2
    · exact Or.inl h.symm
    · exact Or.inr (Or.inl ⟨h.symm, h1, by simpa using h2⟩)
    · split at h
      · exact Or.inl h.symm
      · exact Or.inr (Or.inr ⟨_, h.symm, fun _ => h1⟩)
  · rw [hv, hS, Except.ok.injEq] at h
    split_ifs at h with h1
    · exact Or.inl h.symm
    · refine Or.inr (Or.inr ⟨_, h.symm, fun hq hraw => h1 ⟨hq, Or.inl hraw⟩⟩)

/-- The two outcomes of validating one descriptor: either no failure is recorded (and a
required descriptor of one of the four types is then present, with a non-empty raw value), or
exactly the descriptor's code is appended and the descriptor is marked invalid.  The declared
fields are never modified. -/
theorem validateParam_outcome (lib : Stdlib) (ctx ctx' : HttpContext) (p p' : HttpParam)
    (h : validateParam lib ctx p = Except.ok (ctx', p')) :
    (p'.Name = p.Name ∧ p'.InvalidErrorCode = p.InvalidErrorCode ∧ p'.DataType = p.DataType ∧
      p'.ParamType = p.ParamType ∧ p'.Required = p.Required ∧ p'.MinLength = p.MinLength ∧
      p'.MaxLength = p.MaxLength) ∧
    ((ctx'.ErrorCodes = ctx.ErrorCodes ∧ p'.Valid = p.Valid ∧
        (IsDataType p.DataType → p.Required = true → p'.Present = true ∧ p'.Raw ≠ "")) ∨
      (ctx'.ErrorCodes = ctx.ErrorCodes ++ [p.InvalidErrorCode] ∧ p'.Valid = false ∧
        p'.Present = p.Present ∧ p'.Value = p.Value)) := by
  by_cases hdt : IsDataType p.DataType
  · obtain ⟨raw, ctx1, hr, hs⟩ := validateParam_shape lib ctx ctx' p p' hdt h
    have hf := (retrieveParamValue_frame lib ctx ctx1 p raw hr).1
    rcases hs with hs | ⟨hs, hraw, hq⟩ | ⟨v, hs, hq⟩
    · simp only [appendInvalidErrorCode, Prod.mk.injEq] at hs
      obtain ⟨rfl, rfl⟩ := hs
      exact ⟨⟨rfl, rfl, rfl, rfl, rfl, rfl, rfl⟩, Or.inr ⟨by simp [hf], rfl, rfl, rfl⟩⟩
    · simp only [Prod.mk.injEq] at hs
      obtain ⟨rfl, rfl⟩ := hs
      exact ⟨⟨rfl, rfl, rfl, rfl, rfl, rfl, rfl⟩, Or.inl ⟨hf, rfl, fun _ hq' => by simp [hq] at hq'⟩⟩
    · simp only [HttpParam.setPresentValue, Prod.mk.injEq] at hs
      obtain ⟨rfl, rfl⟩ := hs
      exact ⟨⟨rfl, rfl, rfl, rfl, rfl, rfl, rfl⟩, Or.inl ⟨hf, rfl, fun _ hq' => ⟨rfl, hq hq'⟩⟩⟩
  · have hd := hdt
    simp only [IsDataType, not_or] at hd
    obtain ⟨d0, d1, d2, d3⟩ := hd
    simp only [validateParam, d0, d1, d2, d3, if_false, Except.ok.injEq, Prod.mk.injEq] at h
    obtain ⟨rfl, rfl⟩ := h
    exact ⟨⟨rfl, rfl, rfl, rfl, rfl, rfl, rfl⟩, Or.inl ⟨rfl, rfl, fun hh => absurd hh hdt⟩⟩

/-- Appending an error code does not touch what the JSON extraction looks at. -/
theorem JsonBodyOk_appendInvalidErrorCode (lib : Stdlib) (ctx : HttpContext) (p : HttpParam)
    (h : JsonBodyOk lib ctx) : JsonBodyOk lib (appendInvalidErrorCode ctx p).1 := h

/-- Under `JsonBodyOk` the JSON extraction returns, and leaves a context in which it will
return again. -/
theorem retrieveJsonParamValue_ok (lib : Stdlib) (ctx : HttpContext) (p : HttpParam)
    (h : JsonBodyOk lib ctx) :
    ∃ raw ctx1, retrieveJsonParamValue lib ctx p = Except.ok (raw, ctx1) ∧ JsonBodyOk lib ctx1 := by
  unfold retrieveJsonParamValue
  by_cases hE : ctx.Errors.length > 0
  · rw [if_pos hE]
    exact ⟨_, _, rfl, h⟩
  · rw [if_neg hE]
    have hE' : ctx.Errors = [] := by
      cases hEs : ctx.Errors with
      | nil => rfl
      | cons a l => simp [hEs] at hE
    -- the context after the optional read, and the error of the read
    have hcases : (∃ c e, (if len ctx.body = 0 then readBody ctx else (ctx, none)) = (c, some e)) ∨
        ∃ c, (if len ctx.body = 0 then readBody ctx else (ctx, none)) = (c, none) ∧
          c.postJson = ctx.postJson ∧
          c.body = (if len ctx.body = 0 then (ReadAll ctx.Request.Body).1 else ctx.body) ∧
          ¬ (len ctx.body = 0 ∧ (ReadAll ctx.Request.Body).2.1 ≠ none) := by
      by_cases hb : len ctx.body = 0
      · simp only [hb, if_true, readBody]
        cases hx : (ReadAll ctx.Request.Body).2.1 with
        | some e => exact Or.inl ⟨_, e, rfl⟩
        | none => exact Or.inr ⟨_, rfl, rfl, rfl, by simp⟩
      · simp only [hb, if_false]
        exact Or.inr ⟨_, rfl, rfl, rfl, by simp⟩
    rcases hcases with ⟨c, e, hc⟩ | ⟨c, hc, hpj, hbody, hnoerr⟩
    · rw [hc]
      exact ⟨_, _, rfl, Or.inl (by simp)⟩
    · rw [hc]
      simp only
      cases hm : c.postJson with
      | some m => exact ⟨_, _, rfl, Or.inr (Or.inl (by simp [hm]))⟩
      | none =>
        simp only
        rcases h with h | h | ⟨h, -⟩
        · exact absurd hE' h
        · rw [← hpj, hm] at h
          exact absurd rfl h
        · rcases h with h | h
          · exact absurd h hnoerr
          · rw [← hbody] at h
            unfold DecodesToObjectOrFails at h
            split at h
            · exact ⟨_, _, rfl, Or.inl (by simp)⟩
            · exact ⟨_, _, rfl, Or.inr (Or.inl (by simp))⟩
            · exact absurd h id

/-- Parsing the form twice is parsing it once. -/
theorem ParseMultipartForm_idem (r : Request) :
    r.ParseMultipartForm.ParseMultipartForm = r.ParseMultipartForm := by
  unfold Request.ParseMultipartForm
  cases hU : r.UnparsedForm with
  | none => simp only [hU]
  | some decode => rfl

/-- A request whose form lookups do not read the body is left as it is by the parse. -/
theorem ParseMultipartForm_of_parsed (r : Request) (h : r.UnparsedForm = none) :
    r.ParseMultipartForm = r := by
  unfold Request.ParseMultipartForm
  simp only [h]

/-- What the parse of the form leaves alone. -/
theorem ParseMultipartForm_frame (r : Request) :
    r.ParseMultipartForm.HeaderGet = r.HeaderGet ∧ r.ParseMultipartForm.Vars = r.Vars ∧
      r.ParseMultipartForm.UnparsedForm = none := by
  unfold Request.ParseMultipartForm
  cases hU : r.UnparsedForm with
  | none => simp only [hU, and_self]
  | some decode => exact ⟨rfl, rfl, rfl⟩

/-- The parse of the form does not touch what the JSON extraction looks at, except the
reader, which `JsonBodyOk` accounts for. -/
theorem JsonBodyOk_parseForm (lib : Stdlib) (ctx : HttpContext) (h : JsonBodyOk lib ctx) :
    JsonBodyOk lib { ctx with Request := ctx.Request.ParseMultipartForm } := by
  rcases h with h | h | ⟨-, h⟩
  · exact Or.inl h
  · exact Or.inr (Or.inl h)
  · refine Or.inr (Or.inr ⟨h, ?_⟩)
    show NextReadOk lib ctx.body ctx.Request.ParseMultipartForm.ParseMultipartForm.Body
    rw [ParseMultipartForm_idem]
    exact h

theorem retrieveParamValue_ok (lib : Stdlib) (ctx : HttpContext) (p : HttpParam)
    (h : JsonBodyOk lib ctx) :
    ∃ raw ctx1, retrieveParamValue lib ctx p = Except.ok (raw, ctx1) ∧ JsonBodyOk lib ctx1 := by
  unfold retrieveParamValue
  split_ifs
  all_goals first
    | exact retrieveJsonParamValue_ok lib ctx p h
    | exact ⟨_, _, rfl, h⟩
    | exact ⟨_, _, rfl, JsonBodyOk_parseForm lib ctx h⟩

/-- Under `JsonBodyOk` every validator returns, and `JsonBodyOk` holds afterwards. -/
theorem validateParam_ok (lib : Stdlib) (ctx : HttpContext) (p : HttpParam)
    (h : JsonBodyOk lib ctx) :
    ∃ ctx' p', validateParam lib ctx p = Except.ok (ctx', p') ∧ JsonBodyOk lib ctx' := by
  obtain ⟨raw, ctx1, hr, hok⟩ := retrieveParamValue_ok lib ctx p h
  have hA := fun q => JsonBodyOk_appendInvalidErrorCode lib ctx1 q hok
  have hex : ∀ r : HttpContext × HttpParam, JsonBodyOk lib r.1 →
      ∃ ctx' p', (Except.ok r : Except String (HttpContext × HttpParam)) = Except.ok (ctx', p') ∧
        JsonBodyOk lib ctx' := fun r hr => ⟨r.1, r.2, rfl, hr⟩
  unfold validateParam
  split_ifs
  · rw [validateIntParam_eq lib ctx ctx1 p raw hr]
    apply hex
    split_ifs
    · exact hA _
    · exact hok
    · split
      · exact hA _
      · exact hok
  · rw [validateStringParam_eq lib ctx ctx1 p raw hr]
    apply hex
    split_ifs
    · exact hA _
    · exact hok
  · rw [validateFloatParam_eq lib ctx ctx1 p raw hr]
    apply hex
    split_ifs
    · exact hA _
    · exact hok
    · split
      · exact hA _
      · exact hok
  · rw [validateBoolParam_eq lib ctx ctx1 p raw hr]
    apply hex
    split_ifs
    · exact hA _
    · exact hok
    · split
      · exact hA _
      · exact hok
  · exact ⟨_, _, rfl, h⟩

theorem rangeParams_ok (lib : Stdlib) (ps : List (String × HttpParam)) :
    ∀ ctx : HttpContext, JsonBodyOk lib ctx → ∃ r, rangeParams lib ctx ps = Except.ok r := by
  induction ps with
  | nil => intro ctx _; exact ⟨_, rfl⟩
  | cons e rest ih =>
    intro ctx h
    obtain ⟨name, p⟩ := e
    obtain ⟨ctx1, p1, hv, h1⟩ := validateParam_ok lib ctx p h
    obtain ⟨⟨ctx2, rest1⟩, hr⟩ := ih ctx1 h1
    exact ⟨(ctx2, (name, p1) :: rest1), by simp only [rangeParams, hv, hr]⟩

/-- Under `JsonBodyOk` the validation pass returns. -/
theorem ParamsAreValid_ok (lib : Stdlib) (ctx : HttpContext) (h : JsonBodyOk lib ctx) :
    ∃ r, ctx.ParamsAreValid lib = Except.ok r := by
  unfold HttpContext.ParamsAreValid
  split_ifs
  · exact ⟨_, rfl⟩
  · exact ⟨_, rfl⟩
  · obtain ⟨⟨ctx2, ps⟩, hr⟩ := rangeParams_ok lib ctx.Params ctx h
    exact ⟨(decide (ctx2.ErrorCodes.length = 0), { ctx2 with Params := ps }), by simp only [hr]⟩

/-- How the loop processes the entries: each entry keeps its key and is the result of its
validator, run in some context, whose error codes are a prefix of the final ones. -/
theorem rangeParams_forall₂ (lib : Stdlib) (ps : List (String × HttpParam)) :
    ∀ (ctx ctx' : HttpContext) (ps' : List (String × HttpParam)),
      rangeParams lib ctx ps = Except.ok (ctx', ps') →
      ctx.ErrorCodes <+: ctx'.ErrorCodes ∧
      List.Forall₂ (fun e e' => e'.1 = e.1 ∧ ∃ c c', validateParam lib c e.2 = Except.ok (c', e'.2) ∧
        c'.ErrorCodes <+: ctx'.ErrorCodes) ps ps' := by
  induction ps with
  | nil =>
    intro ctx ctx' ps' h
    simp only [rangeParams, Except.ok.injEq, Prod.mk.injEq] at h
    obtain ⟨rfl, rfl⟩ := h
    exact ⟨List.prefix_refl _, List.Forall₂.nil⟩
  | cons e rest ih =>
    intro ctx ctx' ps' h
    obtain ⟨name, p⟩ := e
    simp only [rangeParams] at h
    cases hv : validateParam lib ctx p with
    | error e => simp [hv] at h
    | ok r =>
      obtain ⟨ctx1, p1⟩ := r
      simp only [hv] at h
      cases hl : rangeParams lib ctx1 rest with
      | error e => simp [hl] at h
      | ok r2 =>
        obtain ⟨ctx2, rest1⟩ := r2
        simp only [hl, Except.ok.injEq, Prod.mk.injEq] at h
        obtain ⟨rfl, rfl⟩ := h
        obtain ⟨hpre, hall⟩ := ih ctx1 ctx2 rest1 hl
        have h01 : ctx.ErrorCodes <+: ctx1.ErrorCodes := by
          rcases (validateParam_outcome lib ctx ctx1 p p1 hv).2 with ho | ho
          · rw [ho.1]
          · rw [ho.1]; exact List.prefix_append _ _
        exact ⟨h01.trans hpre, List.Forall₂.cons ⟨rfl, ctx, ctx1, hv, hpre⟩ hall⟩

theorem mapAssign_lookup (m : List (String × HttpParam)) (name : String) (v : HttpParam) :
    (mapAssign m name v).lookup name = some v := by
  induction m with
  | nil => simp [mapAssign, List.lookup]
  | cons e rest ih =>
    obtain ⟨k, w⟩ := e
    by_cases hk : k = name
    · simp [mapAssign, hk, List.lookup]
    · have hne : (name == k) = false := by simpa using fun h => hk h.symm
      simp [mapAssign, hk, List.lookup, hne, ih]

/-- The state of a freshly registered descriptor. -/
theorem Registered.fields {name : String} {p : HttpParam} (h : Registered name p) :
    p.Name = name ∧ IsDataType p.DataType ∧ p.Valid = true ∧ p.Present = false ∧ p.Raw = "" ∧
      p.Value = GoValue.nil ∧ p.MinLength = 0 ∧ p.MaxLength = 0 := by
  obtain ⟨self, code, ty, req, h | h | h | ⟨mn, mx, h⟩⟩ := h
  all_goals
    simp only [HttpContext.DefineIntParam, HttpContext.DefineBoolParam,
      HttpContext.DefineFloatParam, HttpContext.DefineStringParam, mapAssign_lookup,
      Option.some.injEq] at h
    subst h
    simp [IsDataType]

theorem forall₂_mem_right {α β : Type} {R : α → β → Prop} {l : List α} {l' : List β}
    (h : List.Forall₂ R l l') : ∀ b ∈ l', ∃ a ∈ l, R a b := by
  induction h with
  | nil => intro b hb; simp at hb
  | cons hab _ ih =>
    intro b hb
    rcases List.mem_cons.1 hb with rfl | hb
    · exact ⟨_, List.mem_cons_self _ _, hab⟩
    · obtain ⟨a, ha, hr⟩ := ih b hb
      exact ⟨a, List.mem_cons_of_mem _ ha, hr⟩

/-- The result of a pass that ran the loop. -/
theorem ParamsAreValid_loop (lib : Stdlib) (ctx ctx' : HttpContext) (b : Bool)
    (hE : ctx.Errors = []) (hne : ctx.Params ≠ [])
    (h : ctx.ParamsAreValid lib = Except.ok (b, ctx')) :
    ∃ c, rangeParams lib ctx ctx.Params = Except.ok (c, ctx'.Params) ∧
      ctx'.ErrorCodes = c.ErrorCodes ∧ (b = true ↔ ctx'.ErrorCodes = []) := by
  unfold HttpContext.ParamsAreValid at h
  have h0 : ¬ ctx.Errors.length ≠ 0 := by simp [hE]
  have h1 : ¬ ctx.Params.length = 0 := by simpa using hne
  rw [if_neg h0, if_neg h1] at h
  cases hl : rangeParams lib ctx ctx.Params with
  | error e => simp [hl] at h
  | ok r =>
    obtain ⟨c, ps⟩ := r
    simp only [hl, Except.ok.injEq, Prod.mk.injEq] at h
    obtain ⟨rfl, rfl⟩ := h
    exact ⟨c, rfl, rfl, by simp⟩

theorem validateParam_int (lib : Stdlib) (ctx : HttpContext) (p : HttpParam)
    (h : p.DataType = HttpIntParam) : validateParam lib ctx p = validateIntParam lib ctx p := by
  simp [validateParam, h]

theorem validateParam_string (lib : Stdlib) (ctx : HttpContext) (p : HttpParam)
    (h : p.DataType = HttpStringParam) :
    validateParam lib ctx p = validateStringParam lib ctx p := by
  simp [validateParam, h, HttpIntParam, HttpStringParam]

theorem validateParam_float (lib : Stdlib) (ctx : HttpContext) (p : HttpParam)
    (h : p.DataType = HttpFloatParam) :
    validateParam lib ctx p = validateFloatParam lib ctx p := by
  simp [validateParam, h, HttpIntParam, HttpStringParam, HttpFloatParam]

theorem validateParam_bool (lib : Stdlib) (ctx : HttpContext) (p : HttpParam)
    (h : p.DataType = HttpBoolParam) :
    validateParam lib ctx p = validateBoolParam lib ctx p := by
  simp [validateParam, h, HttpIntParam, HttpStringParam, HttpFloatParam, HttpBoolParam]

/-- On an empty raw value a required descriptor of any of the four types fails the same way. -/
theorem validateParam_required_empty (lib : Stdlib) (ctx ctx1 : HttpContext) (p : HttpParam)
    (hdt : IsDataType p.DataType) (hreq : p.Required = true)
    (hr : retrieveParamValue lib ctx p = Except.ok ("", ctx1)) :
    validateParam lib ctx p = Except.ok (appendInvalidErrorCode ctx1 { p with Raw := "" }) := by
  rcases hdt with hd | hd | hd | hd
  · rw [validateParam_int lib ctx p hd, validateIntParam_eq lib ctx ctx1 p "" hr, if_pos rfl,
      if_pos hreq]
  · rw [validateParam_string lib ctx p hd, validateStringParam_eq lib ctx ctx1 p "" hr,
      if_pos ⟨hreq, Or.inl rfl⟩]
  · rw [validateParam_float lib ctx p hd, validateFloatParam_eq lib ctx ctx1 p "" hr, if_pos rfl,
      if_pos hreq]
  · rw [validateParam_bool lib ctx p hd, validateBoolParam_eq lib ctx ctx1 p "" hr, if_pos rfl,
      if_pos hreq]

theorem isDigit_iff (c : Char) : c.isDigit = true ↔ ('0' ≤ c ∧ c ≤ '9') := by
  simp only [Char.isDigit, Bool.and_eq_true, decide_eq_true_eq]
  exact Iff.rfl

theorem parseDigits_eq_some (ds : List Char) :
    ∀ (acc v : Nat), parseDigits ds acc = some v ↔
      (∀ c ∈ ds, c.isDigit = true) ∧ v = ds.foldl (fun a c => 10 * a + (c.toNat - 48)) acc := by
  induction ds with
  | nil =>
    intro acc v
    simp only [parseDigits, Option.some.injEq, List.not_mem_nil, false_implies, implies_true,
      true_and, List.foldl_nil]
    exact eq_comm
  | cons c cs ih =>
    intro acc v
    simp only [parseDigits, List.mem_cons, forall_eq_or_imp, List.foldl_cons]
    by_cases hc : '0' ≤ c ∧ c ≤ '9'
    · rw [if_pos hc, ih]
      have h48 : '0'.toNat = 48 := rfl
      rw [h48, Nat.mul_comm acc 10]
      simp [(isDigit_iff c).2 hc]
    · rw [if_neg hc]
      have : ¬ c.isDigit = true := fun h => hc ((isDigit_iff c).1 h)
      simp [this]

theorem parseDigits_zero (ds : List Char) (v : Nat) :
    parseDigits ds 0 = some v ↔ (∀ c ∈ ds, c.isDigit = true) ∧ v = decimalValue ds :=
  parseDigits_eq_some ds 0 v

/-- `Atoi` on a string with first byte `c`, in terms of the digits that follow the sign. -/
theorem Atoi_cons (intSize : Nat) (s : String) (c : Char) (rest : List Char)
    (hs : s.data = c :: rest) (n : Int) :
    Atoi intSize s = some n ↔
      (if c = '-' ∨ c = '+' then rest else c :: rest) ≠ [] ∧
      (∀ d ∈ (if c = '-' ∨ c = '+' then rest else c :: rest), d.isDigit = true) ∧
      n = (if c = '-' then -(decimalValue (if c = '-' ∨ c = '+' then rest else c :: rest) : Int)
           else (decimalValue (if c = '-' ∨ c = '+' then rest else c :: rest) : Int)) ∧
      InIntRange intSize n := by
  simp only [Atoi, hs]
  generalize (if c = '-' ∨ c = '+' then rest else c :: rest) = ds
  have hK : 0 < 2 ^ (intSize - 1) := Nat.pow_pos (by decide)
  have hcast : ((2 : Int) ^ (intSize - 1)) = ((2 ^ (intSize - 1) : Nat) : Int) := by push_cast; rfl
  unfold InIntRange
  rw [hcast]
  generalize 2 ^ (intSize - 1) = K at hK
  by_cases hds : ds = []
  · simp [hds]
  · rw [if_neg hds]
    cases hp : parseDigits ds 0 with
    | none =>
      have hnd : ¬ ∀ d ∈ ds, d.isDigit = true := by
        intro hall
        have := (parseDigits_zero ds (decimalValue ds)).2 ⟨hall, rfl⟩
        rw [hp] at this
        exact absurd this (by simp)
      simp [hnd]
    | some un =>
      obtain ⟨hall, hun⟩ := (parseDigits_zero ds un).1 hp
      subst hun
      simp only [ne_eq, hds, not_false_eq_true, true_and]
      by_cases hm : c = '-'
      · simp only [hm, if_true]
        by_cases hgt : decimalValue ds > K
        · rw [if_pos hgt]
          constructor
          · intro h; exact absurd h (by simp)
          · rintro ⟨-, rfl, h1, -⟩
            omega
        · rw [if_neg hgt, Option.some.injEq]
          constructor
          · intro h
            subst h
            exact ⟨hall, rfl, by omega, by omega⟩
          · rintro ⟨-, rfl, -⟩
            rfl
      · simp only [hm, if_false]
        by_cases hge : decimalValue ds ≥ K
        · rw [if_pos hge]
          constructor
          · intro h; exact absurd h (by simp)
          · rintro ⟨-, rfl, -, h2⟩
            omega
        · rw [if_neg hge, Option.some.injEq]
          constructor
          · intro h
            subst h
            exact ⟨hall, rfl, by omega, by omega⟩
          · rintro ⟨-, rfl, -⟩
            rfl

/-- `Atoi` accepts exactly the base-10 integer literals that fit the `int`, and returns the
integer they denote. -/
theorem Atoi_eq_some_iff (intSize : Nat) (s : String) (n : Int) :
    Atoi intSize s = some n ↔ IsIntLiteral s n ∧ InIntRange intSize n := by
  have hminus : ¬ ('-' : Char).isDigit = true := by decide
  have hplus : ¬ ('+' : Char).isDigit = true := by decide
  cases hs : s.data with
  | nil =>
    constructor
    · intro h
      simp [Atoi, hs] at h
    · rintro ⟨⟨sign, digits, hsd, -, hne, -⟩, -⟩
      rw [hs] at hsd
      have := List.append_eq_nil.1 hsd.symm
      exact absurd this.2 hne
  | cons c rest =>
    rw [Atoi_cons intSize s c rest hs n]
    unfold IsIntLiteral
    rw [hs]
    constructor
    · rintro ⟨hne, hall, hn, hrange⟩
      refine ⟨?_, hrange⟩
      by_cases hm : c = '-'
      · subst hm
        simp only [true_or, if_true] at hne hall hn
        exact ⟨['-'], rest, rfl, Or.inr (Or.inr rfl), hne, hall, by simpa using hn⟩
      · by_cases hp : c = '+'
        · subst hp
          simp only [or_true, if_true, hm, if_false] at hne hall hn
          exact ⟨['+'], rest, rfl, Or.inr (Or.inl rfl), hne, hall, by rw [hn]; simp⟩
        · simp only [hm, hp, or_self, if_false] at hne hall hn
          exact ⟨[], c :: rest, rfl, Or.inl rfl, hne, hall, by rw [hn]; simp⟩
    · rintro ⟨⟨sign, digits, hsd, hsign, hne, hall, hn⟩, hrange⟩
      rcases hsign with rfl | rfl | rfl
      · simp only [List.nil_append] at hsd
        subst hsd
        have hc : c.isDigit = true := hall c (List.mem_cons_self _ _)
        have hm : c ≠ '-' := fun h => hminus (h ▸ hc)
        have hp : c ≠ '+' := fun h => hplus (h ▸ hc)
        simp only [hm, hp, or_self, if_false]
        exact ⟨hne, hall, by rw [hn]; simp, hrange⟩
      · simp only [List.singleton_append, List.cons.injEq] at hsd
        obtain ⟨rfl, rfl⟩ := hsd
        have hm : ¬ ('+' : Char) = '-' := by decide
        simp only [hm, or_true, if_true, if_false]
        exact ⟨hne, hall, by rw [hn]; simp, hrange⟩
      · simp only [List.singleton_append, List.cons.injEq] at hsd
        obtain ⟨rfl, rfl⟩ := hsd
        simp only [true_or, if_true]
        exact ⟨hne, hall, by rw [hn]; simp, hrange⟩

theorem Atoi_empty (intSize : Nat) : Atoi intSize "" = none := rfl

/-- With an infrastructure error at entry the pass returns false and changes nothing. -/
theorem ParamsAreValid_of_errors (lib : Stdlib) (ctx : HttpContext) (hE : ctx.Errors ≠ []) :
    ctx.ParamsAreValid lib = Except.ok (false, ctx) := by
  unfold HttpContext.ParamsAreValid
  have h0 : ctx.Errors.length ≠ 0 := by simpa using hE
  rw [if_pos h0]

/-- Both descriptors of the end-to-end scenario are as `Define*Param` stores them. -/
theorem pageTraceContext_registered : ∀ e ∈ pageTraceContext.Params, Registered e.1 e.2 := by
  intro e he
  have hp : pageTraceContext.Params =
      [("page", { Name := "page", InvalidErrorCode := "E_PAGE", DataType := HttpIntParam,
                  Required := true, ParamType := HttpParamQuery, Valid := true }),
       ("trace", { Name := "trace", InvalidErrorCode := "E_TRACE", DataType := HttpStringParam,
                   Required := false, ParamType := HttpParamHeader, Valid := true })] := by
    decide
  rw [hp] at he
  simp only [List.mem_cons, List.mem_singleton, List.not_mem_nil, or_false] at he
  rcases he with rfl | rfl
  · exact ⟨NewHttpContext pageRequest, "E_PAGE", HttpParamQuery, true, Or.inl (by decide)⟩
  · exact ⟨NewHttpContext pageRequest, "E_TRACE", HttpParamHeader, false,
      Or.inr (Or.inr (Or.inr ⟨0, 0, by decide⟩))⟩

/-- The context after the optional read of lines 137-144, when the read does not fail. -/
theorem readStep_none (ctx : HttpContext)
    (h : len ctx.body ≠ 0 ∨ (ReadAll ctx.Request.Body).2.1 = none) :
    ∃ c, (if len ctx.body = 0 then readBody ctx else (ctx, none)) = (c, none) ∧
      c.postJson = ctx.postJson ∧ c.Errors = ctx.Errors ∧ c.ErrorCodes = ctx.ErrorCodes ∧
      c.Params = ctx.Params ∧
      c.body = (if len ctx.body = 0 then (ReadAll ctx.Request.Body).1 else ctx.body) := by
  by_cases hb : len ctx.body = 0
  · rcases h with h | h
    · exact absurd hb h
    · rw [if_pos hb, if_pos hb]
      have h2 : (readBody ctx).2 = none := h
      exact ⟨(readBody ctx).1, Prod.ext rfl h2, rfl, rfl, rfl, rfl, rfl⟩
  · rw [if_neg hb, if_neg hb]
    exact ⟨ctx, rfl, rfl, rfl, rfl, rfl, rfl⟩

/-- On a body that is (or decodes to) the object `m` the JSON extraction returns the string
form of the field and caches `m`, without recording an error. -/
theorem retrieveJsonParamValue_of_object (lib : Stdlib) (ctx : HttpContext) (p : HttpParam)
    (m : List (String × Json)) (h : JsonObjectBody lib ctx m) :
    ∃ ctx1, retrieveJsonParamValue lib ctx p = Except.ok (jsonFieldText lib m p.Name, ctx1) ∧
      ctx1.Errors = [] ∧ ctx1.postJson = some m ∧ ctx1.ErrorCodes = ctx.ErrorCodes ∧
      ctx1.Params = ctx.Params := by
  obtain ⟨hE, hread, hdec⟩ := h
  obtain ⟨c, hc, hpj, hcE, hcC, hcP, hbody⟩ := readStep_none ctx hread
  unfold retrieveJsonParamValue
  have h0 : ¬ ctx.Errors.length > 0 := by simp [hE]
  rw [if_neg h0, hc]
  simp only
  rcases hdec with hm | ⟨hnone, hu⟩
  · rw [hpj, hm]
    exact ⟨c, rfl, by rw [hcE, hE], by rw [hpj, hm], hcC, hcP⟩
  · rw [hpj, hnone]
    simp only
    rw [hbody, hu]
    exact ⟨_, rfl, by simp [hcE, hE], rfl, hcC, hcP⟩

theorem mapAssign_lookup_ne (m : List (String × HttpParam)) (name k : String) (v : HttpParam)
    (hk : k ≠ name) : (mapAssign m name v).lookup k = m.lookup k := by
  induction m with
  | nil =>
    have : (k == name) = false := by simpa using hk
    simp [mapAssign, List.lookup, this]
  | cons e rest ih =>
    obtain ⟨k0, w⟩ := e
    by_cases h0 : k0 = name
    · subst h0
      have : (k == k0) = false := by simpa using hk
      simp [mapAssign, List.lookup, this]
    · simp only [mapAssign, h0, if_false, List.lookup]
      rw [ih]

theorem mapAssign_filter_ne (m : List (String × HttpParam)) (name : String) (v : HttpParam) :
    (mapAssign m name v).filter (fun e => e.1 ≠ name) = m.filter (fun e => e.1 ≠ name) := by
  induction m with
  | nil => simp [mapAssign]
  | cons e rest ih =>
    obtain ⟨k0, w⟩ := e
    by_cases h0 : k0 = name
    · subst h0
      simp [mapAssign]
    · simp only [mapAssign, h0, if_false]
      rw [List.filter_cons, List.filter_cons, ih]

theorem mapAssign_keys (m : List (String × HttpParam)) (name : String) (v : HttpParam) :
    (mapAssign m name v).map Prod.fst =
      if name ∈ m.map Prod.fst then m.map Prod.fst else m.map Prod.fst ++ [name] := by
  induction m with
  | nil => simp [mapAssign]
  | cons e rest ih =>
    obtain ⟨k0, w⟩ := e
    by_cases h0 : k0 = name
    · subst h0
      simp [mapAssign]
    · have h1 : ¬ name = k0 := fun h => h0 h.symm
      simp only [mapAssign, h0, if_false, List.map_cons, ih, List.mem_cons, h1, false_or]
      split_ifs <;> simp

theorem mapAssign_filter_eq (m : List (String × HttpParam)) (name : String) (v : HttpParam)
    (hnd : (m.map Prod.fst).Nodup) :
    (mapAssign m name v).filter (fun e => e.1 = name) = [(name, v)] := by
  induction m with
  | nil => simp [mapAssign]
  | cons e rest ih =>
    obtain ⟨k0, w⟩ := e
    simp only [List.map_cons, List.nodup_cons] at hnd
    by_cases h0 : k0 = name
    · subst h0
      have hrest : rest.filter (fun e => e.1 = k0) = [] := by
        rw [List.filter_eq_nil_iff]
        intro a ha hk
        have : a.1 = k0 := by simpa using hk
        exact hnd.1 (this ▸ List.mem_map_of_mem Prod.fst ha)
      simp [mapAssign, hrest]
    · simp only [mapAssign, h0, if_false]
      rw [List.filter_cons]
      simp only [h0, decide_False, Bool.false_eq_true, if_false]
      exact ih hnd.2

/-- Storing `fresh` under `name` with the map assignment is a registration of `fresh`. -/
theorem registersFresh_mapAssign (name : String) (fresh : HttpParam) :
    RegistersFresh (fun self => { self with Params := mapAssign self.Params name fresh })
      name fresh := by
  intro self
  refine ⟨mapAssign_lookup _ _ _, fun k hk => mapAssign_lookup_ne _ _ _ _ hk,
    mapAssign_filter_ne _ _ _, fun hnd => ⟨?_, mapAssign_filter_eq _ _ _ hnd⟩,
    rfl, rfl, rfl, rfl, rfl, rfl⟩
  show ((mapAssign self.Params name fresh).map Prod.fst).Nodup
  rw [mapAssign_keys]
  split_ifs with hmem
  · exact hnd
  · exact List.Nodup.append hnd (List.nodup_singleton _) (by simpa using hmem)

/-- The codes the loop appends are the codes of the descriptors it leaves invalid, in the
order of the loop, when every descriptor was valid before. -/
theorem rangeParams_codes (lib : Stdlib) (ps : List (String × HttpParam)) :
    ∀ (c c' : HttpContext) (ps' : List (String × HttpParam)),
      rangeParams lib c ps = Except.ok (c', ps') → (∀ e ∈ ps, e.2.Valid = true) →
      c'.ErrorCodes = c.ErrorCodes ++
        (ps'.filter (fun e => e.2.Valid = false)).map (fun e => e.2.InvalidErrorCode) := by
  induction ps with
  | nil =>
    intro c c' ps' h _
    simp only [rangeParams, Except.ok.injEq, Prod.mk.injEq] at h
    obtain ⟨rfl, rfl⟩ := h
    simp
  | cons e rest ih =>
    intro c c' ps' h hvalid
    obtain ⟨name, p⟩ := e
    simp only [rangeParams] at h
    cases hv : validateParam lib c p with
    | error e => simp [hv] at h
    | ok r =>
      obtain ⟨c1, p1⟩ := r
      simp only [hv] at h
      cases hl : rangeParams lib c1 rest with
      | error e => simp [hl] at h
      | ok r2 =>
        obtain ⟨c2, rest1⟩ := r2
        simp only [hl, Except.ok.injEq, Prod.mk.injEq] at h
        obtain ⟨rfl, rfl⟩ := h
        have hrest := ih c1 c2 rest1 hl (fun e he => hvalid e (List.mem_cons_of_mem _ he))
        have hp : p.Valid = true := hvalid (name, p) (List.mem_cons_self _ _)
        obtain ⟨hstatic, ho | ho⟩ := validateParam_outcome lib c c1 p p1 hv
        · have hp1 : p1.Valid = true := by rw [ho.2.1, hp]
          rw [hrest, ho.1]
          simp [List.filter_cons, hp1]
        · rw [hrest, ho.1]
          simp [List.filter_cons, ho.2.1, hstatic.2.1]

/-- The loop keeps the keys and leaves every entry as its validator returned it. -/
theorem rangeParams_processed (lib : Stdlib) (c c' : HttpContext)
    (ps ps' : List (String × HttpParam)) (h : rangeParams lib c ps = Except.ok (c', ps')) :
    List.Forall₂ (fun e e' => e'.1 = e.1 ∧
      ∃ d d', validateParam lib d e.2 = Except.ok (d', e'.2)) ps ps' := by
  have h2 := (rangeParams_forall₂ lib ps c c' ps' h).2
  exact h2.imp (fun _ _ hab => ⟨hab.1, hab.2.choose, hab.2.choose_spec.choose,
    hab.2.choose_spec.choose_spec.1⟩)

/-- A descriptor of one of the four types that was absent and comes out present is as valid
as before and holds a value of the dynamic type of its data type. -/
theorem validateParam_present_typed (lib : Stdlib) (c c' : HttpContext) (p p' : HttpParam)
    (hdt : IsDataType p.DataType) (habs : p.Present = false)
    (h : validateParam lib c p = Except.ok (c', p')) (hpres : p'.Present = true) :
    p'.Valid = p.Valid ∧
    (p.DataType = HttpIntParam → ∃ n, p'.Value = GoValue.int n) ∧
    (p.DataType = HttpStringParam → ∃ s, p'.Value = GoValue.string s) ∧
    (p.DataType = HttpFloatParam → ∃ f, p'.Value = GoValue.float64 f) ∧
    (p.DataType = HttpBoolParam → ∃ b, p'.Value = GoValue.bool b) := by
  obtain ⟨raw, c1, hr⟩ := validateParam_retrieved lib c c' p p' hdt h
  have d01 : HttpIntParam ≠ HttpStringParam := by decide
  have d02 : HttpIntParam ≠ HttpFloatParam := by decide
  have d03 : HttpIntParam ≠ HttpBoolParam := by decide
  have d12 : HttpStringParam ≠ HttpFloatParam := by decide
  have d13 : HttpStringParam ≠ HttpBoolParam := by decide
  have d23 : HttpFloatParam ≠ HttpBoolParam := by decide
  rcases hdt with hd | hd | hd | hd
  · rw [validateParam_int lib c p hd, validateIntParam_eq lib c c1 p raw hr,
      Except.ok.injEq] at h
    split_ifs at h with h1 h2
    · simp only [appendInvalidErrorCode, Prod.mk.injEq] at h
      obtain ⟨-, rfl⟩ := h
      simp [habs] at hpres
    · simp only [Prod.mk.injEq] at h
      obtain ⟨-, rfl⟩ := h
      simp [habs] at hpres
    · split at h
      · simp only [appendInvalidErrorCode, Prod.mk.injEq] at h
        obtain ⟨-, rfl⟩ := h
        simp [habs] at hpres
      · simp only [HttpParam.setPresentValue, Prod.mk.injEq] at h
        obtain ⟨-, rfl⟩ := h
        refine ⟨rfl, fun _ => ⟨_, rfl⟩, fun h' => ?_, fun h' => ?_, fun h' => ?_⟩
        · exact absurd (hd.symm.trans h') d01
        · exact absurd (hd.symm.trans h') d02
        · exact absurd (hd.symm.trans h') d03
  · rw [validateParam_string lib c p hd, validateStringParam_eq lib c c1 p raw hr,
      Except.ok.injEq] at h
    split_ifs at h with h1
    · simp only [appendInvalidErrorCode, Prod.mk.injEq] at h
      obtain ⟨-, rfl⟩ := h
      simp [habs] at hpres
    · simp only [HttpParam.setPresentValue, Prod.mk.injEq] at h
      obtain ⟨-, rfl⟩ := h
      refine ⟨rfl, fun h' => ?_, fun _ => ⟨_, rfl⟩, fun h' => ?_, fun h' => ?_⟩
      · exact absurd (h'.symm.trans hd) d01
      · exact absurd (hd.symm.trans h') d12
      · exact absurd (hd.symm.trans h') d13
  · rw [validateParam_float lib c p hd, validateFloatParam_eq lib c c1 p raw hr,
      Except.ok.injEq] at h
    split_ifs at h with h1 h2
    · simp only [appendInvalidErrorCode, Prod.mk.injEq] at h
      obtain ⟨-, rfl⟩ := h
      simp [habs] at hpres
    · simp only [Prod.mk.injEq] at h
      obtain ⟨-, rfl⟩ := h
      simp [habs] at hpres
    · split at h
      · simp only [appendInvalidErrorCode, Prod.mk.injEq] at h
        obtain ⟨-, rfl⟩ := h
        simp [habs] at hpres
      · simp only [HttpParam.setPresentValue, Prod.mk.injEq] at h
        obtain ⟨-, rfl⟩ := h
        refine ⟨rfl, fun h' => ?_, fun h' => ?_, fun _ => ⟨_, rfl⟩, fun h' => ?_⟩
        · exact absurd (h'.symm.trans hd) d02
        · exact absurd (h'.symm.trans hd) d12
        · exact absurd (hd.symm.trans h') d23
  · rw [validateParam_bool lib c p hd, validateBoolParam_eq lib c c1 p raw hr,
      Except.ok.injEq] at h
    split_ifs at h with h1 h2
    · simp only [appendInvalidErrorCode, Prod.mk.injEq] at h
      obtain ⟨-, rfl⟩ := h
      simp [habs] at hpres
    · simp only [Prod.mk.injEq] at h
      obtain ⟨-, rfl⟩ := h
      simp [habs] at hpres
    · split at h
      · simp only [appendInvalidErrorCode, Prod.mk.injEq] at h
        obtain ⟨-, rfl⟩ := h
        simp [habs] at hpres
      · simp only [HttpParam.setPresentValue, Prod.mk.injEq] at h
        obtain ⟨-, rfl⟩ := h
        refine ⟨rfl, fun h' => ?_, fun h' => ?_, fun h' => ?_, fun _ => ⟨_, rfl⟩⟩
        · exact absurd (h'.symm.trans hd) d03
        · exact absurd (h'.symm.trans hd) d13
        · exact absurd (h'.symm.trans hd) d23

/-- Both descriptors of `ageNameContext` are as `Define*Param` stores them. -/
theorem ageNameContext_registered (body : String) :
    ∀ e ∈ (ageNameContext body).Params, Registered e.1 e.2 := by
  intro e he
  have hp : (ageNameContext body).Params =
      [("age", { Name := "age", InvalidErrorCode := "E_AGE", DataType := HttpIntParam,
                 Required := true, ParamType := HttpParamJsonPost, Valid := true }),
       ("name", { Name := "name", InvalidErrorCode := "E_NAME", DataType := HttpStringParam,
                  Required := false, ParamType := HttpParamJsonPost, Valid := true })] := rfl
  rw [hp] at he
  simp only [List.mem_cons, List.mem_singleton, List.not_mem_nil, or_false] at he
  rcases he with rfl | rfl
  · exact ⟨NewHttpContext emptyRequest, "E_AGE", HttpParamJsonPost, true, Or.inl (by decide)⟩
  · exact ⟨NewHttpContext emptyRequest, "E_NAME", HttpParamJsonPost, false,
      Or.inr (Or.inr (Or.inr ⟨0, 0, by decide⟩))⟩

theorem errors_nil_of_not_pos {c : HttpContext} (h : ¬ c.Errors.length > 0) : c.Errors = [] := by
  cases hEs : c.Errors with
  | nil => rfl
  | cons a l => simp [hEs] at h

/-- The JSON extraction keeps the body cache in one of its regular states. -/
theorem retrieveJsonParamValue_inv (lib : Stdlib) (hlib : lib.RejectsEmpty) (c c1 : HttpContext)
    (p : HttpParam) (r : String) (hinv : JsonStateInv c)
    (h : retrieveJsonParamValue lib c p = Except.ok (r, c1)) : JsonStateInv c1 := by
  unfold retrieveJsonParamValue at h
  by_cases hE : c.Errors.length > 0
  · rw [if_pos hE] at h
    simp only [Except.ok.injEq, Prod.mk.injEq] at h
    rw [← h.2]; exact hinv
  · rw [if_neg hE] at h
    have hE' := errors_nil_of_not_pos hE
    obtain ⟨⟨hc1, hc2⟩, hph⟩ := hinv
    rcases hph with hne | ⟨hb, hpj, hnr, hnd⟩ | ⟨hb, hpj⟩
    · exact absurd hE' hne
    · -- nothing read yet
      have hlen : len c.body = 0 := by rw [hb]; rfl
      rw [if_pos hlen] at h
      have hr0 : c.log.count Effect.bodyRead = 0 := List.count_eq_zero.2 hnr
      have hd0 : c.log.count Effect.jsonDecode = 0 := List.count_eq_zero.2 hnd
      have hstep : readBody c = ((readBody c).1, (readBody c).2) := rfl
      rw [hstep] at h
      cases hx : (readBody c).2 with
      | some e =>
        rw [hx] at h
        simp only [Except.ok.injEq, Prod.mk.injEq] at h
        rw [← h.2]
        refine ⟨⟨?_, ?_⟩, Or.inl (by simp)⟩
        · show ((c.log ++ [Effect.bodyRead]).count Effect.bodyRead) ≤ 1
          simp [List.count_append, hr0]
        · show ((c.log ++ [Effect.bodyRead]).count Effect.jsonDecode) ≤ 1
          simp [List.count_append, hd0]
      | none =>
        rw [hx] at h
        simp only at h
        have hpj' : (readBody c).1.postJson = none := hpj
        rw [hpj'] at h
        simp only at h
        split at h
        · simp only [Except.ok.injEq, Prod.mk.injEq] at h
          rw [← h.2]
          refine ⟨⟨?_, ?_⟩, Or.inl (by simp)⟩
          · show ((c.log ++ [Effect.bodyRead] ++ [Effect.jsonDecode]).count Effect.bodyRead) ≤ 1
            simp [List.count_append, hr0]
          · show ((c.log ++ [Effect.bodyRead] ++ [Effect.jsonDecode]).count Effect.jsonDecode) ≤ 1
            simp [List.count_append, hd0]
        · rename_i m hu
          simp only [Except.ok.injEq, Prod.mk.injEq] at h
          rw [← h.2]
          refine ⟨⟨?_, ?_⟩, Or.inr (Or.inr ⟨?_, by simp⟩)⟩
          · show ((c.log ++ [Effect.bodyRead] ++ [Effect.jsonDecode]).count Effect.bodyRead) ≤ 1
            simp [List.count_append, hr0]
          · show ((c.log ++ [Effect.bodyRead] ++ [Effect.jsonDecode]).count Effect.jsonDecode) ≤ 1
            simp [List.count_append, hd0]
          · show len (readBody c).1.body ≠ 0
            intro h0
            have hempty : (readBody c).1.body = "" := (len_eq_zero_iff _).1 h0
            rw [hempty] at hu
            obtain ⟨e, he⟩ := hlib
            rw [he] at hu
            exact absurd hu (by simp)
        · simp at h
    · -- body and object cached
      rw [if_neg hb] at h
      simp only at h
      cases hm : c.postJson with
      | none => exact absurd hm hpj
      | some m =>
        rw [hm] at h
        simp only [Except.ok.injEq, Prod.mk.injEq] at h
        rw [← h.2]
        exact ⟨⟨hc1, hc2⟩, Or.inr (Or.inr ⟨hb, hpj⟩)⟩

theorem retrieveParamValue_inv (lib : Stdlib) (hlib : lib.RejectsEmpty) (c c1 : HttpContext)
    (p : HttpParam) (r : String) (hinv : JsonStateInv c)
    (h : retrieveParamValue lib c p = Except.ok (r, c1)) : JsonStateInv c1 := by
  unfold retrieveParamValue at h
  split_ifs at h
  all_goals first
    | exact retrieveJsonParamValue_inv lib hlib c c1 p r hinv h
    | (simp only [Except.ok.injEq, Prod.mk.injEq] at h
       rw [← h.2]; exact hinv)

theorem validateParam_inv (lib : Stdlib) (hlib : lib.RejectsEmpty) (c c' : HttpContext)
    (p p' : HttpParam) (hinv : JsonStateInv c)
    (h : validateParam lib c p = Except.ok (c', p')) : JsonStateInv c' := by
  by_cases hdt : IsDataType p.DataType
  · obtain ⟨raw, c1, hr, hs⟩ := validateParam_shape lib c c' p p' hdt h
    have h1 := retrieveParamValue_inv lib hlib c c1 p raw hinv hr
    rcases hs with hs | ⟨hs, -⟩ | ⟨v, hs, -⟩
    · simp only [appendInvalidErrorCode, Prod.mk.injEq] at hs
      rw [hs.1]; exact h1
    · simp only [Prod.mk.injEq] at hs
      rw [hs.1]; exact h1
    · simp only [Prod.mk.injEq] at hs
      rw [hs.1]; exact h1
  · have hd := hdt
    simp only [IsDataType, not_or] at hd
    obtain ⟨d0, d1, d2, d3⟩ := hd
    simp only [validateParam, d0, d1, d2, d3, if_false, Except.ok.injEq, Prod.mk.injEq] at h
    rw [← h.1]; exact hinv

theorem rangeParams_inv (lib : Stdlib) (hlib : lib.RejectsEmpty)
    (ps : List (String × HttpParam)) :
    ∀ (c c' : HttpContext) (ps' : List (String × HttpParam)), JsonStateInv c →
      rangeParams lib c ps = Except.ok (c', ps') → JsonStateInv c' := by
  induction ps with
  | nil =>
    intro c c' ps' hinv h
    simp only [rangeParams, Except.ok.injEq, Prod.mk.injEq] at h
    rw [← h.1]; exact hinv
  | cons e rest ih =>
    intro c c' ps' hinv h
    obtain ⟨name, p⟩ := e
    simp only [rangeParams] at h
    cases hv : validateParam lib c p with
    | error e => simp [hv] at h
    | ok r =>
      obtain ⟨c1, p1⟩ := r
      simp only [hv] at h
      cases hl : rangeParams lib c1 rest with
      | error e => simp [hl] at h
      | ok r2 =>
        obtain ⟨c2, rest1⟩ := r2
        simp only [hl, Except.ok.injEq, Prod.mk.injEq] at h
        rw [← h.1]
        exact ih c1 c2 rest1 (validateParam_inv lib hlib c c1 p p1 hinv hv) hl

theorem ParamsAreValid_inv (lib : Stdlib) (hlib : lib.RejectsEmpty) (ctx ctx' : HttpContext)
    (b : Bool) (hinv : JsonStateInv ctx) (h : ctx.ParamsAreValid lib = Except.ok (b, ctx')) :
    JsonStateInv ctx' := by
  unfold HttpContext.ParamsAreValid at h
  split_ifs at h
  · simp only [Except.ok.injEq, Prod.mk.injEq] at h
    rw [← h.2]; exact hinv
  · simp only [Except.ok.injEq, Prod.mk.injEq] at h
    rw [← h.2]; exact hinv
  · cases hl : rangeParams lib ctx ctx.Params with
    | error e => simp [hl] at h
    | ok r =>
      obtain ⟨c, ps⟩ := r
      simp only [hl, Except.ok.injEq, Prod.mk.injEq] at h
      rw [← h.2]
      exact rangeParams_inv lib hlib ctx.Params ctx c ps hinv hl

theorem runPasses_inv (lib : Stdlib) (hlib : lib.RejectsEmpty) (k : Nat) :
    ∀ ctx ctx' : HttpContext, JsonStateInv ctx → runPasses lib k ctx = Except.ok ctx' →
      JsonStateInv ctx' := by
  induction k with
  | zero =>
    intro ctx ctx' hinv h
    simp only [runPasses, Except.ok.injEq] at h
    rw [← h]; exact hinv
  | succ k ih =>
    intro ctx ctx' hinv h
    simp only [runPasses] at h
    cases hp : ctx.ParamsAreValid lib with
    | error e => simp [hp] at h
    | ok r =>
      obtain ⟨b, c1⟩ := r
      simp only [hp] at h
      exact ih c1 ctx' (ParamsAreValid_inv lib hlib ctx c1 b hinv hp) h

theorem rangeParams_ok_inv (lib : Stdlib) (ps : List (String × HttpParam)) :
    ∀ c : HttpContext, JsonBodyOk lib c →
      ∃ c' ps', rangeParams lib c ps = Except.ok (c', ps') ∧ JsonBodyOk lib c' := by
  induction ps with
  | nil => intro c h; exact ⟨c, [], rfl, h⟩
  | cons e rest ih =>
    intro c h
    obtain ⟨name, p⟩ := e
    obtain ⟨c1, p1, hv, h1⟩ := validateParam_ok lib c p h
    obtain ⟨c2, rest1, hr, h2⟩ := ih c1 h1
    exact ⟨c2, (name, p1) :: rest1, by simp only [rangeParams, hv, hr], h2⟩

theorem ParamsAreValid_ok_inv (lib : Stdlib) (ctx : HttpContext) (h : JsonBodyOk lib ctx) :
    ∃ b ctx', ctx.ParamsAreValid lib = Except.ok (b, ctx') ∧ JsonBodyOk lib ctx' := by
  unfold HttpContext.ParamsAreValid
  split_ifs
  · exact ⟨_, _, rfl, h⟩
  · exact ⟨_, _, rfl, h⟩
  · obtain ⟨c2, ps, hr, h2⟩ := rangeParams_ok_inv lib ctx.Params ctx h
    exact ⟨decide (c2.ErrorCodes.length = 0), { c2 with Params := ps }, by simp only [hr], h2⟩

/-- Under `JsonBodyOk` any number of consecutive passes return. -/
theorem runPasses_ok (lib : Stdlib) (k : Nat) :
    ∀ ctx : HttpContext, JsonBodyOk lib ctx → ∃ ctx', runPasses lib k ctx = Except.ok ctx' := by
  induction k with
  | zero => intro ctx _; exact ⟨ctx, rfl⟩
  | succ k ih =>
    intro ctx h
    obtain ⟨b, c1, hp, h1⟩ := ParamsAreValid_ok_inv lib ctx h
    obtain ⟨c2, h2⟩ := ih c1 h1
    exact ⟨c2, by simp only [runPasses, hp, h2]⟩

/-- The JSON extraction does not look at `ErrorCodes` and `Params`, and carries them over. -/
theorem retrieveJsonParamValue_setCodes (lib : Stdlib) (c : HttpContext) (q : HttpParam)
    (x : List String) (ps : List (String × HttpParam)) :
    retrieveJsonParamValue lib { c with ErrorCodes := x, Params := ps } q =
      match retrieveJsonParamValue lib c q with
      | Except.ok (r, c1) => Except.ok (r, { c1 with ErrorCodes := x, Params := ps })
      | Except.error e => Except.error e := by
  unfold retrieveJsonParamValue
  by_cases hE : c.Errors.length > 0
  · simp only [hE, if_true]
  · simp only [hE, if_false]
    by_cases hb : len c.body = 0
    · simp only [hb, if_true]
      have hstep : ∀ d : HttpContext, readBody d = ((readBody d).1, (readBody d).2) := fun _ => rfl
      rw [hstep c, hstep { c with ErrorCodes := x, Params := ps }]
      have h2 : (readBody { c with ErrorCodes := x, Params := ps }).2 = (readBody c).2 := rfl
      have h1 : (readBody { c with ErrorCodes := x, Params := ps }).1 =
          { (readBody c).1 with ErrorCodes := x, Params := ps } := rfl
      rw [h2, h1]
      cases hx : (readBody c).2 with
      | some e => rfl
      | none =>
        simp only
        cases hm : (readBody c).1.postJson with
        | some m => simp [hm]
        | none =>
          simp only
          cases hu : lib.Unmarshal (readBody c).1.body with
          | error e => simp [hm]
          | ok v => cases v <;> simp [hm]
    · simp only [hb, if_false]
      cases hm : c.postJson with
      | some m => simp [hm]
      | none =>
        simp only
        cases hu : lib.Unmarshal c.body with
        | error e => simp [hm]
        | ok v => cases v <;> simp [hm]

theorem SameCache.eq {c d : HttpContext} (h : SameCache c d) :
    c = { d with ErrorCodes := c.ErrorCodes, Params := c.Params } := by
  obtain ⟨h1, h2, h3, h4, h5⟩ := h
  cases c; cases d
  simp only [HttpContext.mk.injEq] at *
  simp_all

theorem SameCache.refl (c : HttpContext) : SameCache c c := ⟨rfl, rfl, rfl, rfl, rfl⟩

theorem SameCache.trans {a b c : HttpContext} (h1 : SameCache a b) (h2 : SameCache b c) :
    SameCache a c :=
  ⟨h1.1.trans h2.1, h1.2.1.trans h2.2.1, h1.2.2.1.trans h2.2.2.1, h1.2.2.2.1.trans h2.2.2.2.1,
    h1.2.2.2.2.trans h2.2.2.2.2⟩

/-- Raw-value retrieval in two contexts with the same cache: same raw value (or the same
panic), and again the same cache afterwards. -/
theorem retrieveParamValue_sameCache (lib : Stdlib) (c d : HttpContext) (q : HttpParam)
    (h : SameCache c d) :
    (∀ r d1, retrieveParamValue lib d q = Except.ok (r, d1) →
      ∃ c1, retrieveParamValue lib c q = Except.ok (r, c1) ∧ SameCache c1 d1 ∧
        c1.ErrorCodes = c.ErrorCodes ∧ c1.Params = c.Params) ∧
    (∀ msg, retrieveParamValue lib d q = Except.error msg →
      retrieveParamValue lib c q = Except.error msg) := by
  have hc := h.eq
  have hreq : c.Request = d.Request := h.1
  have hj := retrieveJsonParamValue_setCodes lib d q c.ErrorCodes c.Params
  rw [← hc] at hj
  unfold retrieveParamValue
  split_ifs
  · rw [hreq]
    refine ⟨fun r d1 hd => ?_, fun msg hd => by simp at hd⟩
    simp only [Except.ok.injEq, Prod.mk.injEq] at hd
    obtain ⟨rfl, rfl⟩ := hd
    exact ⟨_, rfl, ⟨rfl, h.2.1, h.2.2.1, h.2.2.2.1, h.2.2.2.2⟩, rfl, rfl⟩
  · rw [hj]
    refine ⟨fun r d1 hd => ?_, fun msg hd => by rw [hd]⟩
    rw [hd]
    exact ⟨_, rfl, ⟨rfl, rfl, rfl, rfl, rfl⟩, rfl, rfl⟩
  · rw [hreq]
    refine ⟨fun r d1 hd => ?_, fun msg hd => by simp at hd⟩
    simp only [Except.ok.injEq, Prod.mk.injEq] at hd
    obtain ⟨rfl, rfl⟩ := hd
    exact ⟨_, rfl, ⟨rfl, h.2.1, h.2.2.1, h.2.2.2.1, h.2.2.2.2⟩, rfl, rfl⟩
  · rw [hreq]
    exact ⟨fun r d1 hd => by
      simp only [Except.ok.injEq, Prod.mk.injEq] at hd
      exact ⟨c, by rw [hd.1], hd.2 ▸ h, rfl, rfl⟩, fun msg hd => by simp at hd⟩
  · rw [hreq]
    exact ⟨fun r d1 hd => by
      simp only [Except.ok.injEq, Prod.mk.injEq] at hd
      exact ⟨c, by rw [hd.1], hd.2 ▸ h, rfl, rfl⟩, fun msg hd => by simp at hd⟩
  · exact ⟨fun r d1 hd => by
      simp only [Except.ok.injEq, Prod.mk.injEq] at hd
      exact ⟨c, by rw [hd.1], hd.2 ▸ h, rfl, rfl⟩, fun msg hd => by simp at hd⟩

theorem leaf_fail (d1 : HttpContext) (P : HttpParam) :
    ∃ d', (Except.ok (appendInvalidErrorCode d1 P) : Except String (HttpContext × HttpParam))
        = Except.ok (d', { P with Valid := false }) ∧
      d'.ErrorCodes = d1.ErrorCodes ++ [P.InvalidErrorCode] ∧ SameCache d' d1 ∧
      d'.Params = d1.Params :=
  ⟨_, rfl, rfl, ⟨rfl, rfl, rfl, rfl, rfl⟩, rfl⟩

theorem leaf_keep (d1 : HttpContext) (X : HttpParam) :
    ∃ d', (Except.ok (d1, X) : Except String (HttpContext × HttpParam)) = Except.ok (d', X) ∧
      d'.ErrorCodes = d1.ErrorCodes ++ [] ∧ SameCache d' d1 ∧ d'.Params = d1.Params :=
  ⟨d1, rfl, by simp, SameCache.refl d1, rfl⟩

/-- The result of a validator is a function of the extracted raw value: the descriptor it
leaves and the codes it appends do not depend on the context. -/
theorem validateParam_of_raw (lib : Stdlib) (p : HttpParam) (raw : String)
    (hdt : IsDataType p.DataType) :
    ∃ (K : List String) (p' : HttpParam), ∀ d d1 : HttpContext,
      retrieveParamValue lib d p = Except.ok (raw, d1) →
      ∃ d', validateParam lib d p = Except.ok (d', p') ∧ d'.ErrorCodes = d1.ErrorCodes ++ K ∧
        SameCache d' d1 ∧ d'.Params = d1.Params := by
  rcases hdt with hd | hd | hd | hd
  · by_cases hraw : raw = ""
    · by_cases hq : p.Required = true
      · refine ⟨[p.InvalidErrorCode], { ({ p with Raw := raw } : HttpParam) with Valid := false },
          fun d d1 hr => ?_⟩
        rw [validateParam_int lib d p hd, validateIntParam_eq lib d d1 p raw hr, if_pos hraw,
          if_pos hq]
        exact leaf_fail d1 _
      · refine ⟨[], { p with Raw := raw },
          fun d d1 hr => ?_⟩
        rw [validateParam_int lib d p hd, validateIntParam_eq lib d d1 p raw hr, if_pos hraw,
          if_neg hq]
        exact leaf_keep d1 _
    · cases ha : Atoi lib.IntSize raw with
      | none =>
        refine ⟨[p.InvalidErrorCode], { ({ p with Raw := raw } : HttpParam) with Valid := false },
          fun d d1 hr => ?_⟩
        rw [validateParam_int lib d p hd, validateIntParam_eq lib d d1 p raw hr, if_neg hraw, ha]
        exact leaf_fail d1 _
      | some v =>
        refine ⟨[], HttpParam.setPresentValue { p with Raw := raw } (GoValue.int v),
          fun d d1 hr => ?_⟩
        rw [validateParam_int lib d p hd, validateIntParam_eq lib d d1 p raw hr, if_neg hraw, ha]
        exact leaf_keep d1 _
  · by_cases hc : p.Required = true ∧ (raw = "" ∨ (p.MinLength > 0 ∧ (len raw : Int) < p.MinLength) ∨
        (p.MaxLength > 0 ∧ (len raw : Int) > p.MaxLength))
    · refine ⟨[p.InvalidErrorCode], { ({ p with Raw := raw } : HttpParam) with Valid := false },
        fun d d1 hr => ?_⟩
      rw [validateParam_string lib d p hd, validateStringParam_eq lib d d1 p raw hr, if_pos hc]
      exact leaf_fail d1 _
    · refine ⟨[], HttpParam.setPresentValue { p with Raw := raw } (GoValue.string raw),
        fun d d1 hr => ?_⟩
      rw [validateParam_string lib d p hd, validateStringParam_eq lib d d1 p raw hr, if_neg hc]
      exact leaf_keep d1 _
  · by_cases hraw : raw = ""
    · by_cases hq : p.Required = true
      · refine ⟨[p.InvalidErrorCode], { ({ p with Raw := raw } : HttpParam) with Valid := false },
          fun d d1 hr => ?_⟩
        rw [validateParam_float lib d p hd, validateFloatParam_eq lib d d1 p raw hr, if_pos hraw,
          if_pos hq]
        exact leaf_fail d1 _
      · refine ⟨[], { p with Raw := raw },
          fun d d1 hr => ?_⟩
        rw [validateParam_float lib d p hd, validateFloatParam_eq lib d d1 p raw hr, if_pos hraw,
          if_neg hq]
        exact leaf_keep d1 _
    · cases ha : lib.ParseFloat raw with
      | none =>
        refine ⟨[p.InvalidErrorCode], { ({ p with Raw := raw } : HttpParam) with Valid := false },
          fun d d1 hr => ?_⟩
        rw [validateParam_float lib d p hd, validateFloatParam_eq lib d d1 p raw hr, if_neg hraw,
          ha]
        exact leaf_fail d1 _
      | some v =>
        refine ⟨[], HttpParam.setPresentValue { p with Raw := raw } (GoValue.float64 v),
          fun d d1 hr => ?_⟩
        rw [validateParam_float lib d p hd, validateFloatParam_eq lib d d1 p raw hr, if_neg hraw,
          ha]
        exact leaf_keep d1 _
  · by_cases hraw : raw = ""
    · by_cases hq : p.Required = true
      · refine ⟨[p.InvalidErrorCode], { ({ p with Raw := raw } : HttpParam) with Valid := false },
          fun d d1 hr => ?_⟩
        rw [validateParam_bool lib d p hd, validateBoolParam_eq lib d d1 p raw hr, if_pos hraw,
          if_pos hq]
        exact leaf_fail d1 _
      · refine ⟨[], { p with Raw := raw },
          fun d d1 hr => ?_⟩
        rw [validateParam_bool lib d p hd, validateBoolParam_eq lib d d1 p raw hr, if_pos hraw,
          if_neg hq]
        exact leaf_keep d1 _
    · cases ha : ParseBool raw with
      | none =>
        refine ⟨[p.InvalidErrorCode], { ({ p with Raw := raw } : HttpParam) with Valid := false },
          fun d d1 hr => ?_⟩
        rw [validateParam_bool lib d p hd, validateBoolParam_eq lib d d1 p raw hr, if_neg hraw, ha]
        exact leaf_fail d1 _
      | some v =>
        refine ⟨[], HttpParam.setPresentValue { p with Raw := raw } (GoValue.bool v),
          fun d d1 hr => ?_⟩
        rw [validateParam_bool lib d p hd, validateBoolParam_eq lib d d1 p raw hr, if_neg hraw, ha]
        exact leaf_keep d1 _

theorem retrieveParamValue_json (lib : Stdlib) (c : HttpContext) (p : HttpParam)
    (h : p.ParamType = HttpParamJsonPost) :
    retrieveParamValue lib c p = retrieveJsonParamValue lib c p := by
  simp [retrieveParamValue, h, HttpParamPost, HttpParamJsonPost]

/-- For a source other than the JSON body, on a request whose form lookups do not read the
body, the raw value is a function of the lookups of the request, and the context is not
changed. -/
theorem retrieveParamValue_nonJson (lib : Stdlib) (p : HttpParam)
    (h : p.ParamType ≠ HttpParamJsonPost) :
    ∃ g : Request → String,
      (∀ c : HttpContext, c.Request.UnparsedForm = none →
        retrieveParamValue lib c p = Except.ok (g c.Request, c)) ∧
      (∀ r1 r2 : Request, r1.PostFormValue = r2.PostFormValue → r1.FormValue = r2.FormValue →
        r1.HeaderGet = r2.HeaderGet → r1.Vars = r2.Vars → g r1 = g r2) := by
  unfold retrieveParamValue
  split_ifs with h0 h1 h2 h3
  · exact ⟨fun r => TrimSpace (r.PostFormValue p.Name),
      fun c hU => by rw [ParseMultipartForm_of_parsed _ hU],
      fun r1 r2 e1 _ _ _ => by simp only [e1]⟩
  · exact ⟨fun r => TrimSpace (r.FormValue p.Name),
      fun c hU => by rw [ParseMultipartForm_of_parsed _ hU],
      fun r1 r2 _ e2 _ _ => by simp only [e2]⟩
  · exact ⟨fun r => TrimSpace (r.HeaderGet p.Name), fun _ _ => rfl,
      fun r1 r2 _ _ e3 _ => by simp only [e3]⟩
  · exact ⟨fun r => TrimSpace (r.Vars p.Name), fun _ _ => rfl,
      fun r1 r2 _ _ _ e4 => by simp only [e4]⟩
  · exact ⟨fun _ => nadaStr, fun _ _ => rfl, fun _ _ _ _ _ _ => rfl⟩

theorem validateParam_other (lib : Stdlib) (c : HttpContext) (p : HttpParam)
    (h : ¬ IsDataType p.DataType) : validateParam lib c p = Except.ok (c, p) := by
  simp only [IsDataType, not_or] at h
  obtain ⟨d0, d1, d2, d3⟩ := h
  simp only [validateParam, d0, d1, d2, d3, if_false]

theorem validateParam_panics (lib : Stdlib) (c : HttpContext) (p : HttpParam) (msg : String)
    (hdt : IsDataType p.DataType) (h : retrieveParamValue lib c p = Except.error msg) :
    validateParam lib c p = Except.error msg := by
  rcases hdt with hd | hd | hd | hd
  · rw [validateParam_int lib c p hd]; simp only [validateIntParam, h]
  · rw [validateParam_string lib c p hd]; simp only [validateStringParam, h]
  · rw [validateParam_float lib c p hd]; simp only [validateFloatParam, h]
  · rw [validateParam_bool lib c p hd]; simp only [validateBoolParam, h]

/-- In a context the loop goes through, the descriptor gets the raw value it gets in the
initial context. -/
theorem retrieve_step (lib : Stdlib) (c0 c1 : HttpContext) (f : String → String)
    (c : HttpContext) (p : HttpParam) (hU : c0.Request.UnparsedForm = none)
    (hinv : PassInv lib c0 c1 f c)
    (hT : Touches p → SettlesTo lib c0 c1 f) (hdt : IsDataType p.DataType) :
    ∃ raw c0r cr, retrieveParamValue lib c0 p = Except.ok (raw, c0r) ∧
      retrieveParamValue lib c p = Except.ok (raw, cr) ∧
      c0r.ErrorCodes = c0.ErrorCodes ∧ cr.ErrorCodes = c.ErrorCodes ∧ cr.Params = c.Params ∧
      PassInv lib c0 c1 f cr ∧ (Touches p → SameCache cr c1) ∧
      (¬ Touches p → SameCache cr c) := by
  by_cases hj : p.ParamType = HttpParamJsonPost
  · have hS := hT ⟨hdt, hj⟩
    have h0 : retrieveParamValue lib c0 p = Except.ok (f p.Name, c1) := by
      rw [retrieveParamValue_json lib c0 p hj]; exact hS.1 p
    have h1 : retrieveParamValue lib c1 p = Except.ok (f p.Name, c1) := by
      rw [retrieveParamValue_json lib c1 p hj]; exact hS.2.1 p
    rcases hinv with hc | ⟨-, hc⟩
    · obtain ⟨cr, hr, hsame, hcodes, hparams⟩ :=
        (retrieveParamValue_sameCache lib c c0 p hc).1 _ _ h0
      exact ⟨_, c1, cr, h0, hr, hS.2.2.2.2.2.2.2, hcodes, hparams, Or.inr ⟨hS, hsame⟩,
        fun _ => hsame, fun hn => absurd ⟨hdt, hj⟩ hn⟩
    · obtain ⟨cr, hr, hsame, hcodes, hparams⟩ :=
        (retrieveParamValue_sameCache lib c c1 p hc).1 _ _ h1
      exact ⟨_, c1, cr, h0, hr, hS.2.2.2.2.2.2.2, hcodes, hparams, Or.inr ⟨hS, hsame⟩,
        fun _ => hsame, fun hn => absurd ⟨hdt, hj⟩ hn⟩
  · obtain ⟨g, hg, hgext⟩ := retrieveParamValue_nonJson lib p hj
    have hraw : g c.Request = g c0.Request ∧ c.Request.UnparsedForm = none := by
      rcases hinv with hc | ⟨hS, hc⟩
      · rw [hc.1]
        exact ⟨rfl, hU⟩
      · rw [hc.1]
        exact ⟨hgext _ _ hS.2.2.1 hS.2.2.2.1 hS.2.2.2.2.1 hS.2.2.2.2.2.1,
          hS.2.2.2.2.2.2.1.trans hU⟩
    exact ⟨g c0.Request, c0, c, hg c0 hU, by rw [hg c hraw.2, hraw.1], rfl, rfl, rfl, hinv,
      fun ht => absurd ht.2 hj, fun _ => SameCache.refl c⟩

/-- One step of the loop: the validator leaves the descriptor as it would from the initial
context and appends the codes it would append there. -/
theorem validateParam_step (lib : Stdlib) (c0 c1 : HttpContext) (f : String → String)
    (c : HttpContext) (p : HttpParam) (hU : c0.Request.UnparsedForm = none)
    (hinv : PassInv lib c0 c1 f c)
    (hT : Touches p → SettlesTo lib c0 c1 f) :
    ∃ c', validateParam lib c p = Except.ok (c', outcomeAt lib c0 p) ∧
      c'.ErrorCodes = c.ErrorCodes ++ codesAt lib c0 p ∧ c'.Params = c.Params ∧
      PassInv lib c0 c1 f c' ∧ (Touches p → SameCache c' c1) ∧
      (¬ Touches p → SameCache c' c) := by
  by_cases hdt : IsDataType p.DataType
  · obtain ⟨raw, c0r, cr, h0, hr, hc0, hcr, hpr, hinvr, ht, hnt⟩ :=
      retrieve_step lib c0 c1 f c p hU hinv hT hdt
    obtain ⟨K, p', hK⟩ := validateParam_of_raw lib p raw hdt
    obtain ⟨d0, hv0, hd0, -, -⟩ := hK c0 c0r h0
    obtain ⟨c', hv, hd, hsame, hparams⟩ := hK c cr hr
    have hout : outcomeAt lib c0 p = p' := by simp only [outcomeAt, hv0]
    have hcodes : codesAt lib c0 p = K := by
      simp only [codesAt, hv0, hd0, hc0, List.drop_left]
    refine ⟨c', by rw [hout]; exact hv, by rw [hd, hcr, hcodes], by rw [hparams, hpr], ?_,
      fun h => hsame.trans (ht h), fun h => hsame.trans (hnt h)⟩
    rcases hinvr with h | ⟨hS, h⟩
    · exact Or.inl (hsame.trans h)
    · exact Or.inr ⟨hS, hsame.trans h⟩
  · have hv := validateParam_other lib c p hdt
    have hv0 := validateParam_other lib c0 p hdt
    have hout : outcomeAt lib c0 p = p := by simp only [outcomeAt, hv0]
    have hcodes : codesAt lib c0 p = [] := by simp only [codesAt, hv0, List.drop_length]
    exact ⟨c, by rw [hout]; exact hv, by rw [hcodes, List.append_nil], rfl, hinv,
      fun h => absurd h.1 hdt, fun _ => SameCache.refl c⟩

/-- The loop of a pass started at `c0`: every descriptor ends as its validator leaves it
when run on `c0`, and the codes appended are the codes appended there, in loop order. -/
theorem rangeParams_settled (lib : Stdlib) (c0 c1 : HttpContext) (f : String → String)
    (hU : c0.Request.UnparsedForm = none) (ps : List (String × HttpParam)) :
    ∀ c : HttpContext, PassInv lib c0 c1 f c →
      (∀ e ∈ ps, Touches e.2 → SettlesTo lib c0 c1 f) →
      ∃ c', rangeParams lib c ps
          = Except.ok (c', ps.map (fun e => (e.1, outcomeAt lib c0 e.2))) ∧
        c'.ErrorCodes = c.ErrorCodes ++ ps.flatMap (fun e => codesAt lib c0 e.2) ∧
        c'.Params = c.Params ∧ PassInv lib c0 c1 f c' ∧
        ((∃ e ∈ ps, Touches e.2) → SameCache c' c1) ∧
        ((∀ e ∈ ps, ¬ Touches e.2) → SameCache c' c) := by
  induction ps with
  | nil =>
    intro c hinv _
    exact ⟨c, rfl, by simp, rfl, hinv, fun ⟨e, he, _⟩ => by simp at he,
      fun _ => SameCache.refl c⟩
  | cons e rest ih =>
    intro c hinv hT
    obtain ⟨name, p⟩ := e
    obtain ⟨ca, hv, hca, hpa, hinva, hta, hnta⟩ :=
      validateParam_step lib c0 c1 f c p hU hinv (hT (name, p) (List.mem_cons_self _ _))
    obtain ⟨cb, hl, hcb, hpb, hinvb, htb, hntb⟩ :=
      ih ca hinva (fun e he => hT e (List.mem_cons_of_mem _ he))
    refine ⟨cb, by simp only [rangeParams, hv, hl, List.map_cons], ?_, by rw [hpb, hpa], hinvb,
      ?_, ?_⟩
    · rw [hcb, hca, List.flatMap_cons, List.append_assoc]
    · rintro ⟨e, he, hte⟩
      by_cases hrest : ∃ e ∈ rest, Touches e.2
      · exact htb hrest
      · have hnone : ∀ e ∈ rest, ¬ Touches e.2 := fun e he ht => hrest ⟨e, he, ht⟩
        rcases List.mem_cons.1 he with rfl | he'
        · exact (hntb hnone).trans (hta hte)
        · exact absurd hte (hnone e he')
    · intro hnone
      exact (hntb (fun e he => hnone e (List.mem_cons_of_mem _ he))).trans
        (hnta (hnone (name, p) (List.mem_cons_self _ _)))

/-- When the JSON extraction panics in the initial context, the loop panics as soon as it
holds a descriptor that runs the extraction. -/
theorem rangeParams_panics (lib : Stdlib) (c0 : HttpContext) (msg : String)
    (hU : c0.Request.UnparsedForm = none)
    (hall : ∀ q : HttpParam, retrieveJsonParamValue lib c0 q = Except.error msg)
    (ps : List (String × HttpParam)) :
    ∀ c : HttpContext, SameCache c c0 → (∃ e ∈ ps, Touches e.2) →
      rangeParams lib c ps = Except.error msg := by
  induction ps with
  | nil => intro c _ ⟨e, he, _⟩; simp at he
  | cons e rest ih =>
    intro c hc hex
    obtain ⟨name, p⟩ := e
    by_cases ht : Touches p
    · have h0 : retrieveParamValue lib c0 p = Except.error msg := by
        rw [retrieveParamValue_json lib c0 p ht.2]; exact hall p
      have h1 := (retrieveParamValue_sameCache lib c c0 p hc).2 msg h0
      simp only [rangeParams, validateParam_panics lib c p msg ht.1 h1]
    · obtain ⟨ca, hv, -, -, -, -, hnta⟩ :=
        validateParam_step lib c0 c0 (fun _ => "") c p hU (Or.inl hc) (fun h => absurd h ht)
      have hrest : ∃ e ∈ rest, Touches e.2 := by
        obtain ⟨e, he, hte⟩ := hex
        rcases List.mem_cons.1 he with rfl | he'
        · exact absurd hte ht
        · exact ⟨e, he', hte⟩
      simp only [rangeParams, hv, ih ca ((hnta ht).trans hc) hrest]

theorem retrieveJson_of_errors (lib : Stdlib) (c : HttpContext) (q : HttpParam)
    (h : c.Errors ≠ []) : retrieveJsonParamValue lib c q = Except.ok ("", c) := by
  unfold retrieveJsonParamValue
  have h0 : c.Errors.length > 0 := by
    cases hc : c.Errors with
    | nil => exact absurd hc h
    | cons a l => simp
  rw [if_pos h0]
  rfl

/-- A context in which the JSON extraction changes nothing settles to itself. -/
theorem settlesTo_self (lib : Stdlib) (c : HttpContext) (f : String → String)
    (h : ∀ q : HttpParam, retrieveJsonParamValue lib c q = Except.ok (f q.Name, c)) :
    SettlesTo lib c c f := ⟨h, h, rfl, rfl, rfl, rfl, rfl, rfl⟩

/-- When the read of the body fails, every JSON extraction yields the empty string and the
context settles to the one that holds the read error. -/
theorem settlesTo_of_read_error (lib : Stdlib) (c : HttpContext) (err : String)
    (hE : c.Errors = []) (hb : len c.body = 0)
    (hx : (ReadAll c.Request.Body).2.1 = some err) :
    SettlesTo lib c
      { (readBody c).1 with
        Errors := [NewStackError "Error in raw data extraction - error: %v" err] }
      (fun _ => "") := by
  have h0 : ¬ c.Errors.length > 0 := by simp [hE]
  have hstep : readBody c = ((readBody c).1, some err) := Prod.ext rfl hx
  refine ⟨fun q => ?_, fun q => retrieveJson_of_errors lib _ q (by simp), rfl, rfl, rfl, rfl, rfl,
    rfl⟩
  unfold retrieveJsonParamValue
  rw [if_neg h0, if_pos hb, hstep]
  have hcE : (readBody c).1.Errors = [] := hE
  simp only [hcE, List.nil_append]
  rfl

theorem readBody_cases (c : HttpContext) :
    ∃ rc e, readBody c = (rc, e) ∧ e = (ReadAll c.Request.Body).2.1 ∧
      rc.postJson = c.postJson ∧ rc.Errors = c.Errors ∧ rc.ErrorCodes = c.ErrorCodes ∧
      rc.Request.PostFormValue = c.Request.PostFormValue ∧
      rc.Request.FormValue = c.Request.FormValue ∧
      rc.Request.HeaderGet = c.Request.HeaderGet ∧ rc.Request.Vars = c.Request.Vars ∧
      rc.Request.UnparsedForm = c.Request.UnparsedForm :=
  ⟨(readBody c).1, (readBody c).2, rfl, rfl, rfl, rfl, rfl, rfl, rfl, rfl, rfl, rfl⟩

/-- In a regular state of the body cache the JSON extraction is uniform: it either panics for
every descriptor, or it settles. -/
theorem jsonExtraction_uniform (lib : Stdlib) (hlib : lib.RejectsEmpty) (c : HttpContext)
    (hinv : JsonStateInv c) :
    (∃ msg, ∀ q : HttpParam, retrieveJsonParamValue lib c q = Except.error msg) ∨
    ∃ c1 f, SettlesTo lib c c1 f := by
  by_cases hE : c.Errors = []
  swap
  · exact Or.inr ⟨c, fun _ => "", settlesTo_self lib c _ (fun q => retrieveJson_of_errors lib c q hE)⟩
  have h0 : ¬ c.Errors.length > 0 := by simp [hE]
  obtain ⟨-, hph⟩ := hinv
  rcases hph with hne | ⟨hb, hpj, -, -⟩ | ⟨hb, hpj⟩
  · exact absurd hE hne
  · have hlen : len c.body = 0 := by rw [hb]; rfl
    cases hx : (ReadAll c.Request.Body).2.1 with
    | some err => exact Or.inr ⟨_, _, settlesTo_of_read_error lib c err hE hlen hx⟩
    | none =>
      obtain ⟨rc, e, hrb, he, hrpj, hrE, hrC, l1, l2, l3, l4, l5⟩ := readBody_cases c
      rw [hx] at he
      subst he
      rw [hpj] at hrpj
      rw [hE] at hrE
      have hunf : ∀ q : HttpParam, retrieveJsonParamValue lib c q =
          match lib.Unmarshal rc.body with
          | Except.error e =>
            Except.ok (nadaStr,
              { rc with
                log := rc.log ++ [Effect.jsonDecode]
                Errors := rc.Errors ++
                  [NewStackError "Error in raw json data extraction - error: %v" e] })
          | Except.ok (Json.obj m) =>
            Except.ok (jsonFieldText lib m q.Name,
              { rc with log := rc.log ++ [Effect.jsonDecode], postJson := some m })
          | Except.ok _ =>
            Except.error "interface conversion: genJson is not a map[string]interface" := by
        intro q
        unfold retrieveJsonParamValue
        rw [if_neg h0, if_pos hlen, hrb]
        simp only [hrpj]
      cases hu : lib.Unmarshal rc.body with
      | error e =>
        refine Or.inr ⟨{ rc with
            log := rc.log ++ [Effect.jsonDecode]
            Errors := rc.Errors ++
              [NewStackError "Error in raw json data extraction - error: %v" e] },
          fun _ => "", fun q => ?_, fun q => retrieveJson_of_errors lib _ q ?_,
          l1, l2, l3, l4, l5, hrC⟩
        · rw [hunf q, hu]; rfl
        · simp
      | ok v =>
        have hbody : len rc.body ≠ 0 := by
          intro hz
          have hempty : rc.body = "" := (len_eq_zero_iff _).1 hz
          rw [hempty] at hu
          obtain ⟨e, he⟩ := hlib
          rw [he] at hu
          exact absurd hu (by simp)
        cases v with
        | obj m =>
          refine Or.inr ⟨{ rc with log := rc.log ++ [Effect.jsonDecode], postJson := some m },
            jsonFieldText lib m, fun q => ?_, fun q => ?_, l1, l2, l3, l4, l5, hrC⟩
          · rw [hunf q, hu]
          · unfold retrieveJsonParamValue
            have h0' : ¬ (0 < rc.Errors.length) := by simp [hrE]
            simp only [gt_iff_lt, h0', if_false, hbody]
        | null => exact Or.inl ⟨_, fun q => by rw [hunf q, hu]⟩
        | bool b => exact Or.inl ⟨_, fun q => by rw [hunf q, hu]⟩
        | number x => exact Or.inl ⟨_, fun q => by rw [hunf q, hu]⟩
        | str s => exact Or.inl ⟨_, fun q => by rw [hunf q, hu]⟩
        | arr xs => exact Or.inl ⟨_, fun q => by rw [hunf q, hu]⟩
  · cases hm : c.postJson with
    | none => exact absurd hm hpj
    | some m =>
      refine Or.inr ⟨c, jsonFieldText lib m, settlesTo_self lib c _ (fun q => ?_)⟩
      unfold retrieveJsonParamValue
      simp only [gt_iff_lt, h0, if_false, hb, hm]

theorem SameCache.symm {c d : HttpContext} (h : SameCache c d) : SameCache d c :=
  ⟨h.1.symm, h.2.1.symm, h.2.2.1.symm, h.2.2.2.1.symm, h.2.2.2.2.symm⟩

theorem ParamsAreValid_eq_loop (lib : Stdlib) (ctx : HttpContext) (hE : ctx.Errors = [])
    (hne : ctx.Params ≠ []) :
    ctx.ParamsAreValid lib =
      match rangeParams lib ctx ctx.Params with
      | Except.error e => Except.error e
      | Except.ok (c, ps) =>
        Except.ok (decide (c.ErrorCodes.length = 0), { c with Params := ps }) := by
  unfold HttpContext.ParamsAreValid
  have h0 : ¬ ctx.Errors.length ≠ 0 := by simp [hE]
  have h1 : ¬ ctx.Params.length = 0 := by simpa using hne
  rw [if_neg h0, if_neg h1]

theorem ParamsAreValid_of_no_params (lib : Stdlib) (ctx : HttpContext) (hE : ctx.Errors = [])
    (hnil : ctx.Params = []) : ctx.ParamsAreValid lib = Except.ok (true, ctx) := by
  unfold HttpContext.ParamsAreValid
  simp [hE, hnil]

/-- A pass whose loop runs, in a context where the JSON extraction settles (or is not run):
the pass returns, every descriptor ends as its validator leaves it when run on the initial
context, and the codes appended are those appended there, in loop order. -/
theorem ParamsAreValid_settled (lib : Stdlib) (c0 c1 : HttpContext) (f : String → String)
    (ctx : HttpContext) (hU : c0.Request.UnparsedForm = none) (hsame : SameCache ctx c0)
    (hE : ctx.Errors = [])
    (hne : ctx.Params ≠ [])
    (hT : ∀ e ∈ ctx.Params, Touches e.2 → SettlesTo lib c0 c1 f) :
    ∃ ctx', ctx.ParamsAreValid lib = Except.ok (decide (ctx'.ErrorCodes.length = 0), ctx') ∧
      ctx'.Params = ctx.Params.map (fun e => (e.1, outcomeAt lib c0 e.2)) ∧
      ctx'.ErrorCodes = ctx.ErrorCodes ++ ctx.Params.flatMap (fun e => codesAt lib c0 e.2) ∧
      ((∃ e ∈ ctx.Params, Touches e.2) → SameCache ctx' c1) ∧
      ((∀ e ∈ ctx.Params, ¬ Touches e.2) → SameCache ctx' c0) := by
  obtain ⟨c', hl, hcodes, -, -, ht, hnt⟩ :=
    rangeParams_settled lib c0 c1 f hU ctx.Params ctx (Or.inl hsame) hT
  refine ⟨{ c' with Params := ctx.Params.map (fun e => (e.1, outcomeAt lib c0 e.2)) }, ?_, rfl,
    hcodes, fun h => ?_, fun h => ?_⟩
  · rw [ParamsAreValid_eq_loop lib ctx hE hne, hl]
  · exact ht h
  · exact (hnt h).trans hsame

/-- A processed entry keeps its name and its required flag; a property of the final entries
under a condition `b` can be read off pairwise. -/
theorem forall₂_processed_static (lib : Stdlib) (b : Bool)
    (ps ps' : List (String × HttpParam))
    (hproc : List.Forall₂ (fun e e' => e'.1 = e.1 ∧
      ∃ d d', validateParam lib d e.2 = Except.ok (d', e'.2)) ps ps')
    (hmem : ∀ e' ∈ ps', b = true →
      e'.2.Valid = true ∧ (e'.2.Required = true → e'.2.Present = true)) :
    List.Forall₂ (fun e e' => e'.1 = e.1 ∧ e'.2.Name = e.2.Name ∧
      e'.2.Required = e.2.Required ∧
      (∃ d d', validateParam lib d e.2 = Except.ok (d', e'.2)) ∧
      (b = true → e'.2.Valid = true ∧ (e.2.Required = true → e'.2.Present = true))) ps ps' := by
  induction hproc with
  | nil => exact List.Forall₂.nil
  | @cons a a' l l' hhead _ ih =>
    obtain ⟨hkey, d, d', hv⟩ := hhead
    obtain ⟨hstatic, -⟩ := validateParam_outcome lib d d' a.2 a'.2 hv
    refine List.Forall₂.cons ⟨hkey, hstatic.1, hstatic.2.2.2.2.1, ⟨d, d', hv⟩, fun hb => ?_⟩
      (ih (fun e' he' => hmem e' (List.mem_cons_of_mem _ he')))
    obtain ⟨h1, h2⟩ := hmem a' (List.mem_cons_self _ _) hb
    exact ⟨h1, fun hreq => h2 (by rw [hstatic.2.2.2.2.1]; exact hreq)⟩

/-! ## The claims -/

/-- C1. For a context with empty `Errors` and `ErrorCodes` whose descriptors are all as
`Define*Param` registered them: the pass returns whenever the JSON body cannot trip the type
assertion; and when it returns, it returns true if and only if `ErrorCodes` is empty after
the pass; the descriptors after the pass are the descriptors before it, each processed by its
validator (same key, same name, same required flag, in the same order); and a true result
means that every one of them is valid and every required one is present. -/
theorem C1_true_iff_no_error_code (lib : Stdlib) (ctx : HttpContext)
    (hErrors : ctx.Errors = []) (hCodes : ctx.ErrorCodes = [])
    (hreg : ∀ e ∈ ctx.Params, Registered e.1 e.2) :
    (JsonBodyOk lib ctx → ∃ b ctx', ctx.ParamsAreValid lib = Except.ok (b, ctx')) ∧
    ∀ b ctx', ctx.ParamsAreValid lib = Except.ok (b, ctx') →
      (b = true ↔ ctx'.ErrorCodes = []) ∧
      List.Forall₂ (fun e e' => e'.1 = e.1 ∧ e'.2.Name = e.2.Name ∧
        e'.2.Required = e.2.Required ∧
        (∃ d d', validateParam lib d e.2 = Except.ok (d', e'.2)) ∧
        (b = true → e'.2.Valid = true ∧ (e.2.Required = true → e'.2.Present = true)))
        ctx.Params ctx'.Params ∧
      (b = true → ∀ e ∈ ctx'.Params,
        e.2.Valid = true ∧ (e.2.Required = true → e.2.Present = true)) := by
  refine ⟨fun hok => ?_, fun b ctx' h => ?_⟩
  · obtain ⟨⟨b, ctx'⟩, hr⟩ := ParamsAreValid_ok lib ctx hok
    exact ⟨b, ctx', hr⟩
  · by_cases hne : ctx.Params = []
    · have h' := h
      unfold HttpContext.ParamsAreValid at h'
      simp only [hErrors, hne, List.length_nil, ne_eq, not_true_eq_false, if_false, if_true,
        Except.ok.injEq, Prod.mk.injEq] at h'
      obtain ⟨rfl, rfl⟩ := h'
      simp [hCodes, hne]
    · obtain ⟨c, hl, hcodes, hiff⟩ := ParamsAreValid_loop lib ctx ctx' b hErrors hne h
      have hfinal : b = true → ∀ e ∈ ctx'.Params,
          e.2.Valid = true ∧ (e.2.Required = true → e.2.Present = true) := ?_
      · refine ⟨hiff, ?_, hfinal⟩
        exact forall₂_processed_static lib b _ _ (rangeParams_processed lib ctx c _ _ hl)
          (fun e' he' hb => hfinal hb e' he')
      intro hb e' he'
      have hnil : c.ErrorCodes = [] := by rw [← hcodes]; exact hiff.1 hb
      obtain ⟨-, hall⟩ := rangeParams_forall₂ lib ctx.Params ctx c ctx'.Params hl
      obtain ⟨e, he, -, c0, c1, hv, hpre⟩ := forall₂_mem_right hall e' he'
      obtain ⟨-, hdt, hvalid, -⟩ := (hreg e he).fields
      rw [hnil] at hpre
      have hc1 : c1.ErrorCodes = [] := List.prefix_nil.1 hpre
      obtain ⟨hstatic, ho | ho⟩ := validateParam_outcome lib c0 c1 e.2 e'.2 hv
      · refine ⟨by rw [ho.2.1, hvalid], fun hreq => ?_⟩
        rw [hstatic.2.2.2.2.1] at hreq
        exact (ho.2.2 hdt hreq).1
      · rw [hc1] at ho
        exact absurd ho.1 (by simp)

/-- C1 at the end-to-end scenario (`?page=7`, no header): the pass returns true, `ErrorCodes`
is empty, every descriptor is valid and the required one is present. -/
theorem C1_witness :
    ∃ ctx', pageTraceContext.ParamsAreValid sampleLib = Except.ok (true, ctx') ∧
      ctx'.ErrorCodes = [] ∧
      ctx'.Params.map (fun e => (e.1, e.2.Raw, e.2.Present, e.2.Valid))
        = [("page", "7", true, true), ("trace", "", true, true)] ∧
      ∀ e ∈ ctx'.Params, e.2.Valid = true ∧ (e.2.Required = true → e.2.Present = true) :=
  have h := (C1_true_iff_no_error_code sampleLib pageTraceContext rfl rfl
    pageTraceContext_registered).2 true _ rfl
  ⟨_, rfl, h.1.1 rfl, rfl, h.2.2 rfl⟩

/-- C2 (the code at the failing input). One optional integer descriptor sourced from the JSON
body, on a request whose body cannot be read and on a request whose body is not JSON: the pass
records the infrastructure error in `Errors`, appends no error code, and returns true. -/
theorem C2_true_despite_infrastructure_error :
    (∃ ctx', optionalAgeContext.ParamsAreValid sampleLib = Except.ok (true, ctx') ∧
      ctx'.Errors = [NewStackError "Error in raw data extraction - error: %v" "unexpected EOF"] ∧
      ctx'.ErrorCodes = [] ∧ ctx'.HasRawErrors = true) ∧
    (∃ ctx', malformedAgeContext.ParamsAreValid sampleLib = Except.ok (true, ctx') ∧
      ctx'.Errors =
        [NewStackError "Error in raw json data extraction - error: %v" "invalid character"] ∧
      ctx'.ErrorCodes = [] ∧ ctx'.HasRawErrors = true) :=
  ⟨⟨_, rfl, rfl, rfl, rfl⟩, ⟨_, rfl, rfl, rfl, rfl⟩⟩

/-- C3. A context that already holds an infrastructure error: the pass returns false and the
context after the call is the context before it (descriptors, `ErrorCodes`, `Errors`, the
body reader and the log of reads and decodes included). -/
theorem C3_errors_at_entry_short_circuit (lib : Stdlib) (ctx : HttpContext)
    (hErrors : ctx.Errors ≠ []) :
    ctx.ParamsAreValid lib = Except.ok (false, ctx) :=
  ParamsAreValid_of_errors lib ctx hErrors

/-- C3 at a context with two descriptors and one recorded infrastructure error. -/
theorem C3_witness :
    failedContext.Errors ≠ [] ∧ failedContext.Params ≠ [] ∧
      failedContext.ParamsAreValid sampleLib = Except.ok (false, failedContext) :=
  ⟨by decide, by decide, C3_errors_at_entry_short_circuit sampleLib failedContext (by decide)⟩

/-- C4. A freshly registered required descriptor of any of the four data types whose
extracted raw value is empty: its validator appends exactly its `InvalidErrorCode` to
`ErrorCodes`, sets `Valid = false` and leaves `Present = false`.  The pass returns whenever
the JSON body cannot trip the type assertion; and a pass that returns and leaves a required
descriptor with an empty raw value has returned false and (when it ran, `Errors` being empty
at entry) has marked the descriptor invalid and holds its code in `ErrorCodes`. -/
theorem C4_required_empty_raw_fails (lib : Stdlib) :
    (∀ (ctx ctx1 : HttpContext) (name : String) (p : HttpParam),
      Registered name p → p.Required = true →
      retrieveParamValue lib ctx p = Except.ok ("", ctx1) →
      validateParam lib ctx p = Except.ok
        ({ ctx1 with ErrorCodes := ctx.ErrorCodes ++ [p.InvalidErrorCode] },
         { p with Raw := "", Valid := false, Present := false })) ∧
    (∀ ctx : HttpContext, JsonBodyOk lib ctx →
      ∃ b ctx', ctx.ParamsAreValid lib = Except.ok (b, ctx')) ∧
    (∀ (ctx ctx' : HttpContext) (b : Bool),
      ctx.ParamsAreValid lib = Except.ok (b, ctx') →
      ∀ e ∈ ctx'.Params, IsDataType e.2.DataType → e.2.Required = true → e.2.Raw = "" →
        b = false ∧
        (ctx.Errors = [] → e.2.Valid = false ∧ e.2.InvalidErrorCode ∈ ctx'.ErrorCodes)) := by
  refine ⟨fun ctx ctx1 name p hreg hreq hr => ?_, fun ctx hok => ?_,
    fun ctx ctx' b h e' he' hdt hreq hraw => ?_⟩
  · obtain ⟨-, hdt, -, hpres, -⟩ := hreg.fields
    rw [validateParam_required_empty lib ctx ctx1 p hdt hreq hr]
    have hf := (retrieveParamValue_frame lib ctx ctx1 p "" hr).1
    simp only [appendInvalidErrorCode, hf, ← hpres]
  · obtain ⟨⟨b, ctx'⟩, hr⟩ := ParamsAreValid_ok lib ctx hok
    exact ⟨b, ctx', hr⟩
  · by_cases hE : ctx.Errors = []
    swap
    · rw [ParamsAreValid_of_errors lib ctx hE] at h
      simp only [Except.ok.injEq, Prod.mk.injEq] at h
      exact ⟨h.1.symm, fun hE' => absurd hE' hE⟩
    have hne : ctx.Params ≠ [] := by
      intro hnil
      unfold HttpContext.ParamsAreValid at h
      simp only [hE, hnil, List.length_nil, ne_eq, not_true_eq_false, if_false, if_true,
        Except.ok.injEq, Prod.mk.injEq] at h
      obtain ⟨-, rfl⟩ := h
      rw [hnil] at he'
      simp at he'
    obtain ⟨c, hl, hcodes, hiff⟩ := ParamsAreValid_loop lib ctx ctx' b hE hne h
    obtain ⟨-, hall⟩ := rangeParams_forall₂ lib ctx.Params ctx c ctx'.Params hl
    obtain ⟨e, he, -, c0, c1, hv, hpre⟩ := forall₂_mem_right hall e' he'
    obtain ⟨hstatic, ho | ho⟩ := validateParam_outcome lib c0 c1 e.2 e'.2 hv
    · rw [hstatic.2.2.1] at hdt
      rw [hstatic.2.2.2.2.1] at hreq
      exact absurd hraw (ho.2.2 hdt hreq).2
    · have hmem : e'.2.InvalidErrorCode ∈ ctx'.ErrorCodes := by
        rw [hcodes, hstatic.2.1]
        exact hpre.subset (by rw [ho.1]; simp)
      refine ⟨?_, fun _ => ⟨ho.2.1, hmem⟩⟩
      cases b with
      | false => rfl
      | true =>
        have := hiff.1 rfl
        rw [this] at hmem
        simp at hmem

/-- C4 at a required integer query parameter `page` that the request does not give. -/
theorem C4_witness :
    validateParam sampleLib requiredPageContext requiredPage = Except.ok
      ({ requiredPageContext with ErrorCodes := ["E_PAGE"] },
       { requiredPage with Raw := "", Valid := false, Present := false }) ∧
    ∃ ctx', requiredPageContext.ParamsAreValid sampleLib = Except.ok (false, ctx') ∧
      "E_PAGE" ∈ ctx'.ErrorCodes :=
  ⟨(C4_required_empty_raw_fails sampleLib).1 requiredPageContext requiredPageContext "page"
      requiredPage ⟨NewHttpContext emptyRequest, "E_PAGE", HttpParamQuery, true, Or.inl (by decide)⟩
      rfl rfl,
   _, rfl,
   (((C4_required_empty_raw_fails sampleLib).2.2 requiredPageContext _ false rfl
      ("page", { requiredPage with Raw := "", Valid := false }) (List.mem_singleton.2 rfl)
      (Or.inl rfl) rfl rfl).2 rfl).2⟩

/-- C5 (the code at the failing input). The end-to-end scenario, request `?page=7` without
the header `trace`: the pass returns true, `page` holds 7, and the optional string descriptor
`trace`, whose raw value is empty, ends present with the empty string as its value. -/
theorem C5_optional_empty_string_ends_present :
    pageRequest.HeaderGet "trace" = "" ∧
    ∃ ctx' page trace, pageTraceContext.ParamsAreValid sampleLib = Except.ok (true, ctx') ∧
      ctx'.Params = [("page", page), ("trace", trace)] ∧
      page.Present = true ∧ page.Value = GoValue.int 7 ∧
      trace.Raw = "" ∧ trace.Required = false ∧ trace.Valid = true ∧
      trace.Present = true ∧ trace.Value = GoValue.string "" :=
  ⟨rfl, _, _, _, rfl, rfl, rfl, rfl, rfl, rfl, rfl, rfl, rfl⟩

/-- C6. An integer descriptor, not yet present, whose extracted raw value is `raw`: the
validator returns with `Raw = raw`; the descriptor ends present with value `n` exactly when
`raw` is a base-10 integer literal (optional sign, one or more decimal digits) denoting `n`
within the `int` range, and then no failure is recorded; for any other non-empty `raw` the
descriptor's `InvalidErrorCode` is appended, `Valid` becomes false and `Present` stays
false. -/
theorem C6_integer_coercion (lib : Stdlib) (ctx ctx1 : HttpContext) (p : HttpParam)
    (raw : String) (hdt : p.DataType = HttpIntParam) (hfresh : p.Present = false)
    (hr : retrieveParamValue lib ctx p = Except.ok (raw, ctx1)) :
    ∃ ctx' p', validateParam lib ctx p = Except.ok (ctx', p') ∧ p'.Raw = raw ∧
      (∀ n : Int, (p'.Present = true ∧ p'.Value = GoValue.int n) ↔
        (IsIntLiteral raw n ∧ InIntRange lib.IntSize n)) ∧
      ((∃ n : Int, IsIntLiteral raw n ∧ InIntRange lib.IntSize n) →
        ctx'.ErrorCodes = ctx.ErrorCodes ∧ p'.Valid = p.Valid) ∧
      (raw ≠ "" → (¬ ∃ n : Int, IsIntLiteral raw n ∧ InIntRange lib.IntSize n) →
        ctx'.ErrorCodes = ctx.ErrorCodes ++ [p.InvalidErrorCode] ∧ p'.Valid = false ∧
          p'.Present = false) := by
  have hf := (retrieveParamValue_frame lib ctx ctx1 p raw hr).1
  rw [validateParam_int lib ctx p hdt, validateIntParam_eq lib ctx ctx1 p raw hr]
  have hA := Atoi_eq_some_iff lib.IntSize raw
  by_cases hraw : raw = ""
  · have hno : ∀ n : Int, ¬ (IsIntLiteral raw n ∧ InIntRange lib.IntSize n) := by
      intro n hn
      have := (hA n).2 hn
      rw [hraw, Atoi_empty] at this
      exact absurd this (by simp)
    rw [if_pos hraw]
    by_cases hq : p.Required = true
    · rw [if_pos hq]
      refine ⟨_, _, rfl, rfl, fun n => ?_, fun ⟨n, hn⟩ => absurd hn (hno n),
        fun h => absurd hraw h⟩
      simp [appendInvalidErrorCode, hfresh, hno n]
    · rw [if_neg hq]
      refine ⟨_, _, rfl, rfl, fun n => ?_, fun ⟨n, hn⟩ => absurd hn (hno n),
        fun h => absurd hraw h⟩
      simp [hfresh, hno n]
  · rw [if_neg hraw]
    cases hat : Atoi lib.IntSize raw with
    | none =>
      have hno : ∀ n : Int, ¬ (IsIntLiteral raw n ∧ InIntRange lib.IntSize n) := by
        intro n hn
        have := (hA n).2 hn
        rw [hat] at this
        exact absurd this (by simp)
      refine ⟨_, _, rfl, rfl, fun n => ?_, fun ⟨n, hn⟩ => absurd hn (hno n), fun _ _ => ?_⟩
      · simp [appendInvalidErrorCode, hfresh, hno n]
      · simp [appendInvalidErrorCode, hfresh, hf]
    | some v =>
      have hv := (hA v).1 hat
      refine ⟨_, _, rfl, rfl, fun n => ?_, fun _ => ⟨hf, rfl⟩, fun _ hnot => absurd ⟨v, hv⟩ hnot⟩
      simp only [HttpParam.setPresentValue, GoValue.int.injEq, true_and]
      constructor
      · intro h; rw [← h]; exact hv
      · intro hn
        have := (hA n).2 hn
        rw [hat] at this
        exact Option.some.inj this

/-- C6 at the raw values `42` (present, value 42) and `abc` (failure with the code). -/
theorem C6_witness :
    (∃ ctx' p', validateParam sampleLib (queryContext "page" "42") requiredPage
        = Except.ok (ctx', p') ∧ p'.Present = true ∧ p'.Value = GoValue.int 42) ∧
    (∃ ctx' p', validateParam sampleLib (queryContext "page" "abc") requiredPage
        = Except.ok (ctx', p') ∧ ctx'.ErrorCodes = ["E_PAGE"] ∧ p'.Valid = false ∧
          p'.Present = false) := by
  constructor
  · obtain ⟨ctx', p', hv, -, hiff, -, -⟩ :=
      C6_integer_coercion sampleLib (queryContext "page" "42") (queryContext "page" "42")
        requiredPage "42" rfl rfl rfl
    have hlit : IsIntLiteral "42" 42 :=
      ⟨[], ['4', '2'], rfl, Or.inl rfl, by decide, by decide, by decide⟩
    have hrange : InIntRange sampleLib.IntSize 42 := by
      unfold InIntRange sampleLib
      decide
    exact ⟨ctx', p', hv, (hiff 42).2 ⟨hlit, hrange⟩⟩
  · obtain ⟨ctx', p', hv, -, -, -, hfail⟩ :=
      C6_integer_coercion sampleLib (queryContext "page" "abc") (queryContext "page" "abc")
        requiredPage "abc" rfl rfl rfl
    have hno : ¬ ∃ n : Int, IsIntLiteral "abc" n ∧ InIntRange sampleLib.IntSize n := by
      rintro ⟨n, hn⟩
      have h := (Atoi_eq_some_iff sampleLib.IntSize "abc" n).2 hn
      have h0 : Atoi sampleLib.IntSize "abc" = none := by decide
      rw [h0] at h
      exact absurd h (by simp)
    exact ⟨ctx', p', hv, hfail (by decide) hno⟩

/-- C7 (amended). A boolean descriptor with a non-empty raw value: each of 1, t, T, TRUE, true,
True gives a present value true; each of 0, f, F, FALSE, false, False gives a present value
false, and in both cases no failure is recorded; every string outside these twelve appends
the descriptor's `InvalidErrorCode`, sets `Valid = false` and leaves `Present` as it was. -/
theorem C7_boolean_coercion (lib : Stdlib) (ctx ctx1 : HttpContext) (p : HttpParam)
    (raw : String) (hdt : p.DataType = HttpBoolParam) (hraw : raw ≠ "")
    (hr : retrieveParamValue lib ctx p = Except.ok (raw, ctx1)) :
    ∃ ctx' p', validateParam lib ctx p = Except.ok (ctx', p') ∧
      (raw ∈ ["1", "t", "T", "TRUE", "true", "True"] →
        p'.Present = true ∧ p'.Value = GoValue.bool true ∧
          ctx'.ErrorCodes = ctx.ErrorCodes ∧ p'.Valid = p.Valid) ∧
      (raw ∈ ["0", "f", "F", "FALSE", "false", "False"] →
        p'.Present = true ∧ p'.Value = GoValue.bool false ∧
          ctx'.ErrorCodes = ctx.ErrorCodes ∧ p'.Valid = p.Valid) ∧
      (raw ∉ ["1", "t", "T", "TRUE", "true", "True", "0", "f", "F", "FALSE", "false", "False"] →
        ctx'.ErrorCodes = ctx.ErrorCodes ++ [p.InvalidErrorCode] ∧ p'.Valid = false ∧
          p'.Present = p.Present) := by
  have hf := (retrieveParamValue_frame lib ctx ctx1 p raw hr).1
  rw [validateParam_bool lib ctx p hdt, validateBoolParam_eq lib ctx ctx1 p raw hr, if_neg hraw]
  by_cases ht : raw ∈ ["1", "t", "T", "true", "TRUE", "True"]
  · have hpb : ParseBool raw = some true := by simp only [ParseBool, if_pos ht]
    rw [hpb]
    refine ⟨_, _, rfl, fun _ => ⟨rfl, rfl, hf, rfl⟩, fun h => ?_, fun h => ?_⟩
    · exfalso
      simp only [List.mem_cons, List.mem_singleton, List.not_mem_nil, or_false] at ht h
      rcases ht with rfl | rfl | rfl | rfl | rfl | rfl <;> simp at h
    · exfalso
      simp only [List.mem_cons, List.mem_singleton, List.not_mem_nil, or_false] at ht h
      rcases ht with rfl | rfl | rfl | rfl | rfl | rfl <;> simp at h
  · by_cases hfa : raw ∈ ["0", "f", "F", "false", "FALSE", "False"]
    · have hpb : ParseBool raw = some false := by simp only [ParseBool, if_neg ht, if_pos hfa]
      rw [hpb]
      refine ⟨_, _, rfl, fun h => ?_, fun _ => ⟨rfl, rfl, hf, rfl⟩, fun h => ?_⟩
      · exfalso
        simp only [List.mem_cons, List.mem_singleton, List.not_mem_nil, or_false] at hfa h
        rcases hfa with rfl | rfl | rfl | rfl | rfl | rfl <;> simp at h
      · exfalso
        simp only [List.mem_cons, List.mem_singleton, List.not_mem_nil, or_false] at hfa h
        rcases hfa with rfl | rfl | rfl | rfl | rfl | rfl <;> simp at h
    · have hpb : ParseBool raw = none := by simp only [ParseBool, if_neg ht, if_neg hfa]
      rw [hpb]
      refine ⟨_, _, rfl, fun h => ?_, fun h => ?_, fun _ => ?_⟩
      · exfalso
        simp only [List.mem_cons, List.mem_singleton, List.not_mem_nil, or_false] at ht h
        exact ht (by tauto)
      · exfalso
        simp only [List.mem_cons, List.mem_singleton, List.not_mem_nil, or_false] at hfa h
        exact hfa (by tauto)
      · simp [appendInvalidErrorCode, hf]

/-- C7 (counterexample). The token `False` is not among the eleven listed ones and is not
empty, yet a boolean descriptor whose raw value is `False` does not fail: it ends present
with value false, still valid, and no error code is appended. -/
theorem C7_counterexample_False_is_accepted :
    "False" ∉ ["1", "t", "T", "TRUE", "true", "True", "0", "f", "F", "FALSE", "false"] ∧
    "False" ≠ "" ∧ flagParam.DataType = HttpBoolParam ∧
    retrieveParamValue sampleLib (queryContext "flag" "False") flagParam
      = Except.ok ("False", queryContext "flag" "False") ∧
    validateParam sampleLib (queryContext "flag" "False") flagParam = Except.ok
      (queryContext "flag" "False",
       { flagParam with Raw := "False", Present := true, Value := GoValue.bool false }) ∧
    (queryContext "flag" "False").ErrorCodes = [] :=
  ⟨by decide, by decide, rfl, rfl, rfl, rfl⟩

/-- C7 at the raw values `TRUE` (present, value true) and `yes` (failure with the code). -/
theorem C7_witness :
    (∃ ctx' p', validateParam sampleLib (queryContext "flag" "TRUE") flagParam
        = Except.ok (ctx', p') ∧ p'.Present = true ∧ p'.Value = GoValue.bool true) ∧
    (∃ ctx' p', validateParam sampleLib (queryContext "flag" "yes") flagParam
        = Except.ok (ctx', p') ∧ ctx'.ErrorCodes = ["E_FLAG"] ∧ p'.Valid = false ∧
          p'.Present = false) := by
  constructor
  · obtain ⟨ctx', p', hv, ht, -, -⟩ :=
      C7_boolean_coercion sampleLib (queryContext "flag" "TRUE") (queryContext "flag" "TRUE")
        flagParam "TRUE" rfl (by decide) rfl
    exact ⟨ctx', p', hv, (ht (by decide)).1, (ht (by decide)).2.1⟩
  · obtain ⟨ctx', p', hv, -, -, hfail⟩ :=
      C7_boolean_coercion sampleLib (queryContext "flag" "yes") (queryContext "flag" "yes")
        flagParam "yes" rfl (by decide) rfl
    exact ⟨ctx', p', hv, hfail (by decide)⟩

/-- C8. A required string descriptor with bounds `MinLength`, `MaxLength` and extracted raw
value `raw`: `validateStringParam` accepts `raw` (present, value `raw`, no error code) if and
only if `raw` is within the bounds (`WithinBounds`); when it accepts, `Valid` is unchanged, and
otherwise it appends exactly the descriptor's `InvalidErrorCode`, sets `Valid = false` and
leaves `Present` as it was. -/
theorem C8_required_string_bounds (lib : Stdlib) (ctx ctx1 : HttpContext) (p : HttpParam)
    (raw : String) (hreq : p.Required = true)
    (hr : retrieveParamValue lib ctx p = Except.ok (raw, ctx1)) :
    ∃ ctx' p', validateStringParam lib ctx p = Except.ok (ctx', p') ∧ p'.Raw = raw ∧
      ((p'.Present = true ∧ p'.Value = GoValue.string raw ∧ ctx'.ErrorCodes = ctx.ErrorCodes) ↔
        WithinBounds p.MinLength p.MaxLength raw) ∧
      (WithinBounds p.MinLength p.MaxLength raw → p'.Valid = p.Valid) ∧
      (¬ WithinBounds p.MinLength p.MaxLength raw →
        ctx'.ErrorCodes = ctx.ErrorCodes ++ [p.InvalidErrorCode] ∧ p'.Valid = false ∧
          p'.Present = p.Present) := by
  have hf := (retrieveParamValue_frame lib ctx ctx1 p raw hr).1
  rw [validateStringParam_eq lib ctx ctx1 p raw hr]
  have hiff : (p.Required = true ∧ (raw = "" ∨ (p.MinLength > 0 ∧ (len raw : Int) < p.MinLength) ∨
      (p.MaxLength > 0 ∧ (len raw : Int) > p.MaxLength))) ↔
      ¬ WithinBounds p.MinLength p.MaxLength raw := by
    unfold WithinBounds
    constructor
    · rintro ⟨-, h | h | h⟩ ⟨h1, h2, h3⟩
      · exact h1 h
      · omega
      · omega
    · intro h
      refine ⟨hreq, ?_⟩
      by_cases h1 : raw = ""
      · exact Or.inl h1
      · by_cases h2 : p.MinLength > 0 ∧ (len raw : Int) < p.MinLength
        · exact Or.inr (Or.inl h2)
        · by_cases h3 : p.MaxLength > 0 ∧ (len raw : Int) > p.MaxLength
          · exact Or.inr (Or.inr h3)
          · exfalso
            apply h
            refine ⟨h1, ?_, ?_⟩ <;> omega
  by_cases hw : WithinBounds p.MinLength p.MaxLength raw
  · rw [if_neg (fun h => hiff.1 h hw)]
    exact ⟨_, _, rfl, rfl, ⟨fun _ => hw, fun _ => ⟨rfl, rfl, hf⟩⟩, fun _ => rfl,
      fun h => absurd hw h⟩
  · rw [if_pos (hiff.2 hw)]
    refine ⟨_, _, rfl, rfl, ⟨fun h => ?_, fun h => absurd h hw⟩, fun h => absurd h hw,
      fun _ => ⟨by simp [appendInvalidErrorCode, hf], rfl, rfl⟩⟩
    exfalso
    have := h.2.2
    simp [appendInvalidErrorCode, hf] at this

/-- C8 at the bounds 3 and 5: `ab` is rejected with the code, `abcde` is accepted. -/
theorem C8_witness :
    (∃ ctx' p', validateStringParam sampleLib (queryContext "name" "ab") boundedParam
        = Except.ok (ctx', p') ∧ ctx'.ErrorCodes = ["E_NAME"] ∧ p'.Valid = false ∧
          p'.Present = false) ∧
    (∃ ctx' p', validateStringParam sampleLib (queryContext "name" "abcde") boundedParam
        = Except.ok (ctx', p') ∧ p'.Present = true ∧ p'.Value = GoValue.string "abcde" ∧
          ctx'.ErrorCodes = []) := by
  constructor
  · obtain ⟨ctx', p', hv, -, -, -, hfail⟩ :=
      C8_required_string_bounds sampleLib (queryContext "name" "ab") (queryContext "name" "ab")
        boundedParam "ab" rfl rfl
    have hno : ¬ WithinBounds boundedParam.MinLength boundedParam.MaxLength "ab" := by
      unfold WithinBounds
      decide
    exact ⟨ctx', p', hv, hfail hno⟩
  · obtain ⟨ctx', p', hv, -, hiff, -, -⟩ :=
      C8_required_string_bounds sampleLib (queryContext "name" "abcde")
        (queryContext "name" "abcde") boundedParam "abcde" rfl rfl
    have hin : WithinBounds boundedParam.MinLength boundedParam.MaxLength "abcde" := by
      unfold WithinBounds
      decide
    exact ⟨ctx', p', hv, hiff.2 hin⟩

/-- C9 (the code at the failing input). A required string descriptor registered through
`DefineStringParam` with `minLength = 3` and `maxLength = 5`: the registered descriptor has
`MinLength = MaxLength = 0`, and the raw values `ab` and `abcdef` are accepted (no error code,
the pass returns true) like `abc` and `abcde`. -/
theorem C9_registered_bounds_not_enforced :
    (boundedNameContext "ab").Params.lookup "name" =
      some { Name := "name", InvalidErrorCode := "E_NAME", DataType := HttpStringParam,
             ParamType := HttpParamQuery, Required := true, MinLength := 0, MaxLength := 0,
             Valid := true } ∧
    ∀ raw ∈ ["ab", "abcdef", "abc", "abcde"],
      ∃ ctx' p', (boundedNameContext raw).ParamsAreValid sampleLib = Except.ok (true, ctx') ∧
        ctx'.Params = [("name", p')] ∧ ctx'.ErrorCodes = [] ∧
        p'.Valid = true ∧ p'.Present = true ∧ p'.Value = GoValue.string raw := by
  refine ⟨by decide, ?_⟩
  intro raw hraw
  simp only [List.mem_cons, List.mem_singleton, List.not_mem_nil, or_false] at hraw
  rcases hraw with rfl | rfl | rfl | rfl <;> exact ⟨_, _, rfl, rfl, rfl, rfl, rfl, rfl⟩

/-- C10. An optional string descriptor, whatever its bounds and whatever the extracted raw
value: `validateStringParam` returns the descriptor with `Raw = raw`, `Present = true` and
`Value = raw` and nothing else changed (so `Valid` is unchanged), and appends no error
code. -/
theorem C10_optional_string_never_fails (lib : Stdlib) (ctx ctx1 : HttpContext) (p : HttpParam)
    (raw : String) (hopt : p.Required = false)
    (hr : retrieveParamValue lib ctx p = Except.ok (raw, ctx1)) :
    validateStringParam lib ctx p = Except.ok
      (ctx1, { p with Raw := raw, Present := true, Value := GoValue.string raw }) ∧
    ctx1.ErrorCodes = ctx.ErrorCodes ∧
    ({ p with Raw := raw, Present := true, Value := GoValue.string raw } : HttpParam).Valid
      = p.Valid := by
  have hf := (retrieveParamValue_frame lib ctx ctx1 p raw hr).1
  rw [validateStringParam_eq lib ctx ctx1 p raw hr]
  have hno : ¬ (p.Required = true ∧ (raw = "" ∨ (p.MinLength > 0 ∧ (len raw : Int) < p.MinLength) ∨
      (p.MaxLength > 0 ∧ (len raw : Int) > p.MaxLength))) := by
    rintro ⟨h, -⟩
    rw [hopt] at h
    exact absurd h (by simp)
  rw [if_neg hno]
  exact ⟨rfl, hf, rfl⟩

/-- C10 at an optional descriptor with bounds 3 and 5: the empty raw value and a raw value
of eight bytes are both stored as present values. -/
theorem C10_witness :
    validateStringParam sampleLib (queryContext "name" "") optionalBoundedParam = Except.ok
      (queryContext "name" "",
       { optionalBoundedParam with Raw := "", Present := true, Value := GoValue.string "" }) ∧
    validateStringParam sampleLib (queryContext "name" "abcdefgh") optionalBoundedParam = Except.ok
      (queryContext "name" "abcdefgh",
       { optionalBoundedParam with
         Raw := "abcdefgh", Present := true, Value := GoValue.string "abcdefgh" }) :=
  ⟨(C10_optional_string_never_fails sampleLib (queryContext "name" "") (queryContext "name" "")
      optionalBoundedParam "" rfl rfl).1,
   (C10_optional_string_never_fails sampleLib (queryContext "name" "abcdefgh")
      (queryContext "name" "abcdefgh") optionalBoundedParam "abcdefgh" rfl rfl).1⟩

/-- C11 (the code at the failing input). A descriptor sourced from the JSON body, on a body
that decodes to a top-level value that is not an object (the array `[1]`, or `null`): the
extraction does not terminate normally, it panics at the type assertion
`genJson.(map[string]interface)`, and so does the pass `ParamsAreValid`.  On the body
`not json`, which does not parse, the extraction returns the empty raw string and records an
infrastructure error, as the sibling branch of the code does. -/
theorem C11_non_object_body_panics :
    tableLib.Unmarshal "[1]" = Except.ok (Json.arr [Json.number { bits := 0x3FF0000000000000 }]) ∧
    tableLib.Unmarshal "null" = Except.ok Json.null ∧
    retrieveJsonParamValue tableLib (NewHttpContext (jsonRequest "[1]")) agePost
      = Except.error "interface conversion: genJson is not a map[string]interface" ∧
    retrieveJsonParamValue tableLib (NewHttpContext (jsonRequest "null")) agePost
      = Except.error "interface conversion: genJson is not a map[string]interface" ∧
    (ageNameContext "[1]").ParamsAreValid tableLib
      = Except.error "interface conversion: genJson is not a map[string]interface" ∧
    (∃ ctx1, retrieveJsonParamValue tableLib (NewHttpContext (jsonRequest "not json")) agePost
      = Except.ok ("", ctx1) ∧
      ctx1.Errors =
        [NewStackError "Error in raw json data extraction - error: %v" "invalid character"]) :=
  ⟨rfl, rfl, rfl, rfl, rfl, _, rfl, rfl⟩

/-- C12 (the code at the failing input). The body `{"age": 1000000}` with the required
integer descriptor `age` sourced from the JSON body: 1000000 is within the `int` range, `%g`
renders the number as `1e+06`, which is not a base-10 integer literal, so the descriptor ends
invalid and absent, the code `E_AGE` is appended and the pass returns false.  The same
descriptor sourced from the query string with the value `1000000` ends present with the
integer 1000000, and on the body `{"age": 30, "name": "Ann"}` the JSON descriptor ends
present with the integer 30. -/
theorem C12_million_is_rejected :
    InIntRange tableLib.IntSize 1000000 ∧
    tableLib.Unmarshal millionBody = Except.ok (Json.obj [("age", Json.number million)]) ∧
    tableLib.FormatG million = "1e+06" ∧
    Atoi tableLib.IntSize "1e+06" = none ∧
    (∃ ctx', (ageNameContext millionBody).ParamsAreValid tableLib = Except.ok (false, ctx') ∧
      ctx'.ErrorCodes = ["E_AGE"] ∧ ctx'.Errors = [] ∧
      (ctx'.Params.lookup "age").map (fun p => (p.Raw, p.Present, p.Valid, p.Value))
        = some ("1e+06", false, false, GoValue.nil)) ∧
    (∃ ctx',
      HttpContext.ParamsAreValid tableLib
        ((NewHttpContext (queryRequest (fun _ => "1000000"))).DefineIntParam "age" "E_AGE"
          HttpParamQuery true) = Except.ok (true, ctx') ∧
      (ctx'.Params.lookup "age").map (fun p => (p.Raw, p.Present, p.Valid, p.Value))
        = some ("1000000", true, true, GoValue.int 1000000)) ∧
    (∃ ctx', (ageNameContext annBody).ParamsAreValid tableLib = Except.ok (true, ctx') ∧
      (ctx'.Params.lookup "age").map (fun p => (p.Raw, p.Present, p.Valid, p.Value))
        = some ("30", true, true, GoValue.int 30)) :=
  ⟨⟨by decide, by decide⟩, rfl, by decide, by decide, ⟨_, rfl, rfl, rfl, rfl⟩, ⟨_, rfl, rfl⟩,
    ⟨_, rfl, rfl⟩⟩

/-- C13. On a context whose body is (or decodes to) a JSON object `m`, the raw string of a
json-post-body descriptor named after a field is `true` or `false` for a boolean field, the
string itself for a string field, the `%g` text for a number field, and the empty string for
an array, an object, `null` or a missing field; no infrastructure error is recorded. -/
theorem C13_json_field_text (lib : Stdlib) (ctx : HttpContext) (p : HttpParam)
    (m : List (String × Json)) (hsrc : p.ParamType = HttpParamJsonPost)
    (hbody : JsonObjectBody lib ctx m) :
    ∃ raw ctx1, retrieveParamValue lib ctx p = Except.ok (raw, ctx1) ∧ ctx1.Errors = [] ∧
      (m.lookup p.Name = some (Json.bool true) → raw = "true") ∧
      (m.lookup p.Name = some (Json.bool false) → raw = "false") ∧
      (∀ s, m.lookup p.Name = some (Json.str s) → raw = s) ∧
      (∀ f, m.lookup p.Name = some (Json.number f) → raw = lib.FormatG f) ∧
      (∀ xs, m.lookup p.Name = some (Json.arr xs) → raw = "") ∧
      (∀ fields, m.lookup p.Name = some (Json.obj fields) → raw = "") ∧
      (m.lookup p.Name = some Json.null → raw = "") ∧
      (m.lookup p.Name = none → raw = "") := by
  obtain ⟨ctx1, hr, hE, -⟩ := retrieveJsonParamValue_of_object lib ctx p m hbody
  have hret : retrieveParamValue lib ctx p = retrieveJsonParamValue lib ctx p := by
    simp [retrieveParamValue, hsrc, HttpParamPost, HttpParamJsonPost]
  refine ⟨_, ctx1, by rw [hret, hr], hE, ?_, ?_, ?_, ?_, ?_, ?_, ?_, ?_⟩
  · intro h; simp [jsonFieldText, h]
  · intro h; simp [jsonFieldText, h]
  · intro s h; simp [jsonFieldText, h]
  · intro f h; simp [jsonFieldText, h]
  · intro xs h; simp [jsonFieldText, h, nadaStr]
  · intro fields h; simp [jsonFieldText, h, nadaStr]
  · intro h; simp [jsonFieldText, h, nadaStr]
  · intro h; simp [jsonFieldText, h, nadaStr]

/-- C13 at the body `{"ok": true, "tags": [], "none": null, "name": "Ann"}`. -/
theorem C13_witness :
    (∃ ctx1, retrieveParamValue tableLib (NewHttpContext (jsonRequest mixedBody))
        { agePost with Name := "ok" } = Except.ok ("true", ctx1) ∧ ctx1.Errors = []) ∧
    (∃ ctx1, retrieveParamValue tableLib (NewHttpContext (jsonRequest mixedBody))
        { agePost with Name := "name" } = Except.ok ("Ann", ctx1) ∧ ctx1.Errors = []) ∧
    (∃ ctx1, retrieveParamValue tableLib (NewHttpContext (jsonRequest mixedBody))
        { agePost with Name := "tags" } = Except.ok ("", ctx1) ∧ ctx1.Errors = []) ∧
    (∃ ctx1, retrieveParamValue tableLib (NewHttpContext (jsonRequest mixedBody))
        { agePost with Name := "missing" } = Except.ok ("", ctx1) ∧ ctx1.Errors = []) := by
  have hbody : JsonObjectBody tableLib (NewHttpContext (jsonRequest mixedBody))
      [("ok", Json.bool true), ("tags", Json.arr []), ("none", Json.null),
        ("name", Json.str "Ann")] :=
    ⟨rfl, Or.inr rfl, Or.inr ⟨rfl, rfl⟩⟩
  refine ⟨?_, ?_, ?_, ?_⟩
  · obtain ⟨raw, ctx1, hr, hE, h1, -⟩ := C13_json_field_text tableLib _ { agePost with Name := "ok" } _ rfl hbody
    exact ⟨ctx1, by rw [hr, h1 rfl], hE⟩
  · obtain ⟨raw, ctx1, hr, hE, -, -, h3, -⟩ := C13_json_field_text tableLib _ { agePost with Name := "name" } _ rfl hbody
    exact ⟨ctx1, by rw [hr, h3 "Ann" rfl], hE⟩
  · obtain ⟨raw, ctx1, hr, hE, -, -, -, -, h5, -⟩ := C13_json_field_text tableLib _ { agePost with Name := "tags" } _ rfl hbody
    exact ⟨ctx1, by rw [hr, h5 [] rfl], hE⟩
  · obtain ⟨raw, ctx1, hr, hE, -, -, -, -, -, -, -, h8⟩ := C13_json_field_text tableLib _ { agePost with Name := "missing" } _ rfl hbody
    exact ⟨ctx1, by rw [hr, h8 rfl], hE⟩

/-- C14 (the code at the failing input). The required integer descriptor `age` sourced from
the JSON body `{"age": " 42 "}`: the raw value stored is the untrimmed string ` 42 `, the
integer parse fails, the code `E_AGE` is appended and the pass returns false.  The same
descriptor sourced from the query string, the post form, a header or a path variable holding
` 42 ` gets the trimmed raw value `42`, and the query one ends present with the integer 42. -/
theorem C14_json_string_is_not_trimmed :
    tableLib.Unmarshal paddedBody = Except.ok (Json.obj [("age", Json.str " 42 ")]) ∧
    (∃ ctx', (ageNameContext paddedBody).ParamsAreValid tableLib = Except.ok (false, ctx') ∧
      ctx'.ErrorCodes = ["E_AGE"] ∧ ctx'.Errors = [] ∧
      (ctx'.Params.lookup "age").map (fun p => (p.Raw, p.Present, p.Valid, p.Value))
        = some (" 42 ", false, false, GoValue.nil)) ∧
    (∀ t ∈ [HttpParamQuery, HttpParamPost, HttpParamHeader, HttpParamPath],
      rawOf tableLib
        (NewHttpContext
          { PostFormValue := fun _ => " 42 ", FormValue := fun _ => " 42 ",
            HeaderGet := fun _ => " 42 ", Vars := fun _ => " 42 ", Body := { pending := [] } })
        { agePost with ParamType := t } = Except.ok "42") ∧
    (∃ ctx',
      HttpContext.ParamsAreValid tableLib
        ((NewHttpContext (queryRequest (fun _ => " 42 "))).DefineIntParam "age" "E_AGE"
          HttpParamQuery true) = Except.ok (true, ctx') ∧
      (ctx'.Params.lookup "age").map (fun p => (p.Raw, p.Present, p.Valid, p.Value))
        = some ("42", true, true, GoValue.int 42)) :=
  ⟨rfl, ⟨_, rfl, rfl, rfl, rfl⟩,
    fun t ht => by
      simp only [List.mem_cons, List.mem_singleton, List.not_mem_nil, or_false] at ht
      rcases ht with rfl | rfl | rfl | rfl <;> rfl,
    ⟨_, rfl, rfl⟩⟩

/-- C15 (counterexample). A required integer query parameter `page` and an optional integer
parameter `age` sourced from the JSON body, on the request `?page=7` whose body read fails:
the pass records the read error, and still validates `page`, which ends with raw value `7`,
present and holding the integer 7 (and the pass returns true). -/
theorem C15_counterexample_query_descriptor_is_validated :
    pageAgeContext.Errors = [] ∧
    (ReadAll pageAgeContext.Request.Body).2.1 = some "unexpected EOF" ∧
    ∃ ctx', pageAgeContext.ParamsAreValid sampleLib = Except.ok (true, ctx') ∧
      ctx'.Errors = [NewStackError "Error in raw data extraction - error: %v" "unexpected EOF"] ∧
      (ctx'.Params.lookup "page").map (fun p => (p.Raw, p.Present, p.Valid, p.Value))
        = some ("7", true, true, GoValue.int 7) ∧
      (pageAgeContext.Params.lookup "page").map (fun p => (p.Raw, p.Present, p.Valid, p.Value))
        = some ("", false, true, GoValue.nil) :=
  ⟨rfl, rfl, _, rfl, rfl, rfl, rfl⟩

/-- C15 (amended). A context with no infrastructure error and no body read so far, on a
request whose form lookups do not read the body, in which the body read fails with `err`, and
at least one registered descriptor of the four data types is sourced from the JSON body: the
pass returns; afterwards `Errors` holds exactly the read error; every descriptor sourced from
the JSON body is validated on the empty raw value; and every descriptor ends as its validator
leaves it, with the codes its validator appends, when run on the context at entry (so a
descriptor of another source is validated as usual). -/
theorem C15_body_read_failure (lib : Stdlib) (ctx : HttpContext) (err : String)
    (hErrors : ctx.Errors = []) (hbody : len ctx.body = 0)
    (hform : ctx.Request.UnparsedForm = none)
    (hread : (ReadAll ctx.Request.Body).2.1 = some err)
    (hjson : ∃ e ∈ ctx.Params, Touches e.2) :
    (∀ q : HttpParam, q.ParamType = HttpParamJsonPost → rawOf lib ctx q = Except.ok "") ∧
    ∃ b ctx', ctx.ParamsAreValid lib = Except.ok (b, ctx') ∧
      ctx'.Errors = [NewStackError "Error in raw data extraction - error: %v" err] ∧
      ctx'.Params = ctx.Params.map (fun e => (e.1, outcomeAt lib ctx e.2)) ∧
      ctx'.ErrorCodes = ctx.ErrorCodes ++ ctx.Params.flatMap (fun e => codesAt lib ctx e.2) := by
  have hS := settlesTo_of_read_error lib ctx err hErrors hbody hread
  have hne : ctx.Params ≠ [] := by
    obtain ⟨e, he, -⟩ := hjson
    exact List.ne_nil_of_mem he
  constructor
  · intro q hq
    unfold rawOf
    rw [retrieveParamValue_json lib ctx q hq, hS.1 q]
  · obtain ⟨ctx', h, hp, hc, ht, -⟩ :=
      ParamsAreValid_settled lib ctx _ _ ctx hform (SameCache.refl ctx) hErrors hne
        (fun _ _ _ => hS)
    exact ⟨_, ctx', h, (ht hjson).2.1, hp, hc⟩

/-- C15 (amended) at `pageAgeContext`: the read error is recorded, `page` ends present with
the integer 7 and `age` ends absent with an empty raw value. -/
theorem C15_witness :
    ∃ b ctx', pageAgeContext.ParamsAreValid sampleLib = Except.ok (b, ctx') ∧
      ctx'.Errors = [NewStackError "Error in raw data extraction - error: %v" "unexpected EOF"] ∧
      ctx'.Params =
        pageAgeContext.Params.map (fun e => (e.1, outcomeAt sampleLib pageAgeContext e.2)) ∧
      ctx'.ErrorCodes = pageAgeContext.ErrorCodes ++
        pageAgeContext.Params.flatMap (fun e => codesAt sampleLib pageAgeContext e.2) :=
  (C15_body_read_failure sampleLib pageAgeContext "unexpected EOF" rfl rfl rfl rfl
    ⟨pageAgeContext.Params.getLast (by decide), List.getLast_mem _, ⟨Or.inl rfl, rfl⟩⟩).2

/-- C16. Each of the four `Define*Param` registrations stores under `name` a fresh descriptor
that carries the given name, error code, source location and required flag and the data type
of the operation, with `Valid = true`, `Present = false`, empty `Raw` and no value; the
descriptors under other names, `ErrorCodes`, `Errors` and the body cache are unchanged, and a
prior descriptor under `name` is gone (`RegistersFresh`). -/
theorem C16_define_registers_fresh (name code : String) (paramType : HttpParamType)
    (required : Bool) (minLength maxLength : Int) :
    RegistersFresh (fun self => self.DefineIntParam name code paramType required) name
      { Name := name, InvalidErrorCode := code, DataType := HttpIntParam, ParamType := paramType,
        Required := required, Valid := true, Present := false, Raw := "",
        Value := GoValue.nil } ∧
    RegistersFresh (fun self => self.DefineBoolParam name code paramType required) name
      { Name := name, InvalidErrorCode := code, DataType := HttpBoolParam, ParamType := paramType,
        Required := required, Valid := true, Present := false, Raw := "",
        Value := GoValue.nil } ∧
    RegistersFresh (fun self => self.DefineFloatParam name code paramType required) name
      { Name := name, InvalidErrorCode := code, DataType := HttpFloatParam,
        ParamType := paramType, Required := required, Valid := true, Present := false,
        Raw := "", Value := GoValue.nil } ∧
    RegistersFresh
      (fun self => self.DefineStringParam name code paramType required minLength maxLength) name
      { Name := name, InvalidErrorCode := code, DataType := HttpStringParam,
        ParamType := paramType, Required := required, Valid := true, Present := false,
        Raw := "", Value := GoValue.nil } :=
  ⟨registersFresh_mapAssign name _, registersFresh_mapAssign name _,
    registersFresh_mapAssign name _, registersFresh_mapAssign name _⟩

/-- C17. Take a context whose body cache is untouched (nothing logged, no body, no decoded
object, as `NewHttpContext` leaves it and `Define*Param` keep it) and a decoder that rejects
the empty input.  Any number of consecutive `ParamsAreValid` calls returns whenever the JSON
body cannot trip the type assertion; and when they return, the body has been read at most
once and decoded at most once in total, whatever the number of descriptors.  Moreover, once
an infrastructure error is recorded, a JSON extraction yields the empty raw string and leaves
the context (reader and log included) as it is. -/
theorem C17_body_read_and_decoded_at_most_once (lib : Stdlib) (ctx : HttpContext) (k : Nat)
    (hlib : lib.RejectsEmpty)
    (hlog : ctx.log = []) (hbody : ctx.body = "") (hjson : ctx.postJson = none) :
    (JsonBodyOk lib ctx → ∃ ctx', runPasses lib k ctx = Except.ok ctx') ∧
    (∀ ctx', runPasses lib k ctx = Except.ok ctx' →
      ctx'.log.count Effect.bodyRead ≤ 1 ∧ ctx'.log.count Effect.jsonDecode ≤ 1) ∧
    (∀ (c : HttpContext) (p : HttpParam), c.Errors ≠ [] →
      retrieveJsonParamValue lib c p = Except.ok ("", c)) := by
  refine ⟨runPasses_ok lib k ctx, fun ctx' hrun => ?_, fun c p hE => ?_⟩
  · have hinv : JsonStateInv ctx := by
      refine ⟨by simp [hlog], Or.inr (Or.inl ⟨hbody, hjson, by simp [hlog], by simp [hlog]⟩)⟩
    exact (runPasses_inv lib hlib k ctx ctx' hinv hrun).1
  · unfold retrieveJsonParamValue
    have h0 : c.Errors.length > 0 := by
      cases hc : c.Errors with
      | nil => exact absurd hc hE
      | cons a l => simp
    rw [if_pos h0]
    rfl

/-- C17 at two JSON-sourced descriptors and two consecutive passes on the body
`{"age": 30, "name": "Ann"}`: one read and one decode are logged. -/
theorem C17_witness :
    ∃ ctx', runPasses tableLib 2 (ageNameContext annBody) = Except.ok ctx' ∧
      ctx'.log = [Effect.bodyRead, Effect.jsonDecode] ∧
      ctx'.log.count Effect.bodyRead ≤ 1 ∧ ctx'.log.count Effect.jsonDecode ≤ 1 :=
  ⟨_, rfl, rfl,
    ((C17_body_read_and_decoded_at_most_once tableLib (ageNameContext annBody) 2
      ⟨_, rfl⟩ rfl rfl rfl).2.1 _ rfl)⟩

/-- C18. For a context with empty `Errors` and `ErrorCodes` whose descriptors are all as
`Define*Param` registered them: the pass returns whenever the JSON body cannot trip the type
assertion; when it returns, every descriptor has been processed (each entry keeps its key
and is what its validator returned), and `ErrorCodes` is the list of the `InvalidErrorCode`
values of exactly the descriptors that end with `Valid = false`, in processing order: hence a
permutation of them, of the same length. -/
theorem C18_one_code_per_invalid_descriptor (lib : Stdlib) (ctx : HttpContext)
    (hErrors : ctx.Errors = []) (hCodes : ctx.ErrorCodes = [])
    (hreg : ∀ e ∈ ctx.Params, Registered e.1 e.2) :
    (JsonBodyOk lib ctx → ∃ b ctx', ctx.ParamsAreValid lib = Except.ok (b, ctx')) ∧
    ∀ b ctx', ctx.ParamsAreValid lib = Except.ok (b, ctx') →
      List.Forall₂ (fun e e' => e'.1 = e.1 ∧
        ∃ d d', validateParam lib d e.2 = Except.ok (d', e'.2)) ctx.Params ctx'.Params ∧
      ctx'.ErrorCodes =
        (ctx'.Params.filter (fun e => e.2.Valid = false)).map (fun e => e.2.InvalidErrorCode) ∧
      List.Perm ctx'.ErrorCodes
        ((ctx'.Params.filter (fun e => e.2.Valid = false)).map (fun e => e.2.InvalidErrorCode)) ∧
      ctx'.ErrorCodes.length = (ctx'.Params.filter (fun e => e.2.Valid = false)).length := by
  refine ⟨fun hok => ?_, fun b ctx' h => ?_⟩
  · obtain ⟨⟨b, ctx'⟩, hr⟩ := ParamsAreValid_ok lib ctx hok
    exact ⟨b, ctx', hr⟩
  · have key : List.Forall₂ (fun e e' => e'.1 = e.1 ∧
          ∃ d d', validateParam lib d e.2 = Except.ok (d', e'.2)) ctx.Params ctx'.Params ∧
        ctx'.ErrorCodes = (ctx'.Params.filter (fun e => e.2.Valid = false)).map
          (fun e => e.2.InvalidErrorCode) := by
      by_cases hne : ctx.Params = []
      · have h' := h
        unfold HttpContext.ParamsAreValid at h'
        simp only [hErrors, hne, List.length_nil, ne_eq, not_true_eq_false, if_false, if_true,
          Except.ok.injEq, Prod.mk.injEq] at h'
        obtain ⟨-, rfl⟩ := h'
        rw [hne, hCodes]
        exact ⟨List.Forall₂.nil, rfl⟩
      · obtain ⟨c, hl, hcodes, -⟩ := ParamsAreValid_loop lib ctx ctx' b hErrors hne h
        refine ⟨rangeParams_processed lib ctx c _ _ hl, ?_⟩
        rw [hcodes, rangeParams_codes lib ctx.Params ctx c ctx'.Params hl
          (fun e he => (hreg e he).fields.2.2.1), hCodes, List.nil_append]
    refine ⟨key.1, key.2, ?_, ?_⟩
    · rw [← key.2]
    · conv_lhs => rw [key.2]
      rw [List.length_map]

/-- C18 at the body `{"age": " 42 "}` with the required integer descriptor `age` and the
optional string descriptor `name`: one descriptor ends invalid and `ErrorCodes` holds its
code, once. -/
theorem C18_witness :
    ∃ ctx', (ageNameContext paddedBody).ParamsAreValid tableLib = Except.ok (false, ctx') ∧
      ctx'.ErrorCodes = ["E_AGE"] ∧
      ctx'.ErrorCodes =
        (ctx'.Params.filter (fun e => e.2.Valid = false)).map (fun e => e.2.InvalidErrorCode) ∧
      ctx'.ErrorCodes.length = (ctx'.Params.filter (fun e => e.2.Valid = false)).length :=
  have h := (C18_one_code_per_invalid_descriptor tableLib (ageNameContext paddedBody) rfl rfl
    (ageNameContext_registered paddedBody)).2 false _ rfl
  ⟨_, rfl, rfl, h.2.1, h.2.2.2⟩

/-- C19 (counterexample). A urlencoded `POST` with the body `page=7`, a required integer
query parameter `page` and an optional integer parameter `age` sourced from the JSON body.
When `page` is visited first, the form lookup reads the body, `page` ends present with the
integer 7, the JSON extraction finds the body drained and records an infrastructure error,
and the pass returns true.  When `age` is visited first, the JSON extraction reads the body,
the form lookup finds it drained, `page` ends invalid with an empty raw value, `E_PAGE` is
appended and the pass returns false. -/
theorem C19_counterexample_form_post :
    JsonStateInv formPostContext ∧ sampleLib.RejectsEmpty ∧
    formPostContext.Params.map Prod.fst = ["page", "age"] ∧
    List.Perm formPostContext.Params formPostContext.Params.reverse ∧
    (∃ ctx', formPostContext.ParamsAreValid sampleLib = Except.ok (true, ctx') ∧
      ctx'.ErrorCodes = [] ∧
      (ctx'.Params.lookup "page").map (fun p => (p.Raw, p.Present, p.Valid, p.Value))
        = some ("7", true, true, GoValue.int 7)) ∧
    (∃ ctx',
      HttpContext.ParamsAreValid sampleLib
        { formPostContext with Params := formPostContext.Params.reverse }
        = Except.ok (false, ctx') ∧
      ctx'.ErrorCodes = ["E_PAGE"] ∧
      (ctx'.Params.lookup "page").map (fun p => (p.Raw, p.Present, p.Valid, p.Value))
        = some ("", false, false, GoValue.nil)) :=
  ⟨⟨⟨by decide, by decide⟩, Or.inr (Or.inl ⟨rfl, rfl, by decide, by decide⟩)⟩, ⟨_, rfl⟩, rfl,
    (List.reverse_perm _).symm, ⟨_, rfl, rfl, rfl⟩, ⟨_, rfl, rfl, rfl⟩⟩

/-- C19 (amended). Take a context in a regular state of the body cache, on a request whose
form lookups do not read the body, a decoder that rejects the empty input, and a second
iteration order `ps2` of the same descriptors.  If the pass panics in one order it panics in
the other; and if it returns, it returns the same boolean in the other order, the descriptors
end in the same states (the final entry lists are permutations of each other), the
`ErrorCodes` lists are permutations of each other, and the request, the infrastructure
errors, the body cache and the log are the same. -/
theorem C19_order_independent (lib : Stdlib) (ctx : HttpContext)
    (ps2 : List (String × HttpParam)) (hlib : lib.RejectsEmpty) (hinv : JsonStateInv ctx)
    (hform : ctx.Request.UnparsedForm = none) (hperm : List.Perm ctx.Params ps2) :
    (∀ msg, ctx.ParamsAreValid lib = Except.error msg →
      HttpContext.ParamsAreValid lib { ctx with Params := ps2 } = Except.error msg) ∧
    (∀ b ctx', ctx.ParamsAreValid lib = Except.ok (b, ctx') →
      ∃ ctx2', HttpContext.ParamsAreValid lib { ctx with Params := ps2 } = Except.ok (b, ctx2') ∧
        List.Perm ctx'.Params ctx2'.Params ∧ List.Perm ctx'.ErrorCodes ctx2'.ErrorCodes ∧
        SameCache ctx' ctx2') := by
  have hsame2 : SameCache { ctx with Params := ps2 } ctx := ⟨rfl, rfl, rfl, rfl, rfl⟩
  by_cases hE : ctx.Errors = []
  swap
  · rw [ParamsAreValid_of_errors lib ctx hE,
      ParamsAreValid_of_errors lib { ctx with Params := ps2 } hE]
    refine ⟨fun msg h => by simp at h, fun b ctx' h => ?_⟩
    simp only [Except.ok.injEq, Prod.mk.injEq] at h
    obtain ⟨rfl, rfl⟩ := h
    exact ⟨_, rfl, hperm, List.Perm.refl _, hsame2.symm⟩
  by_cases hne : ctx.Params = []
  · have hps2 : ps2 = [] := by
      rw [hne] at hperm
      exact List.Perm.eq_nil hperm.symm
    rw [ParamsAreValid_of_no_params lib ctx hE hne,
      ParamsAreValid_of_no_params lib { ctx with Params := ps2 } hE hps2]
    refine ⟨fun msg h => by simp at h, fun b ctx' h => ?_⟩
    simp only [Except.ok.injEq, Prod.mk.injEq] at h
    obtain ⟨rfl, rfl⟩ := h
    exact ⟨_, rfl, hperm, List.Perm.refl _, hsame2.symm⟩
  have hne2 : ps2 ≠ [] := by
    intro h2
    rw [h2] at hperm
    exact hne (List.Perm.eq_nil hperm)
  have htouch : (∃ e ∈ ctx.Params, Touches e.2) ↔ (∃ e ∈ ps2, Touches e.2) :=
    ⟨fun ⟨e, he, h⟩ => ⟨e, hperm.mem_iff.1 he, h⟩, fun ⟨e, he, h⟩ => ⟨e, hperm.mem_iff.2 he, h⟩⟩
  -- the two passes, once the JSON extraction is known to settle wherever it is run
  have main : ∀ (c1 : HttpContext) (f : String → String),
      (∀ e ∈ ctx.Params, Touches e.2 → SettlesTo lib ctx c1 f) →
      (∀ msg, ctx.ParamsAreValid lib = Except.error msg →
        HttpContext.ParamsAreValid lib { ctx with Params := ps2 } = Except.error msg) ∧
      (∀ b ctx', ctx.ParamsAreValid lib = Except.ok (b, ctx') →
        ∃ ctx2', HttpContext.ParamsAreValid lib { ctx with Params := ps2 }
            = Except.ok (b, ctx2') ∧
          List.Perm ctx'.Params ctx2'.Params ∧ List.Perm ctx'.ErrorCodes ctx2'.ErrorCodes ∧
          SameCache ctx' ctx2') := by
    intro c1 f hT
    have hT2 : ∀ e ∈ ({ ctx with Params := ps2 } : HttpContext).Params, Touches e.2 →
        SettlesTo lib ctx c1 f := fun e he h => hT e (hperm.mem_iff.2 he) h
    obtain ⟨r1, h1, hp1, hc1, ht1, hnt1⟩ :=
      ParamsAreValid_settled lib ctx c1 f ctx hform (SameCache.refl ctx) hE hne hT
    obtain ⟨r2, h2, hp2, hc2, ht2, hnt2⟩ :=
      ParamsAreValid_settled lib ctx c1 f { ctx with Params := ps2 } hform hsame2 hE hne2 hT2
    have hcodes : List.Perm r1.ErrorCodes r2.ErrorCodes := by
      rw [hc1, hc2]
      exact List.Perm.append_left _ (List.Perm.flatMap_right _ hperm)
    have hcache : SameCache r1 r2 := by
      by_cases ht : ∃ e ∈ ctx.Params, Touches e.2
      · exact (ht1 ht).trans (ht2 (htouch.1 ht)).symm
      · have hn1 : ∀ e ∈ ctx.Params, ¬ Touches e.2 := fun e he h => ht ⟨e, he, h⟩
        have hn2 : ∀ e ∈ ps2, ¬ Touches e.2 := fun e he h => ht (htouch.2 ⟨e, he, h⟩)
        exact (hnt1 hn1).trans (hnt2 hn2).symm
    rw [h1, h2]
    refine ⟨fun msg h => by simp at h, fun b ctx' h => ?_⟩
    simp only [Except.ok.injEq, Prod.mk.injEq] at h
    obtain ⟨rfl, rfl⟩ := h
    refine ⟨r2, ?_, ?_, hcodes, hcache⟩
    · rw [hcodes.length_eq]
    · rw [hp1, hp2]
      exact List.Perm.map _ hperm
  rcases jsonExtraction_uniform lib hlib ctx hinv with ⟨msg, hall⟩ | ⟨c1, f, hS⟩
  · by_cases ht : ∃ e ∈ ctx.Params, Touches e.2
    · have e1 : ctx.ParamsAreValid lib = Except.error msg := by
        rw [ParamsAreValid_eq_loop lib ctx hE hne,
          rangeParams_panics lib ctx msg hform hall ctx.Params ctx (SameCache.refl ctx) ht]
      have e2 : HttpContext.ParamsAreValid lib { ctx with Params := ps2 } = Except.error msg := by
        rw [ParamsAreValid_eq_loop lib { ctx with Params := ps2 } hE hne2,
          rangeParams_panics lib ctx msg hform hall ps2 { ctx with Params := ps2 } hsame2
            (htouch.1 ht)]
      rw [e1, e2]
      exact ⟨fun m h => h, fun b ctx' h => by simp at h⟩
    · exact main ctx (fun _ => "") (fun e he h => absurd ⟨e, he, h⟩ ht)
  · exact main c1 f (fun _ _ _ => hS)

/-- C19 (amended) at the request `?page=7` whose body cannot be read, with the required query
parameter `page` and the optional JSON parameter `age`: in both orders the pass returns true
and the final descriptors and error codes agree up to the order. -/
theorem C19_witness :
    JsonStateInv pageAgeContext ∧ pageAgeContext.Request.UnparsedForm = none ∧
    List.Perm pageAgeContext.Params pageAgeContext.Params.reverse ∧
    ∃ ctx' ctx2',
      pageAgeContext.ParamsAreValid sampleLib = Except.ok (true, ctx') ∧
      HttpContext.ParamsAreValid sampleLib
        { pageAgeContext with Params := pageAgeContext.Params.reverse }
        = Except.ok (true, ctx2') ∧
      List.Perm ctx'.Params ctx2'.Params ∧ List.Perm ctx'.ErrorCodes ctx2'.ErrorCodes :=
  have hinv : JsonStateInv pageAgeContext :=
    ⟨⟨by decide, by decide⟩, Or.inr (Or.inl ⟨rfl, rfl, by decide, by decide⟩)⟩
  have hperm : List.Perm pageAgeContext.Params pageAgeContext.Params.reverse :=
    (List.reverse_perm _).symm
  ⟨hinv, rfl, hperm,
    match (C19_order_independent sampleLib pageAgeContext _ ⟨_, rfl⟩ hinv rfl hperm).2
      true _ rfl with
    | ⟨ctx2', h2, hp, hc, _⟩ => ⟨_, ctx2', rfl, h2, hp, hc⟩⟩

/-- C20. In a context whose descriptors are all as `Define*Param` registered them, after a
pass (which returns whenever the JSON body cannot trip the type assertion) every descriptor
that is present is also valid, and its value has the dynamic type of its data type, so that
the typed accessor of that data type returns the value instead of panicking. -/
theorem C20_present_value_is_typed (lib : Stdlib) (ctx : HttpContext)
    (hreg : ∀ e ∈ ctx.Params, Registered e.1 e.2) :
    (JsonBodyOk lib ctx → ∃ b ctx', ctx.ParamsAreValid lib = Except.ok (b, ctx')) ∧
    ∀ b ctx', ctx.ParamsAreValid lib = Except.ok (b, ctx') →
      ∀ e ∈ ctx'.Params, e.2.Present = true →
        e.2.Valid = true ∧ IsDataType e.2.DataType ∧
        (e.2.DataType = HttpIntParam → ∃ n, e.2.Value = GoValue.int n ∧ e.2.Int = Except.ok n) ∧
        (e.2.DataType = HttpStringParam →
          ∃ s, e.2.Value = GoValue.string s ∧ e.2.String = Except.ok s) ∧
        (e.2.DataType = HttpFloatParam →
          ∃ f, e.2.Value = GoValue.float64 f ∧ e.2.Float = Except.ok f) ∧
        (e.2.DataType = HttpBoolParam →
          ∃ v, e.2.Value = GoValue.bool v ∧ e.2.Bool = Except.ok v) := by
  refine ⟨fun hok => ?_, fun b ctx' h e' he' hpres => ?_⟩
  · obtain ⟨⟨b, ctx'⟩, hr⟩ := ParamsAreValid_ok lib ctx hok
    exact ⟨b, ctx', hr⟩
  · have hsame : ctx' = ctx → False := by
      intro hc
      rw [hc] at he'
      rw [(hreg e' he').fields.2.2.2.1] at hpres
      exact absurd hpres (by simp)
    by_cases hE : ctx.Errors = []
    swap
    · rw [ParamsAreValid_of_errors lib ctx hE] at h
      simp only [Except.ok.injEq, Prod.mk.injEq] at h
      exact absurd h.2.symm hsame
    by_cases hne : ctx.Params = []
    · exfalso
      unfold HttpContext.ParamsAreValid at h
      simp only [hE, hne, List.length_nil, ne_eq, not_true_eq_false, if_false, if_true,
        Except.ok.injEq, Prod.mk.injEq] at h
      exact hsame h.2.symm
    · obtain ⟨c, hl, -, -⟩ := ParamsAreValid_loop lib ctx ctx' b hE hne h
      obtain ⟨-, hall⟩ := rangeParams_forall₂ lib ctx.Params ctx c ctx'.Params hl
      obtain ⟨e, he, -, c0, c1, hv, -⟩ := forall₂_mem_right hall e' he'
      obtain ⟨-, hdt, hvalid, habs, -⟩ := (hreg e he).fields
      obtain ⟨hstatic, -⟩ := validateParam_outcome lib c0 c1 e.2 e'.2 hv
      obtain ⟨hv', hI, hS, hF, hB⟩ := validateParam_present_typed lib c0 c1 e.2 e'.2 hdt habs hv hpres
      have hd : e'.2.DataType = e.2.DataType := hstatic.2.2.1
      refine ⟨by rw [hv', hvalid], by rw [hd]; exact hdt, fun h' => ?_, fun h' => ?_,
        fun h' => ?_, fun h' => ?_⟩
      · obtain ⟨n, hn⟩ := hI (hd ▸ h')
        exact ⟨n, hn, by simp [HttpParam.Int, hn]⟩
      · obtain ⟨s, hs⟩ := hS (hd ▸ h')
        exact ⟨s, hs, by simp [HttpParam.String, hs]⟩
      · obtain ⟨f, hf⟩ := hF (hd ▸ h')
        exact ⟨f, hf, by simp [HttpParam.Float, hf]⟩
      · obtain ⟨v, hb⟩ := hB (hd ▸ h')
        exact ⟨v, hb, by simp [HttpParam.Bool, hb]⟩

/-- C20 at the body `{"age": 30, "name": "Ann"}` with the integer descriptor `age` and the
string descriptor `name`: both end present, valid, and the accessors `Int` and `String`
return 30 and `Ann`. -/
theorem C20_witness :
    ∃ ctx', (ageNameContext annBody).ParamsAreValid tableLib = Except.ok (true, ctx') ∧
      (ctx'.Params.map (fun e => (e.1, e.2.Present, e.2.Int, e.2.String)))
        = [("age", true, Except.ok 30, Except.error "interface conversion: Value is not string"),
           ("name", true, Except.error "interface conversion: Value is not int",
             Except.ok "Ann")] ∧
      ∀ e ∈ ctx'.Params, e.2.Present = true → e.2.Valid = true ∧ IsDataType e.2.DataType :=
  ⟨_, rfl, rfl, fun e he hp =>
    have h := (C20_present_value_is_typed tableLib (ageNameContext annBody)
      (ageNameContext_registered annBody)).2 true _ rfl e he hp
    ⟨h.1, h.2.1⟩⟩

end Dlshared
